import Mathlib

/-!
# CAPlayThrough: the time-indexed ring buffer (`CARingBuffer.cpp`)

A shallow embedding of `CARingBuffer` (Allocate / Store / Fetch / time bounds)
and of the offset correction of the output callback of `CAPlayThrough.cpp`, and
proofs of their contracts.

Conventions of the embedding
* bytes are natural numbers, a memory region is a `List Byte` whose length is the
  size of the region; `memcpy` / `memset` outside a region is a memory fault,
  modelled by `none`;
* `UInt32` values are naturals reduced modulo `2 ^ 32` where the code computes
  them, `int` / `SInt32` values are integers reduced by `toSInt32` where the code
  converts to them;
* a `SampleTime` (`SInt64`) is an `Int`; signed 64-bit overflow is undefined
  behaviour in C++ and is not modelled, sample times are added and compared in `ℤ`;
* a `CARingBufferError` (`SInt32`) is an `Int`;
* the code runs single-threaded here: the compare-and-swap of `SetTimeBounds`
  always succeeds and no writer runs during `Fetch`;
* a `Float64` of the synchronizer is a rational number and its arithmetic is exact.
-/

namespace CARingBuffer

/-- One byte of audio data. -/
abbrev Byte := Nat

/-- Conversion of an integer to `UInt32`. -/
def toUInt32 (x : Int) : Nat := (x % 4294967296).toNat

/-- Conversion of an integer to `int` / `SInt32` (two's complement truncation). -/
def toSInt32 (x : Int) : Int := (x + 2147483648) % 4294967296 - 2147483648

/-- Modelled from the spec: the status codes of the header `CARingBuffer.h`, which is
not part of the sources. Behind statuses are negative, ahead statuses positive, and
the magnitude orders the deviation (way > slightly > OK). -/
def kCARingBufferError_WayBehind : Int := -2

/-- Modelled from the spec: status code `SlightlyBehind` of `CARingBuffer.h`. -/
def kCARingBufferError_SlightlyBehind : Int := -1

/-- Modelled from the spec: status code `OK` of `CARingBuffer.h`. -/
def kCARingBufferError_OK : Int := 0

/-- Modelled from the spec: status code `SlightlyAhead` of `CARingBuffer.h`. -/
def kCARingBufferError_SlightlyAhead : Int := 1

/-- Modelled from the spec: status code `WayAhead` of `CARingBuffer.h`. -/
def kCARingBufferError_WayAhead : Int := 2

/-- Modelled from the spec: status code `TooMuch` of `CARingBuffer.h`. -/
def kCARingBufferError_TooMuch : Int := 3

/-- Modelled from the spec: status code `CPUOverload` of `CARingBuffer.h`. -/
def kCARingBufferError_CPUOverload : Int := 4

/-- Modelled from the spec: the size of the bounds history declared in
`CARingBuffer.h` ("small fixed-size circular array (8 slots)"). -/
def kGeneralRingTimeBoundsQueueSize : Nat := 8

/-- Modelled from the spec: the index mask of the bounds history, size minus one
("indexed by `version mod 8`"). -/
def kGeneralRingTimeBoundsQueueMask : Nat := kGeneralRingTimeBoundsQueueSize - 1

/-- Auxiliary loop of `nextPowerOfTwo`: double `p` until it reaches `c`. -/
def nextPowerOfTwoAux : Nat → Nat → Nat → Nat
  | 0, p, _ => p
  | fuel + 1, p, c => if c ≤ p then p else nextPowerOfTwoAux fuel (2 * p) c

/-- Modelled from the spec: `NextPowerOfTwo` of `CABitOperations.h`, which is not part
of the sources; "rounds `requestedCapacityFrames` up to the next power of two": the
least power of two that is at least `c`. -/
def nextPowerOfTwo (c : Nat) : Nat := nextPowerOfTwoAux c 1 c

/-- Modelled from the spec: `NextPowerOfTwo` as called by `Allocate`, whose result is
stored in the `UInt32` variable `capacityFrames`. -/
def NextPowerOfTwo (c : Nat) : Nat := nextPowerOfTwo c % 4294967296

/-- The struct `CARingBuffer::TimeBounds`. -/
structure TimeBounds where
  mStartTime : Int
  mEndTime : Int
  mUpdateCounter : Nat
  deriving DecidableEq, Repr

/-- The struct `AudioBuffer` of a caller's `AudioBufferList`: `mData` is the memory
region the buffer points to, `mDataByteSize` the size recorded for it. -/
structure AudioBuffer where
  mDataByteSize : Nat
  mData : List Byte
  deriving DecidableEq, Repr

/-- The struct `AudioBufferList`: one `AudioBuffer` per channel (`mNumberBuffers` is
the length of the list). -/
abbrev AudioBufferList := List AudioBuffer

end CARingBuffer

/-- The state of a `CARingBuffer` object. `mBuffers` holds the storage of each
channel (the single allocation of `Allocate` is modelled as one region per
channel). -/
structure CARingBuffer where
  mBuffers : List (List CARingBuffer.Byte)
  mNumberChannels : Nat
  mBytesPerFrame : Nat
  mCapacityFrames : Nat
  mCapacityFramesMask : Nat
  mCapacityBytes : Nat
  mTimeBoundsQueue : List CARingBuffer.TimeBounds
  mTimeBoundsQueuePtr : Nat
  deriving DecidableEq, Repr

namespace CARingBuffer

/-- The constructor `CARingBuffer::CARingBuffer()`; the bounds history of a
constructed object is taken to be zero. -/
def new : CARingBuffer :=
  { mBuffers := [], mNumberChannels := 0, mBytesPerFrame := 0, mCapacityFrames := 0,
    mCapacityFramesMask := 0, mCapacityBytes := 0,
    mTimeBoundsQueue := List.replicate kGeneralRingTimeBoundsQueueSize ⟨0, 0, 0⟩,
    mTimeBoundsQueuePtr := 0 }

/-- The method `CARingBuffer::Deallocate`. -/
def Deallocate (rb : CARingBuffer) : CARingBuffer :=
  { rb with mBuffers := [], mNumberChannels := 0, mCapacityBytes := 0, mCapacityFrames := 0 }

/-- The method `CARingBuffer::Allocate`. The allocation is taken to succeed and to hold
the pointer table and the storage of every channel (the `UInt32` allocation size
`(mCapacityBytes + sizeof(Byte *)) * nChannels` is taken not to wrap), so that every
channel is a region of `mCapacityBytes` zeroed bytes. -/
def Allocate (rb : CARingBuffer) (nChannels : Nat) (bytesPerFrame : Nat)
    (capacityFrames : Nat) : CARingBuffer :=
  let rb := rb.Deallocate
  let capacityFrames := NextPowerOfTwo capacityFrames
  let mCapacityBytes := (bytesPerFrame * capacityFrames) % 4294967296
  { rb with
    mNumberChannels := nChannels
    mBytesPerFrame := bytesPerFrame
    mCapacityFrames := capacityFrames
    mCapacityFramesMask := toUInt32 ((capacityFrames : Int) - 1)
    mCapacityBytes := mCapacityBytes
    mBuffers := List.replicate nChannels (List.replicate mCapacityBytes 0)
    mTimeBoundsQueue := List.replicate kGeneralRingTimeBoundsQueueSize ⟨0, 0, 0⟩
    mTimeBoundsQueuePtr := 0 }

/-- The library call `memset(region + offset, 0, nbytes)`; the `int` byte count is
converted to `size_t`, so a negative count is out of bounds. -/
def memsetZero (dst : List Byte) (offset nbytes : Int) : Option (List Byte) :=
  if 0 ≤ offset ∧ 0 ≤ nbytes ∧ offset + nbytes ≤ dst.length then
    some (dst.take offset.toNat ++ List.replicate nbytes.toNat 0
      ++ dst.drop (offset.toNat + nbytes.toNat))
  else none

/-- The library call `memcpy(dst + destOffset, src + srcOffset, nbytes)`. -/
def memcpy (dst : List Byte) (destOffset : Int) (src : List Byte) (srcOffset nbytes : Int) :
    Option (List Byte) :=
  if 0 ≤ destOffset ∧ 0 ≤ srcOffset ∧ 0 ≤ nbytes ∧ destOffset + nbytes ≤ dst.length
      ∧ srcOffset + nbytes ≤ src.length then
    some (dst.take destOffset.toNat ++ (src.drop srcOffset.toNat).take nbytes.toNat
      ++ dst.drop (destOffset.toNat + nbytes.toNat))
  else none

/-- The function `ZeroRange`: zero `nbytes` bytes at `offset` in the first `nchannels`
channel regions. -/
def ZeroRange : List (List Byte) → Nat → Int → Int → Option (List (List Byte))
  | buffers, 0, _, _ => some buffers
  | [], _ + 1, _, _ => none
  | b :: buffers, nchannels + 1, offset, nbytes =>
    match memsetZero b offset nbytes, ZeroRange buffers nchannels offset nbytes with
    | some b', some buffers' => some (b' :: buffers')
    | _, _ => none

/-- The function `StoreABL`: copy `nbytes` bytes of every buffer of `abl` into the
channel region of the same index. -/
def StoreABL : List (List Byte) → Int → AudioBufferList → Int → Int → Option (List (List Byte))
  | buffers, _, [], _, _ => some buffers
  | [], _, _ :: _, _, _ => none
  | b :: buffers, destOffset, src :: abl, srcOffset, nbytes =>
    match memcpy b destOffset src.mData srcOffset nbytes,
      StoreABL buffers destOffset abl srcOffset nbytes with
    | some b', some buffers' => some (b' :: buffers')
    | _, _ => none

/-- The function `FetchABL`: copy `nbytes` bytes of the channel region of the same
index into every buffer of `abl`. -/
def FetchABL : AudioBufferList → Int → List (List Byte) → Int → Int → Option AudioBufferList
  | [], _, _, _, _ => some []
  | _ :: _, _, [], _, _ => none
  | dest :: abl, destOffset, b :: buffers, srcOffset, nbytes =>
    match memcpy dest.mData destOffset b srcOffset nbytes,
      FetchABL abl destOffset buffers srcOffset nbytes with
    | some d', some abl' => some ({ dest with mData := d' } :: abl')
    | _, _ => none

/-- The function `ZeroABL`: zero `nbytes` bytes at `destOffset` in every buffer of
`abl`. -/
def ZeroABL : AudioBufferList → Int → Int → Option AudioBufferList
  | [], _, _ => some []
  | dest :: abl, destOffset, nbytes =>
    match memsetZero dest.mData destOffset nbytes, ZeroABL abl destOffset nbytes with
    | some d', some abl' => some ({ dest with mData := d' } :: abl')
    | _, _ => none

/-- The published slot of the bounds history,
`mTimeBoundsQueue[mTimeBoundsQueuePtr & kGeneralRingTimeBoundsQueueMask]`. -/
def currentBounds (rb : CARingBuffer) : TimeBounds :=
  rb.mTimeBoundsQueue.getD (rb.mTimeBoundsQueuePtr &&& kGeneralRingTimeBoundsQueueMask) ⟨0, 0, 0⟩

/-- Modelled from the spec: the inline accessor `StartTime()` of `CARingBuffer.h`, the
start of the currently published window. -/
def StartTime (rb : CARingBuffer) : Int := rb.currentBounds.mStartTime

/-- Modelled from the spec: the inline accessor `EndTime()` of `CARingBuffer.h`, the
end of the currently published window. -/
def EndTime (rb : CARingBuffer) : Int := rb.currentBounds.mEndTime

/-- Modelled from the spec: the inline helper `FrameOffset` of `CARingBuffer.h`, the
byte offset of a frame in circular storage ("at `startTime mod capacityFrames`"). -/
def FrameOffset (rb : CARingBuffer) (frameNumber : Int) : Int :=
  (frameNumber % (rb.mCapacityFrames : Int)) * rb.mBytesPerFrame

/-- The method `CARingBuffer::SetTimeBounds`. -/
def SetTimeBounds (rb : CARingBuffer) (startTime endTime : Int) : CARingBuffer :=
  let nextPtr := (rb.mTimeBoundsQueuePtr + 1) % 4294967296
  let index := nextPtr &&& kGeneralRingTimeBoundsQueueMask
  { rb with
    mTimeBoundsQueue := rb.mTimeBoundsQueue.set index ⟨startTime, endTime, nextPtr⟩
    mTimeBoundsQueuePtr := (rb.mTimeBoundsQueuePtr + 1) % 4294967296 }

/-- The retry loop of `CARingBuffer::GetTimeBounds`, with `tries` iterations left and
the current values of the two reference parameters. -/
def GetTimeBoundsLoop (rb : CARingBuffer) :
    Nat → Int → Int → Int × Int × Int
  | 0, startTime, endTime => (kCARingBufferError_CPUOverload, startTime, endTime)
  | tries + 1, _, _ =>
    let bounds := rb.currentBounds
    if bounds.mUpdateCounter = rb.mTimeBoundsQueuePtr then
      (kCARingBufferError_OK, bounds.mStartTime, bounds.mEndTime)
    else GetTimeBoundsLoop rb tries bounds.mStartTime bounds.mEndTime

/-- The method `CARingBuffer::GetTimeBounds`; the result carries the status and the
values of the reference parameters `startTime`, `endTime` on return. -/
def GetTimeBounds (rb : CARingBuffer) (startTime endTime : Int) :
    Int × Int × Int :=
  GetTimeBoundsLoop rb 8 startTime endTime

/-- The method `CARingBuffer::ClipTimeBounds`; the result carries the status and the
values of the reference parameters `startRead`, `endRead` on return. -/
def ClipTimeBounds (rb : CARingBuffer) (startRead endRead : Int) :
    Int × Int × Int :=
  let (err, startTime, endTime) := rb.GetTimeBounds 0 0
  if err ≠ 0 then (err, startRead, endRead)
  else if startRead < startTime then
    if endRead > endTime then (kCARingBufferError_TooMuch, startTime, endTime)
    else if endRead < startTime then (kCARingBufferError_WayBehind, startTime, startTime)
    else (kCARingBufferError_SlightlyBehind, startTime, endRead)
  else if endRead > endTime then
    if startRead > endTime then (kCARingBufferError_WayAhead, endTime, endTime)
    else (kCARingBufferError_SlightlyAhead, startRead, endTime)
  else (kCARingBufferError_OK, startRead, endRead)

/-- The function `worse`. -/
def worse (a b : Int) : Int :=
  let aa := if a < 0 then -a else a
  let bb := if b < 0 then -b else b
  if aa > bb then a else b

/-- The block of `Store` that zeroes the skipped range between the byte offsets
`offset0` and `offset1` of circular storage (one `ZeroRange`, or two when the range
wraps past the end of storage). -/
def zeroSkipped (buffers : List (List Byte)) (nchannels : Nat) (mCapacityBytes : Nat)
    (offset0 offset1 : Int) : Option (List (List Byte)) :=
  if offset0 < offset1 then ZeroRange buffers nchannels offset0 (offset1 - offset0)
  else
    (ZeroRange buffers nchannels offset0 (toSInt32 (mCapacityBytes - offset0))).bind
      fun buffers => ZeroRange buffers nchannels 0 offset1

/-- The block of `Store` that writes the new frames between the byte offsets `offset0`
and `offset1` of circular storage (one `StoreABL`, or two when the range wraps). -/
def storeFrames (buffers : List (List Byte)) (mCapacityBytes : Nat) (offset0 offset1 : Int)
    (abl : AudioBufferList) : Option (List (List Byte)) :=
  if offset0 < offset1 then StoreABL buffers offset0 abl 0 (offset1 - offset0)
  else
    let nbytes := toSInt32 (mCapacityBytes - offset0)
    (StoreABL buffers offset0 abl 0 nbytes).bind
      fun buffers => StoreABL buffers 0 abl nbytes offset1

/-- The first block of `Store` after the capacity check: the adjustment of the time
bounds before any frame is written (reset on a backward write, eviction when the new
end would exceed the capacity). -/
def adjustBounds (rb : CARingBuffer) (framesToWrite : Nat) (startWrite : Int) :
    CARingBuffer :=
  let endWrite : Int := startWrite + framesToWrite
  if startWrite < rb.EndTime then rb.SetTimeBounds startWrite startWrite
  else if endWrite - rb.StartTime ≤ rb.mCapacityFrames then rb
  else
    let newStart := endWrite - rb.mCapacityFrames
    let newEnd := max newStart rb.EndTime
    rb.SetTimeBounds newStart newEnd

/-- The method `CARingBuffer::Store`; `none` is a memory fault of one of the copies. -/
def Store (rb : CARingBuffer) (abl : AudioBufferList) (framesToWrite : Nat)
    (startWrite : Int) : Option (Int × CARingBuffer) :=
  if framesToWrite > rb.mCapacityFrames then some (kCARingBufferError_TooMuch, rb)
  else
    let endWrite : Int := startWrite + framesToWrite
    let rb1 := rb.adjustBounds framesToWrite startWrite
    let zeroed : Option (List (List Byte)) :=
      if startWrite > rb1.EndTime then
        zeroSkipped rb1.mBuffers rb1.mNumberChannels rb1.mCapacityBytes
          (toSInt32 (rb1.FrameOffset rb1.EndTime)) (toSInt32 (rb1.FrameOffset startWrite))
      else some rb1.mBuffers
    zeroed.bind fun buffers =>
      (storeFrames buffers rb1.mCapacityBytes (toSInt32 (rb1.FrameOffset startWrite))
        (toSInt32 (rb1.FrameOffset endWrite)) abl).bind fun buffers =>
        let rb2 := { rb1 with mBuffers := buffers }
        some (kCARingBufferError_OK, rb2.SetTimeBounds rb2.StartTime endWrite)

/-- The loop of `Fetch` that records `nbytes` as the byte size of every buffer. -/
def setDataByteSize (abl : AudioBufferList) (nbytes : Int) : AudioBufferList :=
  abl.map fun dest => { dest with mDataByteSize := toUInt32 nbytes }

/-- The block of `Fetch` that copies the clipped range between the byte offsets
`offset0` and `offset1` of circular storage to the caller's buffers (one `FetchABL`, or
two when the range wraps); the result carries the final value of `nbytes`. -/
def fetchFrames (abl : AudioBufferList) (destStartByteOffset : Int)
    (buffers : List (List Byte)) (mCapacityBytes : Nat) (offset0 offset1 : Int) :
    Option (Int × AudioBufferList) :=
  if offset0 < offset1 then
    let nbytes := offset1 - offset0
    (FetchABL abl destStartByteOffset buffers offset0 nbytes).map fun abl => (nbytes, abl)
  else
    let nbytes := toSInt32 (mCapacityBytes - offset0)
    ((FetchABL abl destStartByteOffset buffers offset0 nbytes).bind
      fun abl => FetchABL abl (destStartByteOffset + nbytes) buffers 0 offset1).map
      fun abl => (nbytes + offset1, abl)

/-- The block of `Fetch` that zeroes the leading and the trailing frames of the
caller's buffers that lie outside the clipped range. -/
def zeroOutside (abl : AudioBufferList) (mBytesPerFrame : Nat)
    (destStartFrameOffset readSizeFrames destEndSize : Int) : Option AudioBufferList :=
  let zeroed : Option AudioBufferList :=
    if destStartFrameOffset > 0 then
      ZeroABL abl 0 (toSInt32 (destStartFrameOffset * mBytesPerFrame))
    else some abl
  zeroed.bind fun abl =>
    if destEndSize > 0 then
      ZeroABL abl (toSInt32 ((destStartFrameOffset + readSizeFrames) * mBytesPerFrame))
        (toSInt32 (destEndSize * mBytesPerFrame))
    else some abl

/-- The method `CARingBuffer::Fetch`; the result carries the status and the caller's
buffer list on return, `none` is a memory fault of one of the copies. -/
def Fetch (rb : CARingBuffer) (abl : AudioBufferList) (nFrames : Nat)
    (startRead : Int) : Option (Int × AudioBufferList) :=
  let endRead : Int := startRead + nFrames
  let startRead0 := startRead
  let endRead0 := endRead
  let (err, startRead, endRead) := rb.ClipTimeBounds startRead endRead
  let readSizeFrames := endRead - startRead
  if err ≠ 0 ∧ readSizeFrames ≤ 0 then some (err, abl)
  else
    let destStartFrameOffset := toSInt32 (startRead - startRead0)
    let destEndSize := toSInt32 (endRead0 - endRead)
    (zeroOutside abl rb.mBytesPerFrame destStartFrameOffset readSizeFrames destEndSize).bind
      fun abl =>
      (fetchFrames abl (toSInt32 (destStartFrameOffset * rb.mBytesPerFrame)) rb.mBuffers
        rb.mCapacityBytes (toSInt32 (rb.FrameOffset startRead))
        (toSInt32 (rb.FrameOffset endRead))).bind fun (nbytes, abl) =>
        let abl := setDataByteSize abl nbytes
        let (err2, startRead, endRead) := rb.ClipTimeBounds startRead endRead
        let err2 := worse err err2
        let readSizeFrames := endRead - startRead
        if err2 ≠ 0 ∧ readSizeFrames ≤ 0 then some (err2, abl)
        else some (err2, abl)

/-! ## Auxiliary definitions of the proofs -/

/-- Replace the bytes of `dst` from offset `d` on by the bytes of `seg`. -/
def splice (dst : List Byte) (d : Nat) (seg : List Byte) : List Byte :=
  dst.take d ++ seg ++ dst.drop (d + seg.length)

/-- The circular write of `storeFrames` on one channel region. -/
def wrapCopy (dst : List Byte) (mCapacityBytes : Nat) (offset0 offset1 : Int)
    (src : List Byte) : Option (List Byte) :=
  if offset0 < offset1 then memcpy dst offset0 src 0 (offset1 - offset0)
  else
    (memcpy dst offset0 src 0 (toSInt32 (mCapacityBytes - offset0))).bind
      fun dst => memcpy dst 0 src (toSInt32 (mCapacityBytes - offset0)) offset1

/-- The circular read of `fetchFrames` into one caller buffer. -/
def wrapRead (dest : List Byte) (destStartByteOffset : Int) (ring : List Byte)
    (mCapacityBytes : Nat) (offset0 offset1 : Int) : Option (List Byte) :=
  if offset0 < offset1 then memcpy dest destStartByteOffset ring offset0 (offset1 - offset0)
  else
    (memcpy dest destStartByteOffset ring offset0 (toSInt32 (mCapacityBytes - offset0))).bind
      fun dest => memcpy dest (destStartByteOffset + toSInt32 (mCapacityBytes - offset0))
        ring 0 offset1

/-- The number of bytes the circular copy between the byte offsets `o0` and `o1`
transfers: the whole storage when the two offsets coincide. -/
def wrapLen (CB o0 o1 : Nat) : Nat := if o0 < o1 then o1 - o0 else CB - o0 + o1

/-- The distance of the byte position `p` of circular storage from the byte
offset `o0`, going forward. -/
def wrapRel (CB o0 p : Nat) : Nat := if o0 ≤ p then p - o0 else p + CB - o0

/-- The byte position of circular storage at distance `k` from the offset `o0`. -/
def wrapPos (CB o0 k : Nat) : Nat := if o0 + k < CB then o0 + k else o0 + k - CB

/-- The per-channel effect of a write pass over the channel regions. -/
def storeChan (f : List Byte → List Byte → Option (List Byte)) :
    Option (List Byte) → Option AudioBuffer → Option (List Byte)
  | some b, some a => f b a.mData
  | some b, none => some b
  | none, _ => none

/-- The per-channel effect of a read pass over a caller's buffers. -/
def fetchChan (f : List Byte → List Byte → Option (List Byte)) :
    Option AudioBuffer → Option (List Byte) → Option AudioBuffer
  | some a, some b => (f a.mData b).map fun m => { a with mData := m }
  | _, _ => none

/-- The states a ring buffer object reaches: `Allocate` on any object, followed by
any number of returning `Store` calls with arbitrary arguments. -/
inductive Reachable : CARingBuffer → Prop
  | allocate (rb : CARingBuffer) (nChannels bytesPerFrame capacityFrames : Nat) :
      Reachable (rb.Allocate nChannels bytesPerFrame capacityFrames)
  | store {rb rb' : CARingBuffer} {err : Int} (abl : AudioBufferList)
      (framesToWrite : Nat) (startWrite : Int) :
      Reachable rb → rb.Store abl framesToWrite startWrite = some (err, rb') → Reachable rb'

/-- The invariant of the bounds history: eight slots, the published slot carries the
published counter, and every slot is a window no longer than the capacity. -/
structure QueueInv (rb : CARingBuffer) : Prop where
  queue_length : rb.mTimeBoundsQueue.length = kGeneralRingTimeBoundsQueueSize
  counter : rb.currentBounds.mUpdateCounter = rb.mTimeBoundsQueuePtr
  counter_lt : rb.mTimeBoundsQueuePtr < 4294967296
  bounds : ∀ b ∈ rb.mTimeBoundsQueue,
    b.mStartTime ≤ b.mEndTime ∧ b.mEndTime - b.mStartTime ≤ rb.mCapacityFrames

/-- The invariant of the channel storage: one region of `mCapacityBytes` bytes per
channel. -/
structure StorageInv (rb : CARingBuffer) : Prop where
  capacityBytes : rb.mCapacityBytes = (rb.mBytesPerFrame * rb.mCapacityFrames) % 4294967296
  channels : rb.mBuffers.length = rb.mNumberChannels
  storage : ∀ b ∈ rb.mBuffers, b.length = rb.mCapacityBytes

/-- The circular zeroing of `zeroSkipped` on one channel region. -/
def wrapZero (dst : List Byte) (mCapacityBytes : Nat) (offset0 offset1 : Int) :
    Option (List Byte) :=
  if offset0 < offset1 then memsetZero dst offset0 (offset1 - offset0)
  else
    (memsetZero dst offset0 (toSInt32 (mCapacityBytes - offset0))).bind
      fun dst => memsetZero dst 0 offset1

/-- The per-channel effect of a zeroing pass over the first `k` channel regions. -/
def zeroChan (f : List Byte → Option (List Byte)) (k c : Nat) :
    Option (List Byte) → Option (List Byte)
  | some b => if c < k then f b else some b
  | none => none

/-- The per-channel effect of a zeroing pass over a caller's buffers. -/
def zeroAblChan (f : List Byte → Option (List Byte)) : Option AudioBuffer → Option AudioBuffer
  | some a => (f a.mData).map fun m => { a with mData := m }
  | none => none

/-- The byte offset in circular storage of the frame of sample time `τ`, as a natural
number. -/
def byteOffset (rb : CARingBuffer) (τ : Int) : Nat :=
  (τ % (rb.mCapacityFrames : Int)).toNat * rb.mBytesPerFrame

/-- The number of bytes per channel that a circular copy of `n` frames transfers: `n`
frames, but the whole storage when `n = 0`, since the copy blocks take coinciding
start and end offsets for a full wrap. -/
def spanBytes (rb : CARingBuffer) (n : Nat) : Nat :=
  if n = 0 then rb.mCapacityBytes else n * rb.mBytesPerFrame

/-- The size conditions of an allocated buffer: at least one frame of capacity and a
per-channel storage size that the `int` byte offsets of the code can hold. -/
structure Sized (rb : CARingBuffer) : Prop where
  capacity_pos : 0 < rb.mCapacityFrames
  fits : rb.mBytesPerFrame * rb.mCapacityFrames < 2147483648

/-- The invariants of an allocated ring buffer taken together. -/
structure WellFormed (rb : CARingBuffer) : Prop where
  wfQueue : QueueInv rb
  wfStorage : StorageInv rb
  wfSized : Sized rb

/-- The byte that the write block of `Store` leaves at a position of a channel region:
the source byte at distance `k` from the write offset when the position lies in the
span of `len` bytes and the caller supplies a buffer for the channel, the previous
byte `old` of the region otherwise. -/
def storedByte (a : Option AudioBuffer) (k len : Nat) (old : Option Byte) : Option Byte :=
  match a with
  | some a => if k < len then a.mData[k]? else old
  | none => old

/-- The status that `ClipTimeBounds` computes for the request `[s, e)` against the
published window `[S, E)`. -/
def clipStatus (S E s e : Int) : Int :=
  if s < S then
    if e > E then kCARingBufferError_TooMuch
    else if e < S then kCARingBufferError_WayBehind
    else kCARingBufferError_SlightlyBehind
  else if e > E then
    if s > E then kCARingBufferError_WayAhead else kCARingBufferError_SlightlyAhead
  else kCARingBufferError_OK

/-- The start of the range that `ClipTimeBounds` leaves for the request `[s, e)`
against the published window `[S, E)`. -/
def clipStart (S E s e : Int) : Int :=
  if s < S then S else if e > E then (if s > E then E else s) else s

/-- The end of the range that `ClipTimeBounds` leaves for the request `[s, e)` against
the published window `[S, E)`. -/
def clipEnd (S E s e : Int) : Int :=
  if s < S then (if e > E then E else if e < S then S else e) else if e > E then E else e

/-- The zeroing of the leading and the trailing frames by `zeroOutside` on one caller
buffer. -/
def zeroLeadTrail (a : List Byte) (mBytesPerFrame : Nat)
    (destStartFrameOffset readSizeFrames destEndSize : Int) : Option (List Byte) :=
  (if destStartFrameOffset > 0 then
      memsetZero a 0 (toSInt32 (destStartFrameOffset * mBytesPerFrame))
    else some a).bind fun a =>
    if destEndSize > 0 then
      memsetZero a (toSInt32 ((destStartFrameOffset + readSizeFrames) * mBytesPerFrame))
        (toSInt32 (destEndSize * mBytesPerFrame))
    else some a

/-- A pass over a caller's buffers that applies `f` to the memory region of each. -/
def AblPass (f : List Byte → Option (List Byte)) (abl r : AudioBufferList) : Prop :=
  r.length = abl.length ∧ ∀ c : Nat, r[c]? = zeroAblChan f abl[c]?

/-- The number of leading frames of a request of `m` frames at `s` that lie before the
clipped range. -/
def fetchLead (rb : CARingBuffer) (m : Nat) (s : Int) : Nat :=
  (clipStart rb.StartTime rb.EndTime s (s + m) - s).toNat

/-- The number of frames of the clipped range of a request of `m` frames at `s`. -/
def fetchLen (rb : CARingBuffer) (m : Nat) (s : Int) : Nat :=
  (clipEnd rb.StartTime rb.EndTime s (s + m) - clipStart rb.StartTime rb.EndTime s (s + m)).toNat

/-- The number of trailing frames of a request of `m` frames at `s` that lie after the
clipped range. -/
def fetchTrail (rb : CARingBuffer) (m : Nat) (s : Int) : Nat :=
  (s + m - clipEnd rb.StartTime rb.EndTime s (s + m)).toNat

/-- The byte that `Fetch` leaves at position `q` of a caller's buffer: the byte of
circular storage at distance `q - lead` from the offset `o0` inside the copied span,
zero in the leading and trailing ranges outside the clipped range, the previous byte
elsewhere (`lead`, `span`, `endClip` and `endReq` are byte counts). -/
def fetchedByte (ring : List Byte) (CB o0 lead span endClip endReq : Nat) (old : List Byte)
    (q : Nat) : Option Byte :=
  if lead ≤ q ∧ q < lead + span then ring[wrapPos CB o0 (q - lead)]?
  else if q < lead ∨ (endClip ≤ q ∧ q < endReq) then some 0
  else old[q]?

/-- The state after a returning call, for building example states. -/
def stateAfter (r : Option (Int × CARingBuffer)) : CARingBuffer :=
  match r with
  | some (_, rb) => rb
  | none => CARingBuffer.new

/-- Example: a one-channel buffer of one byte per frame and capacity 1024. -/
def example1024 : CARingBuffer := CARingBuffer.new.Allocate 1 1 1024

/-- Example: a caller's buffer list holding 512 frames of one byte. -/
def frames512 : AudioBufferList := [⟨512, List.replicate 512 7⟩]

/-- Example: `example1024` after `Store(_, 512, 0)`. -/
def example1024a : CARingBuffer := stateAfter (example1024.Store frames512 512 0)

/-- Example: `example1024` after `Store(_, 512, 0)` and `Store(_, 512, 512)`. -/
def example1024b : CARingBuffer := stateAfter (example1024a.Store frames512 512 512)

/-- Example: `example1024` after `Store(_, 512, 0)`, `Store(_, 512, 512)` and
`Store(_, 512, 1024)`. -/
def example1024c : CARingBuffer := stateAfter (example1024b.Store frames512 512 1024)

/-- Example: a caller's buffer list with room for 256 frames of one byte, filled with
the byte 7. -/
def out256 : AudioBufferList := [⟨256, List.replicate 256 7⟩]

/-- Example: a two-channel buffer of two bytes per frame; the requested capacity 3 is
rounded up to 4 frames. -/
def small : CARingBuffer := CARingBuffer.new.Allocate 2 2 3

/-- Example: a caller's buffer list holding three frames of two bytes in two channels. -/
def smallFrames : AudioBufferList := [⟨6, [1, 2, 3, 4, 5, 6]⟩, ⟨6, [11, 12, 13, 14, 15, 16]⟩]

/-- Example: a caller's output buffer list with room for three frames of two bytes in two
channels, filled with the byte 9. -/
def smallOut : AudioBufferList := [⟨6, [9, 9, 9, 9, 9, 9]⟩, ⟨6, [9, 9, 9, 9, 9, 9]⟩]

/-- Example: `small` after `Store(smallFrames, 3, 2)`, a write that skips the frames 0
and 1 and wraps past the end of storage. -/
def smallStored : CARingBuffer := stateAfter (small.Store smallFrames 3 2)

/-- The number of bounds entries that `Store(_, n, t)` publishes when it does not exit
with `TooMuch`: one at the end, and one more before the copy when the write goes
backward (reset) or the new end exceeds the capacity (eviction). -/
def storePublishes (rb : CARingBuffer) (n : Nat) (t : Int) : Nat :=
  if t < rb.EndTime ∨ (rb.mCapacityFrames : Int) < t + n - rb.StartTime then 2 else 1

/-- Example: a caller's buffer list holding four frames of two bytes in two channels. -/
def smallFull : AudioBufferList :=
  [⟨8, [1, 2, 3, 4, 5, 6, 7, 8]⟩, ⟨8, [11, 12, 13, 14, 15, 16, 17, 18]⟩]

/-- Example: a caller's buffer list of two channels that holds no frame. -/
def smallEmpty : AudioBufferList := [⟨0, []⟩, ⟨0, []⟩]

end CARingBuffer

/-! ## The synchronizer of `CAPlayThrough.cpp`

The `Float64` members and sample times of `CAPlayThrough` are rational numbers here
(every finite `Float64` is one), and their sums and differences are exact: rounding of
`Float64` arithmetic is not modelled. -/

/-- The members of `AudioDevice` that the synchronizer reads. Both are `UInt32`
(`AudioDevice::Init` reads them with `sizeof(UInt32)`). -/
structure AudioDevice where
  mSafetyOffset : Nat
  mBufferSizeFrames : Nat
  deriving DecidableEq, Repr

/-- The members of a `CAPlayThrough` object that the output callback reads and writes:
the two devices, the ring buffer `*mBuffer`, and the buffer sample info. -/
structure CAPlayThrough where
  mInputDevice : AudioDevice
  mOutputDevice : AudioDevice
  mBuffer : CARingBuffer
  mFirstInputTime : ℚ
  mFirstOutputTime : ℚ
  mInToOutSampleOffset : ℚ

namespace CAPlayThrough

open CARingBuffer

/-- The static member `CAPlayThrough::kAdjustmentOffsetSamples`. -/
def kAdjustmentOffsetSamples : ℚ := 128

/-- The conversion `SInt64(x)` of a `Float64`, which truncates toward zero: the
quotient of numerator by denominator, rounded toward zero. -/
def toSInt64 (x : ℚ) : Int := x.num.tdiv x.den

/-- The function `MakeBufferSilent`: zero the first `mDataByteSize` bytes of every
buffer; `none` when a recorded size exceeds the memory of its buffer. -/
def MakeBufferSilent : AudioBufferList → Option AudioBufferList
  | [] => some []
  | b :: ioData =>
    match memsetZero b.mData 0 b.mDataByteSize, MakeBufferSilent ioData with
    | some d, some rest => some ({ b with mData := d } :: rest)
    | _, _ => none

/-- The method `CAPlayThrough::ComputeThruOffset`: the sum of the four `UInt32` values
is a `UInt32`, converted to `SInt32` and then to `Float64`. -/
def ComputeThruOffset (This : CAPlayThrough) : CAPlayThrough :=
  { This with
    mInToOutSampleOffset :=
      ((toSInt32 (((This.mInputDevice.mSafetyOffset + This.mInputDevice.mBufferSizeFrames
        + This.mOutputDevice.mSafetyOffset + This.mOutputDevice.mBufferSizeFrames)
          % 4294967296 : Nat) : Int) : Int) : ℚ) }

/-- The block of `OutputProc` that runs when `Fetch` returned a status `err` other than
`OK` (lines 719 to 740): read the time bounds, add the correction to
`mInToOutSampleOffset`, and silence the output. -/
def correctMiss (This : CAPlayThrough) (err : Int) (mSampleTime : ℚ) (inNumberFrames : Nat)
    (ioData : AudioBufferList) : Option (CAPlayThrough × AudioBufferList) :=
  let (_, bufferStartTime, bufferEndTime) := This.mBuffer.GetTimeBounds 0 0
  let adjusted : Option (CAPlayThrough × AudioBufferList) :=
    if err < kCARingBufferError_OK then
      (if err = kCARingBufferError_WayBehind then MakeBufferSilent ioData
        else some ioData).map fun ioData =>
        ({ This with
            mInToOutSampleOffset := This.mInToOutSampleOffset
              + max ((mSampleTime - This.mInToOutSampleOffset) - bufferStartTime)
                  kAdjustmentOffsetSamples },
          ioData)
    else if err > kCARingBufferError_OK then
      (if err = kCARingBufferError_WayAhead then MakeBufferSilent ioData
        else some ioData).map fun ioData =>
        ({ This with
            mInToOutSampleOffset := This.mInToOutSampleOffset
              + max (((mSampleTime - This.mInToOutSampleOffset) + inNumberFrames)
                  - bufferEndTime) kAdjustmentOffsetSamples },
          ioData)
    else some (This, ioData)
  adjusted.bind fun (This, ioData) =>
    (MakeBufferSilent ioData).map fun ioData => (This, ioData)

/-- The callback `CAPlayThrough::OutputProc`, as a function of the object, the status
`inputTimeErr` of `AudioDeviceGetCurrentTime` for the input device, the sample time of
the time stamp, the frame count and the caller's buffers; the result carries the object
and the buffers on return (the callback returns `noErr` on all these paths), `none` is
a memory fault. The calls to the output device clock and to the varispeed unit (lines
693 to 698) are guarded by the macro `checkErr`, which is not among the sources; they
are taken to succeed, and they touch none of the members modelled here. -/
def OutputProc (This : CAPlayThrough) (inputTimeErr : Int) (mSampleTime : ℚ)
    (inNumberFrames : Nat) (ioData : AudioBufferList) :
    Option (CAPlayThrough × AudioBufferList) :=
  if This.mFirstInputTime < 0 then
    (MakeBufferSilent ioData).map fun ioData => (This, ioData)
  else if inputTimeErr ≠ 0 then
    (MakeBufferSilent ioData).map fun ioData => (This, ioData)
  else if This.mFirstOutputTime < 0 then
    let This := { This with mFirstOutputTime := mSampleTime }
    let delta : ℚ := This.mFirstInputTime - This.mFirstOutputTime
    let This := This.ComputeThruOffset
    let This :=
      if delta < 0 then
        { This with mInToOutSampleOffset := This.mInToOutSampleOffset - delta }
      else { This with mInToOutSampleOffset := -delta + This.mInToOutSampleOffset }
    (MakeBufferSilent ioData).map fun ioData => (This, ioData)
  else
    (This.mBuffer.Fetch ioData inNumberFrames
      (toSInt64 (mSampleTime - This.mInToOutSampleOffset))).bind fun (err, ioData) =>
      if err ≠ kCARingBufferError_OK then
        correctMiss This err mSampleTime inNumberFrames ioData
      else some (This, ioData)

/-- The recorded byte size of every buffer of a list lies within the memory of the
buffer. -/
def SizesValid (ioData : AudioBufferList) : Prop :=
  ∀ a ∈ ioData, a.mDataByteSize ≤ a.mData.length

/-- Example: a synchronizer on the buffer `smallStored` (valid window `[1, 5)`) with
both first times recorded and a sample offset of 12. -/
def exampleLocked : CAPlayThrough :=
  { mInputDevice := ⟨24, 512⟩, mOutputDevice := ⟨24, 512⟩, mBuffer := smallStored,
    mFirstInputTime := 0, mFirstOutputTime := 0, mInToOutSampleOffset := 12 }

/-- Example: a synchronizer whose producer has ticked first at sample time 100 and whose
consumer has not ticked yet; the devices have a safety offset of 24 frames and a buffer
of 512 frames each. -/
def exampleSeeded : CAPlayThrough :=
  { mInputDevice := ⟨24, 512⟩, mOutputDevice := ⟨24, 512⟩, mBuffer := smallStored,
    mFirstInputTime := 100, mFirstOutputTime := -1, mInToOutSampleOffset := 0 }

end CAPlayThrough

namespace CARingBuffer

/-- The byte at a position after a write pass: the written byte where the pass writes,
the previous byte elsewhere. -/
def overlayByte (w : Option Byte) (old : Option Byte) : Option Byte :=
  match w with
  | some v => some v
  | none => old

/-- A pass over a memory region that writes bytes which do not depend on the contents
of the region, at positions which do not depend on them either: whether it faults
depends on the size of the region only (`ok`), and it leaves the byte `w p` at the
positions `p` it writes and the previous byte elsewhere. -/
def ConstWrite (f : List Byte → Option (List Byte)) : Prop :=
  ∃ (ok : Nat → Prop) (w : Nat → Option Byte), ∀ x : List Byte,
    (ok x.length → ∃ y, f x = some y) ∧
    ∀ y, f x = some y → ok x.length ∧ y.length = x.length ∧
      ∀ p : Nat, p < x.length → y[p]? = overlayByte (w p) x[p]?

/-! ## Memory regions and channel passes -/

theorem toSInt32_of_lt (x : Int) (h0 : 0 ≤ x) (h1 : x < 2147483648) : toSInt32 x = x := by
  unfold toSInt32; omega

theorem land_queueMask (x : Nat) : x &&& kGeneralRingTimeBoundsQueueMask = x % 8 := by
  have h := Nat.and_pow_two_sub_one_eq_mod x 3
  simpa [kGeneralRingTimeBoundsQueueMask, kGeneralRingTimeBoundsQueueSize] using h

theorem getElem?_splice (dst seg : List Byte) (d k : Nat) (hd : d + seg.length ≤ dst.length) :
    (splice dst d seg)[k]? =
      if k < d then dst[k]? else if k < d + seg.length then seg[k - d]? else dst[k]? := by
  unfold splice
  have h1 : (dst.take d).length = d := by simp; omega
  by_cases hk : k < d
  · simp only [hk, if_true, List.append_assoc]
    rw [List.getElem?_append_left (by omega), List.getElem?_take_of_lt hk]
  · simp only [hk, if_false, List.append_assoc]
    rw [List.getElem?_append_right (by omega), h1]
    by_cases hk2 : k < d + seg.length
    · simp only [hk2, if_true]
      rw [List.getElem?_append_left (by omega)]
    · simp only [hk2, if_false]
      rw [List.getElem?_append_right (by omega), List.getElem?_drop]
      congr 1; omega

theorem length_splice (dst seg : List Byte) (d : Nat) (hd : d + seg.length ≤ dst.length) :
    (splice dst d seg).length = dst.length := by
  simp [splice]; omega

theorem memcpy_eq_some_iff (dst src : List Byte) (d s n : Int) (r : List Byte) :
    memcpy dst d src s n = some r ↔
      0 ≤ d ∧ 0 ≤ s ∧ 0 ≤ n ∧ d + n ≤ dst.length ∧ s + n ≤ src.length
        ∧ r = splice dst d.toNat ((src.drop s.toNat).take n.toNat) := by
  unfold memcpy splice
  constructor
  · intro h
    split at h
    · rename_i hc
      obtain ⟨h1, h2, h3, h4, h5⟩ := hc
      refine ⟨h1, h2, h3, h4, h5, ?_⟩
      have hl : ((src.drop s.toNat).take n.toNat).length = n.toNat := by
        simp; omega
      rw [hl]
      exact (Option.some.inj h).symm
    · exact absurd h (by simp)
  · rintro ⟨h1, h2, h3, h4, h5, rfl⟩
    rw [if_pos ⟨h1, h2, h3, h4, h5⟩]
    have hl : ((src.drop s.toNat).take n.toNat).length = n.toNat := by
      simp; omega
    rw [hl]

theorem memsetZero_eq_some_iff (dst : List Byte) (d n : Int) (r : List Byte) :
    memsetZero dst d n = some r ↔
      0 ≤ d ∧ 0 ≤ n ∧ d + n ≤ dst.length ∧ r = splice dst d.toNat (List.replicate n.toNat 0) := by
  unfold memsetZero splice
  constructor
  · intro h
    split at h
    · rename_i hc
      obtain ⟨h1, h2, h3⟩ := hc
      refine ⟨h1, h2, h3, ?_⟩
      rw [List.length_replicate]
      exact (Option.some.inj h).symm
    · exact absurd h (by simp)
  · rintro ⟨h1, h2, h3, rfl⟩
    rw [if_pos ⟨h1, h2, h3⟩, List.length_replicate]

theorem StoreABL_eq_some_iff (buffers : List (List Byte)) (d : Int) (abl : AudioBufferList)
    (s n : Int) (r : List (List Byte)) :
    StoreABL buffers d abl s n = some r ↔
      abl.length ≤ buffers.length ∧ r.length = buffers.length ∧
      ∀ c : Nat, r[c]? = match buffers[c]?, abl[c]? with
        | some b, some (a : AudioBuffer) => memcpy b d a.mData s n
        | some b, none => some b
        | none, _ => none := by
  induction buffers generalizing abl r with
  | nil =>
    cases abl with
    | nil =>
      simp only [StoreABL, Option.some.injEq, List.length_nil, le_refl, true_and]
      constructor
      · rintro rfl; simp
      · rintro ⟨h, -⟩; exact (List.length_eq_zero.mp h).symm
    | cons a abl => simp [StoreABL]
  | cons b buffers ih =>
    cases abl with
    | nil =>
      simp only [StoreABL, Option.some.injEq, List.length_nil, Nat.zero_le, true_and]
      constructor
      · rintro rfl
        refine ⟨rfl, fun c => ?_⟩
        cases h : (b :: buffers)[c]? <;> simp
      · rintro ⟨h1, h2⟩
        apply List.ext_getElem?
        intro c
        rw [h2 c]
        cases h : (b :: buffers)[c]? <;> simp
    | cons a abl =>
      simp only [StoreABL, List.length_cons, Nat.add_le_add_iff_right]
      constructor
      · intro h
        cases hm : memcpy b d a.mData s n with
        | none => simp [hm] at h
        | some b' =>
          cases hr : StoreABL buffers d abl s n with
          | none => simp [hm, hr] at h
          | some r' =>
            simp only [hm, hr, Option.some.injEq] at h
            subst h
            obtain ⟨h1, h2, h3⟩ := (ih abl r').mp hr
            refine ⟨h1, by simp [h2], fun c => ?_⟩
            cases c with
            | zero => simp [hm]
            | succ c => simpa using h3 c
      · rintro ⟨h1, h2, h3⟩
        cases r with
        | nil => simp at h2
        | cons b' r' =>
          have h0 := h3 0
          simp only [List.getElem?_cons_zero] at h0
          have hr : StoreABL buffers d abl s n = some r' := by
            refine (ih abl r').mpr ⟨h1, by simpa using h2, fun c => ?_⟩
            simpa using h3 (c + 1)
          simp [← h0, hr]

theorem FetchABL_eq_some_iff (abl : AudioBufferList) (d : Int) (buffers : List (List Byte))
    (s n : Int) (r : AudioBufferList) :
    FetchABL abl d buffers s n = some r ↔
      abl.length ≤ buffers.length ∧ r.length = abl.length ∧
      ∀ c : Nat, r[c]? = match abl[c]?, buffers[c]? with
        | some (a : AudioBuffer), some b => (memcpy a.mData d b s n).map fun m => ({ a with mData := m } : AudioBuffer)
        | _, _ => none := by
  induction abl generalizing buffers r with
  | nil =>
    simp only [FetchABL, Option.some.injEq, List.length_nil, Nat.zero_le, true_and]
    constructor
    · rintro rfl; simp
    · rintro ⟨h, -⟩; exact (List.length_eq_zero.mp h).symm
  | cons a abl ih =>
    cases buffers with
    | nil => simp [FetchABL]
    | cons b buffers =>
      simp only [FetchABL, List.length_cons, Nat.add_le_add_iff_right]
      constructor
      · intro h
        cases hm : memcpy a.mData d b s n with
        | none => simp [hm] at h
        | some m =>
          cases hr : FetchABL abl d buffers s n with
          | none => simp [hm, hr] at h
          | some r' =>
            simp only [hm, hr, Option.some.injEq] at h
            subst h
            obtain ⟨h1, h2, h3⟩ := (ih buffers r').mp hr
            refine ⟨h1, by simp [h2], fun c => ?_⟩
            cases c with
            | zero => simp [hm]
            | succ c => simpa using h3 c
      · rintro ⟨h1, h2, h3⟩
        cases r with
        | nil => simp at h2
        | cons a' r' =>
          have h0 := h3 0
          simp only [List.getElem?_cons_zero] at h0
          have hr : FetchABL abl d buffers s n = some r' := by
            refine (ih buffers r').mpr ⟨h1, by simpa using h2, fun c => ?_⟩
            simpa using h3 (c + 1)
          cases hm : memcpy a.mData d b s n with
          | none => simp [hm] at h0
          | some m =>
            simp only [hm, Option.map_some', Option.some.injEq] at h0
            simp [hr, h0]

theorem ZeroABL_eq_some_iff (abl : AudioBufferList) (d n : Int) (r : AudioBufferList) :
    ZeroABL abl d n = some r ↔
      r.length = abl.length ∧
      ∀ c : Nat, r[c]? = match abl[c]? with
        | some (a : AudioBuffer) => (memsetZero a.mData d n).map fun m => ({ a with mData := m } : AudioBuffer)
        | none => none := by
  induction abl generalizing r with
  | nil =>
    simp only [ZeroABL, Option.some.injEq, List.length_nil]
    constructor
    · rintro rfl; simp
    · rintro ⟨h, -⟩; exact (List.length_eq_zero.mp h).symm
  | cons a abl ih =>
    simp only [ZeroABL, List.length_cons]
    constructor
    · intro h
      cases hm : memsetZero a.mData d n with
      | none => simp [hm] at h
      | some m =>
        cases hr : ZeroABL abl d n with
        | none => simp [hm, hr] at h
        | some r' =>
          simp only [hm, hr, Option.some.injEq] at h
          subst h
          obtain ⟨h2, h3⟩ := (ih r').mp hr
          refine ⟨by simp [h2], fun c => ?_⟩
          cases c with
          | zero => simp [hm]
          | succ c => simpa using h3 c
    · rintro ⟨h2, h3⟩
      cases r with
      | nil => simp at h2
      | cons a' r' =>
        have h0 := h3 0
        simp only [List.getElem?_cons_zero] at h0
        have hr : ZeroABL abl d n = some r' := by
          refine (ih r').mpr ⟨by simpa using h2, fun c => ?_⟩
          simpa using h3 (c + 1)
        cases hm : memsetZero a.mData d n with
        | none => simp [hm] at h0
        | some m =>
          simp only [hm, Option.map_some', Option.some.injEq] at h0
          simp [hr, h0]

theorem ZeroRange_eq_some_iff (buffers : List (List Byte)) (k : Nat) (d n : Int)
    (r : List (List Byte)) :
    ZeroRange buffers k d n = some r ↔
      k ≤ buffers.length ∧ r.length = buffers.length ∧
      ∀ c : Nat, r[c]? = match buffers[c]? with
        | some b => if c < k then memsetZero b d n else some b
        | none => none := by
  induction buffers generalizing k r with
  | nil =>
    cases k with
    | zero =>
      simp only [ZeroRange, Option.some.injEq, List.length_nil, le_refl, true_and]
      constructor
      · rintro rfl; simp
      · rintro ⟨h, -⟩; exact (List.length_eq_zero.mp h).symm
    | succ k => simp [ZeroRange]
  | cons b buffers ih =>
    cases k with
    | zero =>
      simp only [ZeroRange, Option.some.injEq, Nat.zero_le, true_and]
      constructor
      · rintro rfl
        refine ⟨rfl, fun c => ?_⟩
        cases h : (b :: buffers)[c]? <;> simp
      · rintro ⟨h1, h2⟩
        apply List.ext_getElem?
        intro c
        rw [h2 c]
        cases h : (b :: buffers)[c]? <;> simp
    | succ k =>
      simp only [ZeroRange, List.length_cons, Nat.add_le_add_iff_right]
      constructor
      · intro h
        cases hm : memsetZero b d n with
        | none => simp [hm] at h
        | some b' =>
          cases hr : ZeroRange buffers k d n with
          | none => simp [hm, hr] at h
          | some r' =>
            simp only [hm, hr, Option.some.injEq] at h
            subst h
            obtain ⟨h1, h2, h3⟩ := (ih k r').mp hr
            refine ⟨h1, by simp [h2], fun c => ?_⟩
            cases c with
            | zero => simp [hm]
            | succ c => simpa using h3 c
      · rintro ⟨h1, h2, h3⟩
        cases r with
        | nil => simp at h2
        | cons b' r' =>
          have h0 := h3 0
          simp only [List.getElem?_cons_zero] at h0
          have hr : ZeroRange buffers k d n = some r' := by
            refine (ih k r').mpr ⟨h1, by simpa using h2, fun c => ?_⟩
            simpa using h3 (c + 1)
          simp at h0
          simp [← h0, hr]

theorem wrapCopy_eq_some_iff (dst src : List Byte) (CB o0 o1 : Nat) (hlen : dst.length = CB)
    (h0 : o0 ≤ CB) (h1 : o1 ≤ CB) (hCB : CB < 2147483648) (r : List Byte) :
    wrapCopy dst CB o0 o1 src = some r ↔
      wrapLen CB o0 o1 ≤ src.length ∧ r.length = CB ∧
      ∀ p : Nat, p < CB → r[p]? =
        if wrapRel CB o0 p < wrapLen CB o0 o1 then src[wrapRel CB o0 p]? else dst[p]? := by
  unfold wrapCopy wrapLen wrapRel
  have hs : toSInt32 ((CB : Int) - o0) = ((CB - o0 : Nat) : Int) := by
    rw [toSInt32_of_lt] <;> omega
  by_cases hlt : o0 < o1
  · have hlt' : (o0 : Int) < o1 := by omega
    simp only [hlt, hlt', if_true]
    rw [memcpy_eq_some_iff]
    have e1 : ((o1 : Int) - o0).toNat = o1 - o0 := by omega
    simp only [Int.toNat_ofNat, e1, Int.toNat_zero, List.drop_zero]
    constructor
    · rintro ⟨-, -, -, -, h5, rfl⟩
      have hl : (src.take (o1 - o0)).length = o1 - o0 := by simp; omega
      refine ⟨by omega, ?_, fun p hp => ?_⟩
      · rw [length_splice] <;> omega
      · rw [getElem?_splice _ _ _ _ (by omega), hl]
        by_cases hp0 : p < o0
        · have : ¬ o0 ≤ p := by omega
          simp only [hp0, this, if_true, if_false]
          rw [if_neg (by omega)]
        · have : o0 ≤ p := by omega
          simp only [hp0, this, if_true, if_false]
          by_cases hp1 : p < o0 + (o1 - o0)
          · rw [if_pos hp1, if_pos (by omega), List.getElem?_take_of_lt (by omega)]
          · rw [if_neg hp1, if_neg (by omega)]
    · rintro ⟨h5, h6, h7⟩
      have hl : (src.take (o1 - o0)).length = o1 - o0 := by simp; omega
      refine ⟨by omega, by omega, by omega, by omega, by omega, ?_⟩
      apply List.ext_getElem?
      intro p
      by_cases hp : p < CB
      · rw [h7 p hp, getElem?_splice _ _ _ _ (by omega), hl]
        by_cases hp0 : p < o0
        · have : ¬ o0 ≤ p := by omega
          simp only [hp0, this, if_true, if_false]
          rw [if_neg (by omega)]
        · have : o0 ≤ p := by omega
          simp only [hp0, this, if_true, if_false]
          by_cases hp1 : p < o0 + (o1 - o0)
          · rw [if_pos hp1, if_pos (by omega), List.getElem?_take_of_lt (by omega)]
          · rw [if_neg hp1, if_neg (by omega)]
      · rw [List.getElem?_eq_none (by omega), List.getElem?_eq_none]
        rw [length_splice] <;> omega
  · have hlt' : ¬ (o0 : Int) < o1 := by omega
    simp only [hlt, hlt', if_false, hs]
    have hl1 : ((src.drop 0).take (CB - o0)).length = min (CB - o0) src.length := by simp
    have hl2 : ((src.drop (CB - o0)).take o1).length = min o1 (src.length - (CB - o0)) := by
      simp
    constructor
    · intro h
      obtain ⟨m, hm, hr⟩ := Option.bind_eq_some.mp h
      rw [memcpy_eq_some_iff] at hm hr
      simp only [Int.toNat_ofNat, Int.toNat_zero] at hm hr
      obtain ⟨-, -, -, -, hm5, rfl⟩ := hm
      have hml : (splice dst o0 ((src.drop 0).take (CB - o0))).length = CB := by
        rw [length_splice] <;> omega
      obtain ⟨-, -, -, -, hr5, rfl⟩ := hr
      refine ⟨by omega, ?_, fun p hp => ?_⟩
      · rw [length_splice] <;> omega
      · rw [getElem?_splice _ _ _ _ (by omega), hl2,
          getElem?_splice _ _ _ _ (by omega), hl1]
        by_cases hp1 : p < o1
        · have e : min o1 (src.length - (CB - o0)) = o1 := by omega
          simp only [Nat.zero_add, e, hp1, if_true, Nat.not_lt_zero, if_false, Nat.sub_zero]
          have : ¬ o0 ≤ p := by omega
          rw [if_neg this, if_pos (by omega), List.getElem?_take_of_lt hp1, List.getElem?_drop]
          congr 1; omega
        · have e : min o1 (src.length - (CB - o0)) = o1 := by omega
          simp only [Nat.zero_add, e, hp1, if_true, Nat.not_lt_zero, if_false, Nat.sub_zero]
          by_cases hp0 : p < o0
          · have : ¬ o0 ≤ p := by omega
            rw [if_pos hp0, if_neg this, if_neg (by omega)]
          · have : o0 ≤ p := by omega
            have e2 : min (CB - o0) src.length = CB - o0 := by omega
            rw [if_neg hp0, if_pos this, if_pos (by omega), if_pos (by omega),
              List.getElem?_take_of_lt (by omega), List.drop_zero]
    · rintro ⟨h5, h6, h7⟩
      apply Option.bind_eq_some.mpr
      refine ⟨_, (memcpy_eq_some_iff _ _ _ _ _ _).mpr
        ⟨by omega, by omega, by omega, by omega, by omega, rfl⟩, ?_⟩
      simp only [Int.toNat_ofNat, Int.toNat_zero]
      have hml : (splice dst o0 ((src.drop 0).take (CB - o0))).length = CB := by
        rw [length_splice] <;> omega
      rw [memcpy_eq_some_iff]
      refine ⟨by omega, by omega, by omega, by omega, by omega, ?_⟩
      simp only [Int.toNat_ofNat, Int.toNat_zero]
      apply List.ext_getElem?
      intro p
      by_cases hp : p < CB
      · rw [h7 p hp, getElem?_splice _ _ _ _ (by omega), hl2,
          getElem?_splice _ _ _ _ (by omega), hl1]
        by_cases hp1 : p < o1
        · have e : min o1 (src.length - (CB - o0)) = o1 := by omega
          simp only [Nat.zero_add, e, hp1, if_true, Nat.not_lt_zero, if_false, Nat.sub_zero]
          have : ¬ o0 ≤ p := by omega
          rw [if_neg this, if_pos (by omega), List.getElem?_take_of_lt hp1, List.getElem?_drop]
          congr 1; omega
        · have e : min o1 (src.length - (CB - o0)) = o1 := by omega
          simp only [Nat.zero_add, e, hp1, if_true, Nat.not_lt_zero, if_false, Nat.sub_zero]
          by_cases hp0 : p < o0
          · have : ¬ o0 ≤ p := by omega
            rw [if_pos hp0, if_neg this, if_neg (by omega)]
          · have : o0 ≤ p := by omega
            have e2 : min (CB - o0) src.length = CB - o0 := by omega
            rw [if_neg hp0, if_pos this, if_pos (by omega), if_pos (by omega),
              List.getElem?_take_of_lt (by omega), List.drop_zero]
      · rw [List.getElem?_eq_none (by omega), List.getElem?_eq_none]
        rw [length_splice, hml] <;> omega

theorem wrapRead_eq_some_iff (dest ring : List Byte) (dsb CB o0 o1 : Nat)
    (hlen : ring.length = CB) (h0 : o0 ≤ CB) (h1 : o1 ≤ CB) (hCB : CB < 2147483648)
    (r : List Byte) :
    wrapRead dest dsb ring CB o0 o1 = some r ↔
      dsb + wrapLen CB o0 o1 ≤ dest.length ∧ r.length = dest.length ∧
      ∀ q : Nat, r[q]? =
        if dsb ≤ q ∧ q < dsb + wrapLen CB o0 o1 then ring[wrapPos CB o0 (q - dsb)]?
        else dest[q]? := by
  unfold wrapRead wrapLen wrapPos
  have hs : toSInt32 ((CB : Int) - o0) = ((CB - o0 : Nat) : Int) := by
    rw [toSInt32_of_lt] <;> omega
  by_cases hlt : o0 < o1
  · have hlt' : (o0 : Int) < o1 := by omega
    simp only [hlt, hlt', if_true]
    rw [memcpy_eq_some_iff]
    have e1 : ((o1 : Int) - o0).toNat = o1 - o0 := by omega
    simp only [Int.toNat_ofNat, e1]
    have hl : ((ring.drop o0).take (o1 - o0)).length = o1 - o0 := by simp; omega
    have key : ∀ q : Nat, dsb + (o1 - o0) ≤ dest.length →
        (splice dest dsb ((ring.drop o0).take (o1 - o0)))[q]? =
        if dsb ≤ q ∧ q < dsb + (o1 - o0) then
          ring[if o0 + (q - dsb) < CB then o0 + (q - dsb) else o0 + (q - dsb) - CB]?
        else dest[q]? := by
      intro q hd
      rw [getElem?_splice _ _ _ _ (by omega), hl]
      by_cases hq0 : q < dsb
      · rw [if_pos hq0, if_neg (by omega)]
      · rw [if_neg hq0]
        by_cases hq1 : q < dsb + (o1 - o0)
        · rw [if_pos hq1, if_pos ⟨by omega, hq1⟩, if_pos (by omega),
            List.getElem?_take_of_lt (by omega), List.getElem?_drop]
        · rw [if_neg hq1, if_neg (by omega)]
    constructor
    · rintro ⟨-, -, -, h4, -, rfl⟩
      refine ⟨by omega, ?_, fun q => key q (by omega)⟩
      rw [length_splice]; omega
    · rintro ⟨h5, h6, h7⟩
      refine ⟨by omega, by omega, by omega, by omega, by omega, ?_⟩
      apply List.ext_getElem?
      intro q
      rw [h7 q, key q h5]
  · have hlt' : ¬ (o0 : Int) < o1 := by omega
    simp only [hlt, hlt', if_false, hs]
    have hl1 : ((ring.drop o0).take (CB - o0)).length = CB - o0 := by simp; omega
    have hl2 : ((ring.drop 0).take o1).length = o1 := by simp; omega
    have hml : dsb + (CB - o0) ≤ dest.length →
        (splice dest dsb ((ring.drop o0).take (CB - o0))).length = dest.length := by
      intro h
      rw [length_splice]; omega
    have e3 : ((dsb : Int) + ((CB - o0 : Nat) : Int)).toNat = dsb + (CB - o0) := by omega
    have key : ∀ q : Nat, dsb + (CB - o0 + o1) ≤ dest.length →
        (splice (splice dest dsb ((ring.drop o0).take (CB - o0))) (dsb + (CB - o0))
          ((ring.drop 0).take o1))[q]? =
        if dsb ≤ q ∧ q < dsb + (CB - o0 + o1) then
          ring[if o0 + (q - dsb) < CB then o0 + (q - dsb) else o0 + (q - dsb) - CB]?
        else dest[q]? := by
      intro q hd
      have hm := hml (by omega)
      rw [getElem?_splice _ _ _ _ (by omega), hl2, getElem?_splice _ _ _ _ (by omega), hl1]
      by_cases hq0 : q < dsb
      · rw [if_pos (by omega), if_pos hq0, if_neg (by omega)]
      · by_cases hq1 : q < dsb + (CB - o0)
        · rw [if_pos hq1, if_neg hq0, if_pos hq1, if_pos ⟨by omega, by omega⟩,
            if_pos (by omega), List.getElem?_take_of_lt (by omega), List.getElem?_drop]
        · rw [if_neg hq1]
          by_cases hq2 : q < dsb + (CB - o0) + o1
          · rw [if_pos hq2, if_pos ⟨by omega, by omega⟩, if_neg (by omega),
              List.getElem?_take_of_lt (by omega), List.drop_zero]
            congr 1; omega
          · rw [if_neg hq2, if_neg hq0, if_neg hq1, if_neg (by omega)]
    constructor
    · intro h
      obtain ⟨m, hm, hr⟩ := Option.bind_eq_some.mp h
      rw [memcpy_eq_some_iff] at hm hr
      simp only [Int.toNat_ofNat, Int.toNat_zero, e3] at hm hr
      obtain ⟨-, -, -, hm4, -, rfl⟩ := hm
      have hm' := hml (by omega)
      obtain ⟨-, -, -, hr4, -, rfl⟩ := hr
      refine ⟨by omega, ?_, fun q => key q (by omega)⟩
      rw [length_splice, hm']; omega
    · rintro ⟨h5, h6, h7⟩
      apply Option.bind_eq_some.mpr
      refine ⟨_, (memcpy_eq_some_iff _ _ _ _ _ _).mpr
        ⟨by omega, by omega, by omega, by omega, by omega, rfl⟩, ?_⟩
      simp only [Int.toNat_ofNat]
      have hm' := hml (by omega)
      rw [memcpy_eq_some_iff]
      refine ⟨by omega, by omega, by omega, by omega, by omega, ?_⟩
      simp only [Int.toNat_ofNat, Int.toNat_zero, e3]
      apply List.ext_getElem?
      intro q
      rw [h7 q, key q h5]

theorem exists_list_getElem? {α : Type} (L : Nat) (G : Nat → Option α)
    (h1 : ∀ c, c < L → ∃ x, G c = some x) (h2 : ∀ c, L ≤ c → G c = none) :
    ∃ r : List α, r.length = L ∧ ∀ c : Nat, r[c]? = G c := by
  induction L generalizing G with
  | zero =>
    refine ⟨[], rfl, fun c => ?_⟩
    rw [h2 c (Nat.zero_le _)]; rfl
  | succ L ih =>
    obtain ⟨x, hx⟩ := h1 0 (Nat.succ_pos _)
    obtain ⟨r, hr1, hr2⟩ := ih (fun c => G (c + 1)) (fun c hc => h1 (c + 1) (by omega))
      (fun c hc => h2 (c + 1) (by omega))
    refine ⟨x :: r, by simp [hr1], fun c => ?_⟩
    cases c with
    | zero => simp [hx]
    | succ c => simpa using hr2 c

theorem StoreABL_iff (buffers : List (List Byte)) (d : Int) (abl : AudioBufferList)
    (s n : Int) (r : List (List Byte)) :
    StoreABL buffers d abl s n = some r ↔
      abl.length ≤ buffers.length ∧ r.length = buffers.length ∧
      ∀ c : Nat, r[c]? = storeChan (fun b a => memcpy b d a s n) buffers[c]? abl[c]? := by
  rw [StoreABL_eq_some_iff]
  refine and_congr Iff.rfl (and_congr Iff.rfl (forall_congr' fun c => ?_))
  cases buffers[c]? <;> cases abl[c]? <;> simp [storeChan]

theorem FetchABL_iff (abl : AudioBufferList) (d : Int) (buffers : List (List Byte))
    (s n : Int) (r : AudioBufferList) :
    FetchABL abl d buffers s n = some r ↔
      abl.length ≤ buffers.length ∧ r.length = abl.length ∧
      ∀ c : Nat, r[c]? = fetchChan (fun a b => memcpy a d b s n) abl[c]? buffers[c]? := by
  rw [FetchABL_eq_some_iff]
  refine and_congr Iff.rfl (and_congr Iff.rfl (forall_congr' fun c => ?_))
  cases buffers[c]? <;> cases abl[c]? <;> simp [fetchChan]

theorem storeFrames_iff (buffers : List (List Byte)) (CB : Nat) (o0 o1 : Int)
    (abl : AudioBufferList) (r : List (List Byte)) :
    storeFrames buffers CB o0 o1 abl = some r ↔
      abl.length ≤ buffers.length ∧ r.length = buffers.length ∧
      ∀ c : Nat, r[c]? = storeChan (fun b a => wrapCopy b CB o0 o1 a) buffers[c]? abl[c]? := by
  unfold storeFrames wrapCopy
  by_cases hlt : o0 < o1
  · simp only [hlt, if_true]
    exact StoreABL_iff _ _ _ _ _ _
  · simp only [hlt, if_false]
    constructor
    · intro h
      obtain ⟨r1, h1, h2⟩ := Option.bind_eq_some.mp h
      obtain ⟨a1, a2, a3⟩ := (StoreABL_iff _ _ _ _ _ _).mp h1
      obtain ⟨b1, b2, b3⟩ := (StoreABL_iff _ _ _ _ _ _).mp h2
      refine ⟨a1, by omega, fun c => ?_⟩
      rw [b3 c, a3 c]
      cases buffers[c]? <;> cases abl[c]? <;> simp [storeChan]
      rename_i b a
      cases memcpy b o0 a.mData 0 (toSInt32 (↑CB - o0)) <;> simp
    · rintro ⟨a1, a2, a3⟩
      obtain ⟨r1, hr1, hr2⟩ := exists_list_getElem? buffers.length
        (fun c => storeChan (fun b a => memcpy b o0 a 0 (toSInt32 (↑CB - o0)))
          buffers[c]? abl[c]?)
        (fun c hc => by
          have hb : buffers[c]? = some buffers[c] := List.getElem?_eq_getElem hc
          obtain ⟨x, hrc⟩ : ∃ x, r[c]? = some x := ⟨_, List.getElem?_eq_getElem (by omega)⟩
          have h3 := a3 c
          rw [hb, hrc] at h3
          simp only [hb]
          cases ha : abl[c]? with
          | none => exact ⟨_, rfl⟩
          | some a =>
            rw [ha] at h3
            simp only [storeChan] at h3 ⊢
            obtain ⟨m, hm, -⟩ := Option.bind_eq_some.mp h3.symm
            exact ⟨m, hm⟩)
        (fun c hc => by
          have hb : buffers[c]? = none := List.getElem?_eq_none hc
          simp [hb, storeChan])
      apply Option.bind_eq_some.mpr
      refine ⟨r1, (StoreABL_iff _ _ _ _ _ _).mpr ⟨a1, hr1, hr2⟩, ?_⟩
      refine (StoreABL_iff _ _ _ _ _ _).mpr ⟨by omega, by omega, fun c => ?_⟩
      rw [a3 c, hr2 c]
      cases buffers[c]? <;> cases abl[c]? <;> simp [storeChan]
      rename_i b a
      cases memcpy b o0 a.mData 0 (toSInt32 (↑CB - o0)) <;> simp

@[simp] theorem SetTimeBounds_mBuffers (rb : CARingBuffer) (s e : Int) :
    (rb.SetTimeBounds s e).mBuffers = rb.mBuffers := rfl

@[simp] theorem SetTimeBounds_mNumberChannels (rb : CARingBuffer) (s e : Int) :
    (rb.SetTimeBounds s e).mNumberChannels = rb.mNumberChannels := rfl

@[simp] theorem SetTimeBounds_mBytesPerFrame (rb : CARingBuffer) (s e : Int) :
    (rb.SetTimeBounds s e).mBytesPerFrame = rb.mBytesPerFrame := rfl

@[simp] theorem SetTimeBounds_mCapacityFrames (rb : CARingBuffer) (s e : Int) :
    (rb.SetTimeBounds s e).mCapacityFrames = rb.mCapacityFrames := rfl

@[simp] theorem SetTimeBounds_mCapacityBytes (rb : CARingBuffer) (s e : Int) :
    (rb.SetTimeBounds s e).mCapacityBytes = rb.mCapacityBytes := rfl

@[simp] theorem SetTimeBounds_mTimeBoundsQueuePtr (rb : CARingBuffer) (s e : Int) :
    (rb.SetTimeBounds s e).mTimeBoundsQueuePtr = (rb.mTimeBoundsQueuePtr + 1) % 4294967296 := rfl

@[simp] theorem SetTimeBounds_queue_length (rb : CARingBuffer) (s e : Int) :
    (rb.SetTimeBounds s e).mTimeBoundsQueue.length = rb.mTimeBoundsQueue.length := by
  simp [SetTimeBounds]

theorem currentBounds_SetTimeBounds (rb : CARingBuffer) (s e : Int)
    (hq : rb.mTimeBoundsQueue.length = kGeneralRingTimeBoundsQueueSize) :
    (rb.SetTimeBounds s e).currentBounds = ⟨s, e, (rb.mTimeBoundsQueuePtr + 1) % 4294967296⟩ := by
  have hlt : (rb.mTimeBoundsQueuePtr + 1) % 4294967296 % 8 < rb.mTimeBoundsQueue.length := by
    rw [hq]; exact Nat.mod_lt _ (by decide)
  simp only [currentBounds, SetTimeBounds, land_queueMask]
  rw [List.getD_eq_getElem?_getD, List.getElem?_set_self hlt]
  rfl

theorem StartTime_SetTimeBounds (rb : CARingBuffer) (s e : Int)
    (hq : rb.mTimeBoundsQueue.length = kGeneralRingTimeBoundsQueueSize) :
    (rb.SetTimeBounds s e).StartTime = s := by
  simp [StartTime, currentBounds_SetTimeBounds rb s e hq]

theorem EndTime_SetTimeBounds (rb : CARingBuffer) (s e : Int)
    (hq : rb.mTimeBoundsQueue.length = kGeneralRingTimeBoundsQueueSize) :
    (rb.SetTimeBounds s e).EndTime = e := by
  simp [EndTime, currentBounds_SetTimeBounds rb s e hq]

theorem mem_queue_SetTimeBounds (rb : CARingBuffer) (s e : Int) (b : TimeBounds)
    (hb : b ∈ (rb.SetTimeBounds s e).mTimeBoundsQueue) :
    b ∈ rb.mTimeBoundsQueue ∨ (b.mStartTime = s ∧ b.mEndTime = e) := by
  simp only [SetTimeBounds] at hb
  rcases List.mem_or_eq_of_mem_set hb with h | h
  · exact Or.inl h
  · right; subst h; exact ⟨rfl, rfl⟩

theorem currentBounds_mem (rb : CARingBuffer)
    (hq : rb.mTimeBoundsQueue.length = kGeneralRingTimeBoundsQueueSize) :
    rb.currentBounds ∈ rb.mTimeBoundsQueue := by
  have hlt : rb.mTimeBoundsQueuePtr % 8 < rb.mTimeBoundsQueue.length := by
    rw [hq]; exact Nat.mod_lt _ (by decide)
  simp only [currentBounds, land_queueMask]
  rw [List.getD_eq_getElem?_getD, List.getElem?_eq_getElem hlt]
  exact List.getElem_mem _

/-- What `Store` returns: the early `TooMuch` exit leaves the object as it is, every
other return is `OK` with the storage written by the two copy blocks and the bounds
published last. -/
theorem Store_eq_some_iff (rb : CARingBuffer) (abl : AudioBufferList) (n : Nat)
    (t : Int) (err : Int) (rb' : CARingBuffer) :
    rb.Store abl n t = some (err, rb') ↔
      (rb.mCapacityFrames < n ∧ err = kCARingBufferError_TooMuch ∧ rb' = rb) ∨
      (n ≤ rb.mCapacityFrames ∧ err = kCARingBufferError_OK ∧
        ∃ zeroed stored,
          (if t > (rb.adjustBounds n t).EndTime then
            zeroSkipped (rb.adjustBounds n t).mBuffers (rb.adjustBounds n t).mNumberChannels
              (rb.adjustBounds n t).mCapacityBytes
              (toSInt32 ((rb.adjustBounds n t).FrameOffset (rb.adjustBounds n t).EndTime))
              (toSInt32 ((rb.adjustBounds n t).FrameOffset t))
           else some (rb.adjustBounds n t).mBuffers) = some zeroed ∧
          storeFrames zeroed (rb.adjustBounds n t).mCapacityBytes
            (toSInt32 ((rb.adjustBounds n t).FrameOffset t))
            (toSInt32 ((rb.adjustBounds n t).FrameOffset (t + n))) abl = some stored ∧
          rb' = ({ rb.adjustBounds n t with mBuffers := stored } : CARingBuffer).SetTimeBounds
            (rb.adjustBounds n t).StartTime (t + n)) := by
  unfold Store
  by_cases hn : rb.mCapacityFrames < n
  · rw [if_pos hn]
    simp only [Option.some.injEq, Prod.mk.injEq]
    constructor
    · rintro ⟨rfl, rfl⟩; exact Or.inl ⟨hn, rfl, rfl⟩
    · rintro (⟨-, rfl, rfl⟩ | ⟨h, -⟩)
      · exact ⟨rfl, rfl⟩
      · omega
  · rw [if_neg hn]
    constructor
    · intro h
      obtain ⟨zeroed, hz, h⟩ := Option.bind_eq_some.mp h
      obtain ⟨stored, hs, h⟩ := Option.bind_eq_some.mp h
      simp only [Option.some.injEq, Prod.mk.injEq] at h
      obtain ⟨rfl, rfl⟩ := h
      exact Or.inr ⟨by omega, rfl, zeroed, stored, hz, hs, rfl⟩
    · rintro (⟨h, -⟩ | ⟨-, rfl, zeroed, stored, hz, hs, rfl⟩)
      · omega
      · apply Option.bind_eq_some.mpr
        refine ⟨zeroed, hz, ?_⟩
        apply Option.bind_eq_some.mpr
        exact ⟨stored, hs, rfl⟩

theorem adjustBounds_def (rb : CARingBuffer) (n : Nat) (t : Int) :
    rb.adjustBounds n t =
      if t < rb.EndTime then rb.SetTimeBounds t t
      else if t + n - rb.StartTime ≤ rb.mCapacityFrames then rb
      else rb.SetTimeBounds (t + n - rb.mCapacityFrames)
        (max (t + n - rb.mCapacityFrames) rb.EndTime) := rfl

@[simp] theorem adjustBounds_mBuffers (rb : CARingBuffer) (n : Nat) (t : Int) :
    (rb.adjustBounds n t).mBuffers = rb.mBuffers := by
  rw [adjustBounds_def]; split_ifs <;> rfl

@[simp] theorem adjustBounds_mNumberChannels (rb : CARingBuffer) (n : Nat) (t : Int) :
    (rb.adjustBounds n t).mNumberChannels = rb.mNumberChannels := by
  rw [adjustBounds_def]; split_ifs <;> rfl

@[simp] theorem adjustBounds_mBytesPerFrame (rb : CARingBuffer) (n : Nat) (t : Int) :
    (rb.adjustBounds n t).mBytesPerFrame = rb.mBytesPerFrame := by
  rw [adjustBounds_def]; split_ifs <;> rfl

@[simp] theorem adjustBounds_mCapacityFrames (rb : CARingBuffer) (n : Nat) (t : Int) :
    (rb.adjustBounds n t).mCapacityFrames = rb.mCapacityFrames := by
  rw [adjustBounds_def]; split_ifs <;> rfl

@[simp] theorem adjustBounds_mCapacityBytes (rb : CARingBuffer) (n : Nat) (t : Int) :
    (rb.adjustBounds n t).mCapacityBytes = rb.mCapacityBytes := by
  rw [adjustBounds_def]; split_ifs <;> rfl

@[simp] theorem adjustBounds_FrameOffset (rb : CARingBuffer) (n : Nat) (t τ : Int) :
    (rb.adjustBounds n t).FrameOffset τ = rb.FrameOffset τ := by
  simp [FrameOffset]

theorem QueueInv.setTimeBounds {rb : CARingBuffer} (h : QueueInv rb) (s e : Int)
    (hse : s ≤ e) (hcap : e - s ≤ rb.mCapacityFrames) : QueueInv (rb.SetTimeBounds s e) where
  queue_length := by simpa using h.queue_length
  counter := by simp [currentBounds_SetTimeBounds rb s e h.queue_length]
  counter_lt := by simpa using Nat.mod_lt _ (by decide)
  bounds := by
    intro b hb
    rcases mem_queue_SetTimeBounds rb s e b hb with hb | ⟨h1, h2⟩
    · simpa using h.bounds b hb
    · simp only [h1, h2, SetTimeBounds_mCapacityFrames]
      exact ⟨hse, hcap⟩

theorem QueueInv.start_le_end {rb : CARingBuffer} (h : QueueInv rb) :
    rb.StartTime ≤ rb.EndTime :=
  (h.bounds _ (currentBounds_mem rb h.queue_length)).1

theorem QueueInv.window_le {rb : CARingBuffer} (h : QueueInv rb) :
    rb.EndTime - rb.StartTime ≤ rb.mCapacityFrames :=
  (h.bounds _ (currentBounds_mem rb h.queue_length)).2

/-- The window that `adjustBounds` leaves published. -/
theorem adjustBounds_bounds {rb : CARingBuffer} (h : QueueInv rb) (n : Nat) (t : Int) :
    ((rb.adjustBounds n t).StartTime, (rb.adjustBounds n t).EndTime) =
      if t < rb.EndTime then (t, t)
      else if t + n - rb.StartTime ≤ rb.mCapacityFrames then (rb.StartTime, rb.EndTime)
      else (t + n - rb.mCapacityFrames, max (t + n - rb.mCapacityFrames) rb.EndTime) := by
  rw [adjustBounds_def]
  split_ifs
  · rw [StartTime_SetTimeBounds _ _ _ h.queue_length, EndTime_SetTimeBounds _ _ _ h.queue_length]
  · rfl
  · rw [StartTime_SetTimeBounds _ _ _ h.queue_length, EndTime_SetTimeBounds _ _ _ h.queue_length]

theorem QueueInv.adjustBounds {rb : CARingBuffer} (h : QueueInv rb) (n : Nat)
    (t : Int) : QueueInv (rb.adjustBounds n t) := by
  rw [adjustBounds_def]
  split_ifs with h1 h2
  · exact h.setTimeBounds t t (le_refl _) (by simp)
  · exact h
  · apply h.setTimeBounds
    · exact le_max_left _ _
    · have := h.start_le_end
      rcases max_cases (t + ↑n - ↑rb.mCapacityFrames) rb.EndTime with ⟨e, -⟩ | ⟨e, -⟩ <;>
        rw [e] <;> omega

theorem QueueInv.withBuffers {rb : CARingBuffer} (h : QueueInv rb) (bufs : List (List Byte)) :
    QueueInv { rb with mBuffers := bufs } :=
  ⟨h.queue_length, h.counter, h.counter_lt, h.bounds⟩

/-- The window published after the adjustment ends at or before the write start
unless the write went backwards, and reaches back at most one capacity from the
write end. -/
theorem adjustBounds_window {rb : CARingBuffer} (h : QueueInv rb) (n : Nat) (t : Int)
    (hn : n ≤ rb.mCapacityFrames) :
    (rb.adjustBounds n t).StartTime ≤ (rb.adjustBounds n t).EndTime ∧
    (rb.adjustBounds n t).EndTime ≤ t ∧
    t + n - (rb.adjustBounds n t).StartTime ≤ rb.mCapacityFrames := by
  have hb := adjustBounds_bounds h n t
  have h1 := h.start_le_end
  split_ifs at hb with c1 c2
  · simp only [Prod.mk.injEq] at hb
    omega
  · simp only [Prod.mk.injEq] at hb
    omega
  · simp only [Prod.mk.injEq] at hb
    rcases max_cases (t + ↑n - ↑rb.mCapacityFrames) rb.EndTime with ⟨e, -⟩ | ⟨e, -⟩ <;>
      rw [e] at hb <;> omega

theorem QueueInv.of_allocate (rb : CARingBuffer) (nChannels bytesPerFrame capacityFrames : Nat) :
    QueueInv (rb.Allocate nChannels bytesPerFrame capacityFrames) where
  queue_length := by simp [Allocate]
  counter := by
    simp [Allocate, currentBounds, kGeneralRingTimeBoundsQueueSize, land_queueMask,
      List.getD_eq_getElem?_getD]
  counter_lt := by simp [Allocate]
  bounds := by
    intro b hb
    simp only [Allocate, List.mem_replicate] at hb
    rw [hb.2]
    simp

theorem QueueInv.store_queue {rb rb' : CARingBuffer} (h : QueueInv rb) {abl : AudioBufferList}
    {n : Nat} {t : Int} {err : Int}
    (hs : rb.Store abl n t = some (err, rb')) : QueueInv rb' := by
  rcases (Store_eq_some_iff _ _ _ _ _ _).mp hs with ⟨-, -, rfl⟩ | ⟨hn, -, zeroed, stored, -, -, rfl⟩
  · exact h
  · have hw := adjustBounds_window h n t hn
    have hq := (h.adjustBounds n t).withBuffers stored
    apply hq.setTimeBounds
    · omega
    · simpa using hw.2.2

theorem Reachable.queueInv {rb : CARingBuffer} (h : Reachable rb) : QueueInv rb := by
  induction h with
  | allocate rb nChannels bytesPerFrame capacityFrames => exact QueueInv.of_allocate _ _ _ _
  | store abl n t _ hs ih => exact ih.store_queue hs

theorem ZeroRange_iff (buffers : List (List Byte)) (k : Nat) (d n : Int)
    (r : List (List Byte)) :
    ZeroRange buffers k d n = some r ↔
      k ≤ buffers.length ∧ r.length = buffers.length ∧
      ∀ c : Nat, r[c]? = zeroChan (fun b => memsetZero b d n) k c buffers[c]? := by
  rw [ZeroRange_eq_some_iff]
  refine and_congr Iff.rfl (and_congr Iff.rfl (forall_congr' fun c => ?_))
  cases buffers[c]? <;> simp [zeroChan]

theorem ZeroABL_iff (abl : AudioBufferList) (d n : Int) (r : AudioBufferList) :
    ZeroABL abl d n = some r ↔
      r.length = abl.length ∧
      ∀ c : Nat, r[c]? = zeroAblChan (fun a => memsetZero a d n) abl[c]? := by
  rw [ZeroABL_eq_some_iff]
  refine and_congr Iff.rfl (forall_congr' fun c => ?_)
  cases abl[c]? <;> simp [zeroAblChan]

theorem zeroSkipped_iff (buffers : List (List Byte)) (k CB : Nat) (o0 o1 : Int)
    (r : List (List Byte)) :
    zeroSkipped buffers k CB o0 o1 = some r ↔
      k ≤ buffers.length ∧ r.length = buffers.length ∧
      ∀ c : Nat, r[c]? = zeroChan (fun b => wrapZero b CB o0 o1) k c buffers[c]? := by
  unfold zeroSkipped wrapZero
  by_cases hlt : o0 < o1
  · simp only [hlt, if_true]
    exact ZeroRange_iff _ _ _ _ _
  · simp only [hlt, if_false]
    constructor
    · intro h
      obtain ⟨r1, h1, h2⟩ := Option.bind_eq_some.mp h
      obtain ⟨a1, a2, a3⟩ := (ZeroRange_iff _ _ _ _ _).mp h1
      obtain ⟨b1, b2, b3⟩ := (ZeroRange_iff _ _ _ _ _).mp h2
      refine ⟨a1, by omega, fun c => ?_⟩
      rw [b3 c, a3 c]
      cases buffers[c]? <;> simp [zeroChan]
      rename_i b
      by_cases hc : c < k <;> simp [hc]
      cases memsetZero b o0 (toSInt32 (↑CB - o0)) <;> simp [hc]
    · rintro ⟨a1, a2, a3⟩
      obtain ⟨r1, hr1, hr2⟩ := exists_list_getElem? buffers.length
        (fun c => zeroChan (fun b => memsetZero b o0 (toSInt32 (↑CB - o0))) k c buffers[c]?)
        (fun c hc => by
          have hb : buffers[c]? = some buffers[c] := List.getElem?_eq_getElem hc
          obtain ⟨x, hrc⟩ : ∃ x, r[c]? = some x := ⟨_, List.getElem?_eq_getElem (by omega)⟩
          have h3 := a3 c
          rw [hb, hrc] at h3
          simp only [hb, zeroChan] at h3 ⊢
          by_cases hck : c < k
          · simp only [hck, if_true] at h3 ⊢
            obtain ⟨m, hm, -⟩ := Option.bind_eq_some.mp h3.symm
            exact ⟨m, hm⟩
          · simp only [hck, if_false]
            exact ⟨_, rfl⟩)
        (fun c hc => by
          have hb : buffers[c]? = none := List.getElem?_eq_none hc
          simp [hb, zeroChan])
      apply Option.bind_eq_some.mpr
      refine ⟨r1, (ZeroRange_iff _ _ _ _ _).mpr ⟨a1, hr1, hr2⟩, ?_⟩
      refine (ZeroRange_iff _ _ _ _ _).mpr ⟨by omega, by omega, fun c => ?_⟩
      rw [a3 c, hr2 c]
      cases buffers[c]? <;> simp [zeroChan]
      rename_i b
      by_cases hc : c < k <;> simp [hc]
      cases memsetZero b o0 (toSInt32 (↑CB - o0)) <;> simp [hc]

theorem fetchFrames_iff (abl : AudioBufferList) (dsb : Int) (buffers : List (List Byte))
    (CB : Nat) (o0 o1 : Int) (nb : Int) (r : AudioBufferList) :
    fetchFrames abl dsb buffers CB o0 o1 = some (nb, r) ↔
      nb = (if o0 < o1 then o1 - o0 else toSInt32 (CB - o0) + o1) ∧
      abl.length ≤ buffers.length ∧ r.length = abl.length ∧
      ∀ c : Nat, r[c]? = fetchChan (fun a b => wrapRead a dsb b CB o0 o1) abl[c]? buffers[c]? := by
  unfold fetchFrames wrapRead
  by_cases hlt : o0 < o1
  · simp only [hlt, if_true, Option.map_eq_some', Prod.mk.injEq]
    constructor
    · rintro ⟨r', h, rfl, rfl⟩
      exact ⟨rfl, (FetchABL_iff _ _ _ _ _ _).mp h⟩
    · rintro ⟨rfl, h⟩
      exact ⟨r, (FetchABL_iff _ _ _ _ _ _).mpr h, rfl, rfl⟩
  · simp only [hlt, if_false, Option.map_eq_some', Prod.mk.injEq]
    constructor
    · rintro ⟨r', h, rfl, rfl⟩
      obtain ⟨r1, h1, h2⟩ := Option.bind_eq_some.mp h
      obtain ⟨a1, a2, a3⟩ := (FetchABL_iff _ _ _ _ _ _).mp h1
      obtain ⟨b1, b2, b3⟩ := (FetchABL_iff _ _ _ _ _ _).mp h2
      refine ⟨rfl, a1, by omega, fun c => ?_⟩
      rw [b3 c, a3 c]
      cases buffers[c]? <;> cases abl[c]? <;> simp [fetchChan]
      rename_i b a
      cases memcpy a.mData dsb b o0 (toSInt32 (↑CB - o0)) <;> simp
    · rintro ⟨rfl, a1, a2, a3⟩
      refine ⟨r, ?_, rfl, rfl⟩
      obtain ⟨r1, hr1, hr2⟩ := exists_list_getElem? abl.length
        (fun c => fetchChan (fun a b => memcpy a dsb b o0 (toSInt32 (↑CB - o0)))
          abl[c]? buffers[c]?)
        (fun c hc => by
          have ha : abl[c]? = some abl[c] := List.getElem?_eq_getElem hc
          obtain ⟨y, hb⟩ : ∃ y, buffers[c]? = some y :=
            ⟨_, List.getElem?_eq_getElem (by omega)⟩
          obtain ⟨x, hrc⟩ : ∃ x, r[c]? = some x := ⟨_, List.getElem?_eq_getElem (by omega)⟩
          have h3 := a3 c
          rw [ha, hb, hrc] at h3
          simp only [ha, hb, fetchChan] at h3 ⊢
          obtain ⟨m, hm, -⟩ := Option.map_eq_some'.mp h3.symm
          obtain ⟨m1, hm1, -⟩ := Option.bind_eq_some.mp hm
          exact ⟨_, by rw [hm1]; rfl⟩)
        (fun c hc => by
          have ha : abl[c]? = none := List.getElem?_eq_none hc
          simp [ha, fetchChan])
      apply Option.bind_eq_some.mpr
      refine ⟨r1, (FetchABL_iff _ _ _ _ _ _).mpr ⟨a1, hr1, hr2⟩, ?_⟩
      refine (FetchABL_iff _ _ _ _ _ _).mpr ⟨by omega, by omega, fun c => ?_⟩
      rw [a3 c, hr2 c]
      cases buffers[c]? <;> cases abl[c]? <;> simp [fetchChan]
      rename_i b a
      cases memcpy a.mData dsb b o0 (toSInt32 (↑CB - o0)) <;> simp

/-- Zeroing is copying from a zero-filled source. -/
theorem memsetZero_eq_memcpy (dst : List Byte) (d s n : Int) (m : Nat) (hs : 0 ≤ s)
    (h : s + n ≤ m) : memsetZero dst d n = memcpy dst d (List.replicate m 0) s n := by
  unfold memsetZero memcpy
  by_cases hc : 0 ≤ d ∧ 0 ≤ n ∧ d + n ≤ dst.length
  · rw [if_pos hc, if_pos ⟨hc.1, hs, hc.2.1, hc.2.2, by simpa using h⟩]
    congr 3
    simp
    omega
  · rw [if_neg hc, if_neg]
    rintro ⟨h1, -, h3, h4, -⟩
    exact hc ⟨h1, h3, h4⟩

theorem wrapZero_eq_wrapCopy (dst : List Byte) (CB o0 o1 : Nat) (h0 : o0 ≤ CB) (h1 : o1 ≤ CB)
    (hCB : CB < 2147483648) :
    wrapZero dst CB o0 o1 = wrapCopy dst CB o0 o1 (List.replicate (2 * CB) 0) := by
  unfold wrapZero wrapCopy
  have hs : toSInt32 ((CB : Int) - o0) = ((CB - o0 : Nat) : Int) := by
    rw [toSInt32_of_lt] <;> omega
  rw [hs]
  split_ifs with hlt
  · exact memsetZero_eq_memcpy _ _ _ _ _ (le_refl _) (by push_cast; omega)
  · rw [memsetZero_eq_memcpy dst o0 0 _ (2 * CB) (le_refl _) (by push_cast; omega)]
    congr 1
    funext b
    exact memsetZero_eq_memcpy _ _ _ _ _ (by omega) (by push_cast; omega)

theorem emod_add_nat (τ : Int) (cap i : Nat) (hcap : 0 < cap) (hi : i < cap) :
    ((τ + i) % (cap : Int)).toNat =
      if (τ % (cap : Int)).toNat + i < cap then (τ % (cap : Int)).toNat + i
      else (τ % (cap : Int)).toNat + i - cap := by
  have hc : (0 : Int) < cap := by omega
  have h0 := Int.emod_nonneg τ (ne_of_gt hc)
  have h1 := Int.emod_lt_of_pos τ hc
  have e : (τ + i) % (cap : Int) = (τ % (cap : Int) + i) % (cap : Int) := by
    rw [Int.emod_add_emod]
  rw [e]
  split_ifs with h
  · rw [Int.emod_eq_of_lt (by omega) (by omega)]
    omega
  · have e2 : (τ % (cap : Int) + i) % (cap : Int) = (τ % (cap : Int) + i - cap) % (cap : Int) := by
      rw [Int.sub_emod, Int.emod_self, sub_zero, Int.emod_emod]
    rw [e2, Int.emod_eq_of_lt (by omega) (by omega)]
    omega

theorem emod_add_cap (τ : Int) (cap : Nat) : (τ + cap) % (cap : Int) = τ % (cap : Int) := by
  simp

theorem Sized.frame_lt {rb : CARingBuffer} (h : Sized rb) (τ : Int) :
    (τ % (rb.mCapacityFrames : Int)).toNat < rb.mCapacityFrames := by
  have hc : (0 : Int) < rb.mCapacityFrames := by have := h.capacity_pos; omega
  have h0 := Int.emod_nonneg τ (ne_of_gt hc)
  have h1 := Int.emod_lt_of_pos τ hc
  omega

theorem Sized.byteOffset_add_le {rb : CARingBuffer} (h : Sized rb) (τ : Int) :
    rb.byteOffset τ + rb.mBytesPerFrame ≤ rb.mBytesPerFrame * rb.mCapacityFrames := by
  have h1 := h.frame_lt τ
  unfold byteOffset
  have : ((τ % (rb.mCapacityFrames : Int)).toNat + 1) * rb.mBytesPerFrame
      ≤ rb.mCapacityFrames * rb.mBytesPerFrame := Nat.mul_le_mul_right _ h1
  rw [Nat.mul_comm rb.mBytesPerFrame]
  rw [Nat.add_mul] at this
  omega

theorem Sized.toSInt32_FrameOffset {rb : CARingBuffer} (h : Sized rb) (τ : Int) :
    toSInt32 (rb.FrameOffset τ) = (rb.byteOffset τ : Int) := by
  have hc : (0 : Int) < rb.mCapacityFrames := by have := h.capacity_pos; omega
  have h0 := Int.emod_nonneg τ (ne_of_gt hc)
  have e : rb.FrameOffset τ = (rb.byteOffset τ : Int) := by
    unfold FrameOffset byteOffset
    push_cast
    rw [Int.toNat_of_nonneg h0]
  rw [e, toSInt32_of_lt]
  · omega
  · have := h.byteOffset_add_le τ
    have := h.fits
    omega

/-- The byte position of a frame at distance `i` from the frame of `τ`. -/
theorem Sized.byteOffset_add {rb : CARingBuffer} (h : Sized rb) (τ : Int) (i j : Nat)
    (hi : i < rb.mCapacityFrames) (hj : j < rb.mBytesPerFrame) :
    rb.byteOffset (τ + i) + j =
      wrapPos (rb.mBytesPerFrame * rb.mCapacityFrames) (rb.byteOffset τ)
        (i * rb.mBytesPerFrame + j) := by
  have ha := h.frame_lt τ
  unfold byteOffset wrapPos
  rw [emod_add_nat τ _ i h.capacity_pos hi]
  generalize (τ % (rb.mCapacityFrames : Int)).toNat = a at ha ⊢
  generalize rb.mCapacityFrames = cap at hi ha ⊢
  generalize rb.mBytesPerFrame = bpf at hj ⊢
  have e0 : bpf * cap = cap * bpf := Nat.mul_comm _ _
  by_cases hw : a + i < cap
  · have h1 : (a + i + 1) * bpf ≤ cap * bpf := Nat.mul_le_mul_right _ hw
    have h2 : (a + i + 1) * bpf = a * bpf + i * bpf + bpf := by ring
    have h3 : (a + i) * bpf = a * bpf + i * bpf := by ring
    rw [if_pos hw, if_pos (by omega)]
    omega
  · have h1 : cap * bpf ≤ (a + i) * bpf := Nat.mul_le_mul_right _ (by omega)
    have h3 : (a + i) * bpf = a * bpf + i * bpf := by ring
    have h4 : (a + i - cap) * bpf = (a + i) * bpf - cap * bpf := Nat.sub_mul _ _ _
    rw [if_neg hw, if_neg (by omega)]
    omega

/-- The distance of a frame at distance `i` from the frame of `τ`, in bytes. -/
theorem Sized.wrapRel_byteOffset {rb : CARingBuffer} (h : Sized rb) (τ : Int) (i j : Nat)
    (hi : i < rb.mCapacityFrames) (hj : j < rb.mBytesPerFrame) :
    wrapRel (rb.mBytesPerFrame * rb.mCapacityFrames) (rb.byteOffset τ)
      (rb.byteOffset (τ + i) + j) = i * rb.mBytesPerFrame + j := by
  have ha := h.frame_lt τ
  unfold byteOffset wrapRel
  rw [emod_add_nat τ _ i h.capacity_pos hi]
  generalize (τ % (rb.mCapacityFrames : Int)).toNat = a at ha ⊢
  generalize rb.mCapacityFrames = cap at hi ha ⊢
  generalize rb.mBytesPerFrame = bpf at hj ⊢
  have e0 : bpf * cap = cap * bpf := Nat.mul_comm _ _
  have h0 : (a + 1) * bpf ≤ cap * bpf := Nat.mul_le_mul_right _ ha
  have h0' : (a + 1) * bpf = a * bpf + bpf := by ring
  by_cases hw : a + i < cap
  · have h3 : (a + i) * bpf = a * bpf + i * bpf := by ring
    rw [if_pos hw, if_pos (by omega)]
    omega
  · have h1 : cap * bpf ≤ (a + i) * bpf := Nat.mul_le_mul_right _ (by omega)
    have h3 : (a + i) * bpf = a * bpf + i * bpf := by ring
    have h4 : (a + i - cap) * bpf = (a + i) * bpf - cap * bpf := Nat.sub_mul _ _ _
    have h5 : (a + i - cap + 1) * bpf ≤ a * bpf := Nat.mul_le_mul_right _ (by omega)
    have h6 : (a + i - cap + 1) * bpf = (a + i - cap) * bpf + bpf := by ring
    rw [if_neg hw, if_neg (by omega)]
    omega

/-- The number of bytes the copy blocks transfer for `n` frames starting at `τ`. -/
theorem Sized.wrapLen_byteOffset {rb : CARingBuffer} (h : Sized rb) (τ : Int) (n : Nat)
    (hn : n ≤ rb.mCapacityFrames)
    (hb : rb.mCapacityBytes = rb.mBytesPerFrame * rb.mCapacityFrames) :
    wrapLen (rb.mBytesPerFrame * rb.mCapacityFrames) (rb.byteOffset τ)
      (rb.byteOffset (τ + n)) = rb.spanBytes n := by
  have ha := h.frame_lt τ
  have hle := h.byteOffset_add_le τ
  unfold spanBytes wrapLen
  rw [hb]
  by_cases hn0 : n = 0
  · subst hn0
    simp only [Nat.cast_zero, add_zero, lt_irrefl, if_false, if_true]
    omega
  · rw [if_neg hn0]
    by_cases hnc : n = rb.mCapacityFrames
    · subst hnc
      have e : rb.byteOffset (τ + rb.mCapacityFrames) = rb.byteOffset τ := by
        unfold byteOffset; rw [emod_add_cap]
      rw [e, if_neg (lt_irrefl _), Nat.mul_comm rb.mCapacityFrames]
      omega
    · have hlt : n < rb.mCapacityFrames := by omega
      unfold byteOffset at hle ⊢
      rw [emod_add_nat τ _ n h.capacity_pos hlt]
      generalize (τ % (rb.mCapacityFrames : Int)).toNat = a at ha hle ⊢
      generalize rb.mCapacityFrames = cap at hn hlt ha hle ⊢
      generalize rb.mBytesPerFrame = bpf at hle ⊢
      have e0 : bpf * cap = cap * bpf := Nat.mul_comm _ _
      by_cases hw : a + n < cap
      · have h3 : (a + n) * bpf = a * bpf + n * bpf := by ring
        rw [if_pos hw]
        by_cases hb0 : bpf = 0
        · subst hb0; simp
        · have : 0 < n * bpf := Nat.mul_pos (by omega) (by omega)
          rw [if_pos (by omega)]
          omega
      · have h1 : cap * bpf ≤ (a + n) * bpf := Nat.mul_le_mul_right _ (by omega)
        have h3 : (a + n) * bpf = a * bpf + n * bpf := by ring
        have h4 : (a + n - cap) * bpf = (a + n) * bpf - cap * bpf := Nat.sub_mul _ _ _
        have h5 : (a + n - cap) * bpf ≤ a * bpf := Nat.mul_le_mul_right _ (by omega)
        rw [if_neg hw, if_neg (by omega)]
        omega

theorem memcpy_length {dst src r : List Byte} {d s n : Int}
    (h : memcpy dst d src s n = some r) : r.length = dst.length := by
  obtain ⟨h1, h2, h3, h4, h5, rfl⟩ := (memcpy_eq_some_iff _ _ _ _ _ _).mp h
  apply length_splice
  simp
  omega

theorem memsetZero_length {dst r : List Byte} {d n : Int}
    (h : memsetZero dst d n = some r) : r.length = dst.length := by
  obtain ⟨h1, h2, h3, rfl⟩ := (memsetZero_eq_some_iff _ _ _ _).mp h
  apply length_splice
  simp
  omega

theorem wrapCopy_length {dst src r : List Byte} {CB : Nat} {o0 o1 : Int}
    (h : wrapCopy dst CB o0 o1 src = some r) : r.length = dst.length := by
  unfold wrapCopy at h
  split_ifs at h
  · exact memcpy_length h
  · obtain ⟨m, h1, h2⟩ := Option.bind_eq_some.mp h
    rw [memcpy_length h2, memcpy_length h1]

theorem wrapZero_length {dst r : List Byte} {CB : Nat} {o0 o1 : Int}
    (h : wrapZero dst CB o0 o1 = some r) : r.length = dst.length := by
  unfold wrapZero at h
  split_ifs at h
  · exact memsetZero_length h
  · obtain ⟨m, h1, h2⟩ := Option.bind_eq_some.mp h
    rw [memsetZero_length h2, memsetZero_length h1]

theorem storeFrames_lengths {buffers r : List (List Byte)} {CB : Nat} {o0 o1 : Int}
    {abl : AudioBufferList} {L : Nat} (h : storeFrames buffers CB o0 o1 abl = some r)
    (hL : ∀ b ∈ buffers, b.length = L) : r.length = buffers.length ∧ ∀ b ∈ r, b.length = L := by
  obtain ⟨h1, h2, h3⟩ := (storeFrames_iff _ _ _ _ _ _).mp h
  refine ⟨h2, fun b hb => ?_⟩
  obtain ⟨c, hc, rfl⟩ := List.getElem_of_mem hb
  have h4 := h3 c
  have hcb : c < buffers.length := by omega
  rw [List.getElem?_eq_getElem hc, List.getElem?_eq_getElem hcb] at h4
  have hLb := hL _ (List.getElem_mem hcb)
  cases ha : abl[c]? with
  | none =>
    rw [ha] at h4
    simp only [storeChan, Option.some.injEq] at h4
    rw [h4]; exact hLb
  | some a =>
    rw [ha] at h4
    simp only [storeChan] at h4
    rw [wrapCopy_length h4.symm]; exact hLb

theorem zeroSkipped_lengths {buffers r : List (List Byte)} {k CB : Nat} {o0 o1 : Int}
    {L : Nat} (h : zeroSkipped buffers k CB o0 o1 = some r)
    (hL : ∀ b ∈ buffers, b.length = L) : r.length = buffers.length ∧ ∀ b ∈ r, b.length = L := by
  obtain ⟨h1, h2, h3⟩ := (zeroSkipped_iff _ _ _ _ _ _).mp h
  refine ⟨h2, fun b hb => ?_⟩
  obtain ⟨c, hc, rfl⟩ := List.getElem_of_mem hb
  have h4 := h3 c
  have hcb : c < buffers.length := by omega
  rw [List.getElem?_eq_getElem hc, List.getElem?_eq_getElem hcb] at h4
  have hLb := hL _ (List.getElem_mem hcb)
  simp only [zeroChan] at h4
  split_ifs at h4
  · rw [wrapZero_length h4.symm]; exact hLb
  · simp only [Option.some.injEq] at h4
    rw [h4]; exact hLb

theorem Store_fields {rb rb' : CARingBuffer} {abl : AudioBufferList} {n : Nat} {t : Int}
    {err : Int} (hs : rb.Store abl n t = some (err, rb')) :
    rb'.mNumberChannels = rb.mNumberChannels ∧ rb'.mBytesPerFrame = rb.mBytesPerFrame ∧
    rb'.mCapacityFrames = rb.mCapacityFrames ∧ rb'.mCapacityBytes = rb.mCapacityBytes := by
  rcases (Store_eq_some_iff _ _ _ _ _ _).mp hs with ⟨-, -, rfl⟩ | ⟨-, -, zeroed, stored, -, -, rfl⟩
  · exact ⟨rfl, rfl, rfl, rfl⟩
  · simp

theorem StorageInv.of_allocate_storage (rb : CARingBuffer) (nChannels bytesPerFrame capacityFrames : Nat) :
    StorageInv (rb.Allocate nChannels bytesPerFrame capacityFrames) where
  capacityBytes := by simp [Allocate]
  channels := by simp [Allocate]
  storage := by
    intro b hb
    simp only [Allocate, List.mem_replicate] at hb
    rw [hb.2]
    simp [Allocate]

theorem StorageInv.store_storage {rb rb' : CARingBuffer} (h : StorageInv rb) {abl : AudioBufferList}
    {n : Nat} {t : Int} {err : Int}
    (hs : rb.Store abl n t = some (err, rb')) : StorageInv rb' := by
  rcases (Store_eq_some_iff _ _ _ _ _ _).mp hs with
    ⟨-, -, rfl⟩ | ⟨-, -, zeroed, stored, hz, hst, rfl⟩
  · exact h
  · have hzl : zeroed.length = rb.mBuffers.length ∧ ∀ b ∈ zeroed, b.length = rb.mCapacityBytes := by
      split_ifs at hz
      · simpa using zeroSkipped_lengths hz (by simpa using h.storage)
      · simp only [adjustBounds_mBuffers, Option.some.injEq] at hz
        subst hz
        exact ⟨rfl, h.storage⟩
    have hsl := storeFrames_lengths hst hzl.2
    refine ⟨by simpa using h.capacityBytes, ?_, ?_⟩
    · simp only [SetTimeBounds_mBuffers, SetTimeBounds_mNumberChannels,
        adjustBounds_mNumberChannels]
      rw [hsl.1, hzl.1, h.channels]
    · simpa using hsl.2

theorem Reachable.storageInv {rb : CARingBuffer} (h : Reachable rb) : StorageInv rb := by
  induction h with
  | allocate rb nChannels bytesPerFrame capacityFrames => exact StorageInv.of_allocate_storage _ _ _ _
  | store abl n t _ hs ih => exact ih.store_storage hs

theorem Sized.store_sized {rb rb' : CARingBuffer} (h : Sized rb) {abl : AudioBufferList}
    {n : Nat} {t : Int} {err : Int}
    (hs : rb.Store abl n t = some (err, rb')) : Sized rb' := by
  obtain ⟨-, h2, h3, -⟩ := Store_fields hs
  exact ⟨by rw [h3]; exact h.capacity_pos, by rw [h2, h3]; exact h.fits⟩

theorem StorageInv.capacityBytes_eq_mul {rb : CARingBuffer} (h : StorageInv rb) (hz : Sized rb) :
    rb.mCapacityBytes = rb.mBytesPerFrame * rb.mCapacityFrames := by
  rw [h.capacityBytes]
  have := hz.fits
  omega

theorem wrapCopy_exists (dst src : List Byte) (CB o0 o1 : Nat) (hlen : dst.length = CB)
    (h0 : o0 ≤ CB) (h1 : o1 ≤ CB) (hCB : CB < 2147483648)
    (hsrc : wrapLen CB o0 o1 ≤ src.length) : ∃ r, wrapCopy dst CB o0 o1 src = some r := by
  obtain ⟨r, hr1, hr2⟩ := exists_list_getElem? CB
    (fun p => if p < CB then
      (if wrapRel CB o0 p < wrapLen CB o0 o1 then src[wrapRel CB o0 p]? else dst[p]?)
      else none)
    (fun p hp => by
      simp only [hp, if_true]
      split_ifs with h
      · exact ⟨_, List.getElem?_eq_getElem (by omega)⟩
      · exact ⟨_, List.getElem?_eq_getElem (by omega)⟩)
    (fun p hp => by simp only [Nat.not_lt.mpr hp, if_false])
  refine ⟨r, (wrapCopy_eq_some_iff dst src CB o0 o1 hlen h0 h1 hCB r).mpr
    ⟨hsrc, hr1, fun p hp => ?_⟩⟩
  rw [hr2 p]
  simp only [hp, if_true]

theorem wrapRead_exists (dest ring : List Byte) (dsb CB o0 o1 : Nat)
    (hlen : ring.length = CB) (h0 : o0 ≤ CB) (h1 : o1 ≤ CB) (hCB : CB < 2147483648)
    (hd : dsb + wrapLen CB o0 o1 ≤ dest.length) :
    ∃ r, wrapRead dest dsb ring CB o0 o1 = some r := by
  have hpos : ∀ k, k < wrapLen CB o0 o1 → wrapPos CB o0 k < CB := by
    intro k hk
    unfold wrapLen at hk
    unfold wrapPos
    split_ifs at hk ⊢ <;> omega
  obtain ⟨r, hr1, hr2⟩ := exists_list_getElem? dest.length
    (fun q => if dsb ≤ q ∧ q < dsb + wrapLen CB o0 o1 then ring[wrapPos CB o0 (q - dsb)]?
      else dest[q]?)
    (fun q hq => by
      simp only
      split_ifs with h
      · exact ⟨_, List.getElem?_eq_getElem (by rw [hlen]; exact hpos _ (by omega))⟩
      · exact ⟨_, List.getElem?_eq_getElem hq⟩)
    (fun q hq => by
      simp only
      rw [if_neg (by omega)]
      exact List.getElem?_eq_none hq)
  exact ⟨r, (wrapRead_eq_some_iff dest ring dsb CB o0 o1 hlen h0 h1 hCB r).mpr ⟨hd, hr1, hr2⟩⟩

theorem wrapLen_le (CB o0 o1 : Nat) (h0 : o0 ≤ CB) (h1 : o1 ≤ CB) : wrapLen CB o0 o1 ≤ 2 * CB := by
  unfold wrapLen; split_ifs <;> omega

theorem wrapRel_lt (CB o0 p : Nat) (h0 : o0 ≤ CB) (hp : p < CB) : wrapRel CB o0 p < CB := by
  unfold wrapRel; split_ifs <;> omega

/-- The circular zeroing of one channel region always succeeds and zeroes exactly the
bytes of the circular range. -/
theorem wrapZero_spec (dst : List Byte) (CB o0 o1 : Nat) (hlen : dst.length = CB)
    (h0 : o0 ≤ CB) (h1 : o1 ≤ CB) (hCB : CB < 2147483648) :
    ∃ r, wrapZero dst CB o0 o1 = some r ∧ r.length = CB ∧
      ∀ p : Nat, p < CB → r[p]? =
        if wrapRel CB o0 p < wrapLen CB o0 o1 then some 0 else dst[p]? := by
  rw [wrapZero_eq_wrapCopy dst CB o0 o1 h0 h1 hCB]
  have hsrc : wrapLen CB o0 o1 ≤ (List.replicate (2 * CB) (0 : Byte)).length := by
    simpa using wrapLen_le CB o0 o1 h0 h1
  obtain ⟨r, hr⟩ := wrapCopy_exists dst _ CB o0 o1 hlen h0 h1 hCB hsrc
  obtain ⟨-, hr1, hr2⟩ := (wrapCopy_eq_some_iff dst _ CB o0 o1 hlen h0 h1 hCB r).mp hr
  refine ⟨r, hr, hr1, fun p hp => ?_⟩
  rw [hr2 p hp]
  split_ifs with h
  · have := wrapRel_lt CB o0 p h0 hp
    rw [List.getElem?_replicate, if_pos (by omega)]
  · rfl

theorem Reachable.wellFormed {rb : CARingBuffer} (h : Reachable rb) (hz : Sized rb) :
    WellFormed rb := ⟨h.queueInv, h.storageInv, hz⟩

theorem WellFormed.store_wellFormed {rb rb' : CARingBuffer} (h : WellFormed rb) {abl : AudioBufferList}
    {n : Nat} {t : Int} {err : Int}
    (hs : rb.Store abl n t = some (err, rb')) : WellFormed rb' :=
  ⟨h.wfQueue.store_queue hs, h.wfStorage.store_storage hs, h.wfSized.store_sized hs⟩

theorem WellFormed.capacityBytes_eq_prod {rb : CARingBuffer} (h : WellFormed rb) :
    rb.mCapacityBytes = rb.mBytesPerFrame * rb.mCapacityFrames :=
  h.wfStorage.capacityBytes_eq_mul h.wfSized

theorem WellFormed.capacityBytes_lt {rb : CARingBuffer} (h : WellFormed rb) :
    rb.mCapacityBytes < 2147483648 := by
  rw [h.capacityBytes_eq_prod]; exact h.wfSized.fits

theorem WellFormed.byteOffset_le_capacityBytes {rb : CARingBuffer} (h : WellFormed rb) (τ : Int) :
    rb.byteOffset τ ≤ rb.mCapacityBytes := by
  have := h.wfSized.byteOffset_add_le τ
  rw [h.capacityBytes_eq_prod]
  omega

/-- The write block of `Store` on channel regions of `CB` bytes: it returns exactly when
the caller supplies at most one buffer per channel, each holding the bytes of the
span, and then every region holds the source bytes in the span. -/
theorem storeFrames_spec (buffers : List (List Byte)) (CB o0 o1 : Nat)
    (abl : AudioBufferList) (hL : ∀ b ∈ buffers, b.length = CB) (h0 : o0 ≤ CB)
    (h1 : o1 ≤ CB) (hCB : CB < 2147483648) (r : List (List Byte))
    (h : storeFrames buffers CB o0 o1 abl = some r) :
    abl.length ≤ buffers.length ∧ (∀ a ∈ abl, wrapLen CB o0 o1 ≤ a.mData.length) ∧
    r.length = buffers.length ∧
    ∀ (c : Nat) (b : List Byte), buffers[c]? = some b →
      ∃ s, r[c]? = some s ∧ s.length = CB ∧
        ∀ p : Nat, p < CB →
          s[p]? = storedByte abl[c]? (wrapRel CB o0 p) (wrapLen CB o0 o1) b[p]? := by
  obtain ⟨a1, a2, a3⟩ := (storeFrames_iff _ _ _ _ _ _).mp h
  refine ⟨a1, ?_, a2, ?_⟩
  · intro a ha
    obtain ⟨c, hc, rfl⟩ := List.getElem_of_mem ha
    have hcb : c < buffers.length := by omega
    have h4 := a3 c
    rw [List.getElem?_eq_getElem hc, List.getElem?_eq_getElem hcb,
      List.getElem?_eq_getElem (by omega : c < r.length)] at h4
    simp only [storeChan] at h4
    exact ((wrapCopy_eq_some_iff _ _ CB o0 o1 (hL _ (List.getElem_mem hcb)) h0 h1 hCB _).mp
      h4.symm).1
  · intro c b hb
    have hcb : c < buffers.length := by
      by_contra hcon
      rw [List.getElem?_eq_none (by omega)] at hb
      exact absurd hb (by simp)
    have hbL : b.length = CB := by
      apply hL
      rw [List.getElem?_eq_getElem hcb] at hb
      rw [← Option.some.inj hb]
      exact List.getElem_mem hcb
    have h4 := a3 c
    rw [hb, List.getElem?_eq_getElem (by omega : c < r.length)] at h4
    refine ⟨r[c], List.getElem?_eq_getElem (by omega), ?_⟩
    cases ha : abl[c]? with
    | none =>
      rw [ha] at h4
      simp only [storeChan, Option.some.injEq] at h4
      rw [h4]
      exact ⟨hbL, fun p _ => rfl⟩
    | some a =>
      rw [ha] at h4
      simp only [storeChan] at h4
      obtain ⟨-, e1, e2⟩ := (wrapCopy_eq_some_iff _ _ CB o0 o1 hbL h0 h1 hCB _).mp h4.symm
      exact ⟨e1, fun p hp => by rw [e2 p hp]; rfl⟩

theorem storeFrames_exists (buffers : List (List Byte)) (CB o0 o1 : Nat)
    (abl : AudioBufferList) (hL : ∀ b ∈ buffers, b.length = CB) (h0 : o0 ≤ CB)
    (h1 : o1 ≤ CB) (hCB : CB < 2147483648) (hlen : abl.length ≤ buffers.length)
    (habl : ∀ a ∈ abl, wrapLen CB o0 o1 ≤ a.mData.length) :
    ∃ r, storeFrames buffers CB o0 o1 abl = some r := by
  obtain ⟨r, hr1, hr2⟩ := exists_list_getElem? buffers.length
    (fun c => storeChan (fun b a => wrapCopy b CB o0 o1 a) buffers[c]? abl[c]?)
    (fun c hc => by
      simp only [List.getElem?_eq_getElem hc]
      cases ha : abl[c]? with
      | none => exact ⟨_, rfl⟩
      | some a =>
        simp only [storeChan]
        exact wrapCopy_exists _ _ CB o0 o1 (hL _ (List.getElem_mem hc)) h0 h1 hCB
          (habl a (List.getElem?_mem ha)))
    (fun c hc => by simp [List.getElem?_eq_none hc, storeChan])
  exact ⟨r, (storeFrames_iff _ _ _ _ _ _).mpr ⟨hlen, hr1, hr2⟩⟩

/-- The zeroing block of `Store` on channel regions of `CB` bytes always returns, and
zeroes the bytes of the circular range in every region. -/
theorem zeroSkipped_spec (buffers : List (List Byte)) (CB o0 o1 : Nat)
    (hL : ∀ b ∈ buffers, b.length = CB) (h0 : o0 ≤ CB) (h1 : o1 ≤ CB)
    (hCB : CB < 2147483648) :
    ∃ r, zeroSkipped buffers buffers.length CB o0 o1 = some r ∧ r.length = buffers.length ∧
      ∀ (c : Nat) (b : List Byte), buffers[c]? = some b →
        ∃ z, r[c]? = some z ∧ z.length = CB ∧
          ∀ p : Nat, p < CB →
            z[p]? = if wrapRel CB o0 p < wrapLen CB o0 o1 then some 0 else b[p]? := by
  obtain ⟨r, hr1, hr2⟩ := exists_list_getElem? buffers.length
    (fun c => zeroChan (fun b => wrapZero b CB o0 o1) buffers.length c buffers[c]?)
    (fun c hc => by
      simp only [List.getElem?_eq_getElem hc, zeroChan, hc, if_true]
      obtain ⟨z, hz, -⟩ := wrapZero_spec _ CB o0 o1 (hL _ (List.getElem_mem hc)) h0 h1 hCB
      exact ⟨z, hz⟩)
    (fun c hc => by simp [List.getElem?_eq_none hc, zeroChan])
  refine ⟨r, (zeroSkipped_iff _ _ _ _ _ _).mpr ⟨le_refl _, hr1, hr2⟩, hr1, ?_⟩
  intro c b hb
  have hcb : c < buffers.length := by
    by_contra hcon
    rw [List.getElem?_eq_none (by omega)] at hb
    exact absurd hb (by simp)
  have hbL : b.length = CB := by
    apply hL
    rw [List.getElem?_eq_getElem hcb] at hb
    rw [← Option.some.inj hb]
    exact List.getElem_mem hcb
  obtain ⟨z, hz, hz1, hz2⟩ := wrapZero_spec b CB o0 o1 hbL h0 h1 hCB
  refine ⟨z, ?_, hz1, hz2⟩
  rw [hr2 c, hb]
  simp only [zeroChan, hcb, if_true]
  exact hz

/-- The bytes of every channel region after a returning `Store` of `n ≤ capacity`
frames, with the bounds it publishes: source bytes in the written span, zero in the
skipped range before it, the previous bytes elsewhere. -/
theorem Store_spec {rb rb' : CARingBuffer} (wf : WellFormed rb) {abl : AudioBufferList}
    {n : Nat} {t : Int} {err : Int} (hn : n ≤ rb.mCapacityFrames)
    (hs : rb.Store abl n t = some (err, rb')) :
    err = kCARingBufferError_OK ∧ abl.length ≤ rb.mNumberChannels ∧
    (∀ a ∈ abl, rb.spanBytes n ≤ a.mData.length) ∧
    rb'.StartTime = (rb.adjustBounds n t).StartTime ∧ rb'.EndTime = t + n ∧
    rb'.mBuffers.length = rb.mBuffers.length ∧
    ∀ (c : Nat) (b : List Byte), rb.mBuffers[c]? = some b →
      ∃ s, rb'.mBuffers[c]? = some s ∧ s.length = rb.mCapacityBytes ∧
        ∀ p : Nat, p < rb.mCapacityBytes →
          s[p]? = storedByte abl[c]? (wrapRel rb.mCapacityBytes (rb.byteOffset t) p)
            (rb.spanBytes n)
            (if (rb.adjustBounds n t).EndTime < t ∧
                wrapRel rb.mCapacityBytes (rb.byteOffset (rb.adjustBounds n t).EndTime) p
                  < (t - (rb.adjustBounds n t).EndTime).toNat * rb.mBytesPerFrame
              then some 0 else b[p]?) := by
  rcases (Store_eq_some_iff _ _ _ _ _ _).mp hs with
    ⟨h, -, -⟩ | ⟨-, rfl, zeroed, stored, hz, hst, rfl⟩
  · omega
  · have hq := wf.wfQueue.adjustBounds n t
    have hw := adjustBounds_window wf.wfQueue n t hn
    have hCB := wf.capacityBytes_eq_prod
    have hlt := wf.capacityBytes_lt
    simp only [adjustBounds_mBuffers, adjustBounds_mNumberChannels, adjustBounds_mCapacityBytes,
      adjustBounds_FrameOffset, wf.wfSized.toSInt32_FrameOffset] at hz hst
    generalize (rb.adjustBounds n t).EndTime = E1 at hz hw ⊢
    -- the zeroing block
    have hzspec : zeroed.length = rb.mBuffers.length ∧
        ∀ (c : Nat) (b : List Byte), rb.mBuffers[c]? = some b →
          ∃ z, zeroed[c]? = some z ∧ z.length = rb.mCapacityBytes ∧
            ∀ p : Nat, p < rb.mCapacityBytes →
              z[p]? = if E1 < t ∧ wrapRel rb.mCapacityBytes (rb.byteOffset E1) p
                  < (t - E1).toNat * rb.mBytesPerFrame then some 0 else b[p]? := by
      by_cases hgap : t > E1
      · rw [if_pos hgap, ← wf.wfStorage.channels] at hz
        obtain ⟨r, hr, hr1, hr2⟩ := zeroSkipped_spec rb.mBuffers rb.mCapacityBytes
          (rb.byteOffset E1) (rb.byteOffset t) wf.wfStorage.storage (wf.byteOffset_le_capacityBytes _)
          (wf.byteOffset_le_capacityBytes _) hlt
        rw [hr] at hz
        obtain rfl := Option.some.inj hz
        refine ⟨hr1, fun c b hb => ?_⟩
        obtain ⟨z, hz1, hz2, hz3⟩ := hr2 c b hb
        refine ⟨z, hz1, hz2, fun p hp => ?_⟩
        rw [hz3 p hp]
        have hg : (t - E1).toNat ≤ rb.mCapacityFrames := by omega
        have hlen := wf.wfSized.wrapLen_byteOffset E1 (t - E1).toNat hg hCB
        have e : E1 + ((t - E1).toNat : Int) = t := by omega
        rw [e, ← hCB] at hlen
        rw [hlen]
        have hne : (t - E1).toNat ≠ 0 := by omega
        unfold spanBytes
        rw [if_neg hne]
        simp only [gt_iff_lt.mp hgap, true_and]
      · rw [if_neg hgap] at hz
        obtain rfl := Option.some.inj hz
        refine ⟨rfl, fun c b hb => ?_⟩
        have hcb : c < rb.mBuffers.length := by
          by_contra hcon
          rw [List.getElem?_eq_none (by omega)] at hb
          exact absurd hb (by simp)
        refine ⟨b, hb, wf.wfStorage.storage b (List.getElem?_mem hb), fun p _ => ?_⟩
        rw [if_neg (by omega)]
    -- the write block
    have hzL : ∀ b ∈ zeroed, b.length = rb.mCapacityBytes := by
      intro b hb
      obtain ⟨c, hc, rfl⟩ := List.getElem_of_mem hb
      have hcb : c < rb.mBuffers.length := by omega
      obtain ⟨z, hz1, hz2, -⟩ := hzspec.2 c _ (List.getElem?_eq_getElem hcb)
      rw [List.getElem?_eq_getElem hc] at hz1
      rw [Option.some.inj hz1]
      exact hz2
    obtain ⟨s1, s2, s3, s4⟩ := storeFrames_spec zeroed rb.mCapacityBytes (rb.byteOffset t)
      (rb.byteOffset (t + n)) abl hzL (wf.byteOffset_le_capacityBytes _) (wf.byteOffset_le_capacityBytes _) hlt stored hst
    have hlen := wf.wfSized.wrapLen_byteOffset t n hn hCB
    rw [← hCB] at hlen
    rw [hlen] at s2 s4
    refine ⟨rfl, ?_, s2, ?_, ?_, ?_, ?_⟩
    · rw [← wf.wfStorage.channels]; omega
    · rw [StartTime_SetTimeBounds _ _ _ (hq.withBuffers stored).queue_length]
    · rw [EndTime_SetTimeBounds _ _ _ (hq.withBuffers stored).queue_length]
    · simp only [SetTimeBounds_mBuffers]; omega
    · intro c b hb
      obtain ⟨z, hz1, hz2, hz3⟩ := hzspec.2 c b hb
      obtain ⟨s, hs1, hs2, hs3⟩ := s4 c z hz1
      refine ⟨s, by simpa using hs1, hs2, fun p hp => ?_⟩
      rw [hs3 p hp, hz3 p hp]

/-- `Store` returns when the caller supplies at most one buffer per channel, each of
them holding the bytes of the span. -/
theorem Store_exists {rb : CARingBuffer} (wf : WellFormed rb) (abl : AudioBufferList)
    (n : Nat) (t : Int) (hn : n ≤ rb.mCapacityFrames) (hlen : abl.length ≤ rb.mNumberChannels)
    (habl : ∀ a ∈ abl, rb.spanBytes n ≤ a.mData.length) :
    ∃ rb', rb.Store abl n t = some (kCARingBufferError_OK, rb') := by
  have hCB := wf.capacityBytes_eq_prod
  have hlt := wf.capacityBytes_lt
  have hzex : ∃ zeroed, (if t > (rb.adjustBounds n t).EndTime then
            zeroSkipped (rb.adjustBounds n t).mBuffers (rb.adjustBounds n t).mNumberChannels
              (rb.adjustBounds n t).mCapacityBytes
              (toSInt32 ((rb.adjustBounds n t).FrameOffset (rb.adjustBounds n t).EndTime))
              (toSInt32 ((rb.adjustBounds n t).FrameOffset t))
           else some (rb.adjustBounds n t).mBuffers) = some zeroed ∧
        zeroed.length = rb.mBuffers.length ∧ ∀ b ∈ zeroed, b.length = rb.mCapacityBytes := by
    simp only [adjustBounds_mBuffers, adjustBounds_mNumberChannels, adjustBounds_mCapacityBytes,
      adjustBounds_FrameOffset, wf.wfSized.toSInt32_FrameOffset]
    split_ifs with hgap
    · rw [← wf.wfStorage.channels]
      obtain ⟨r, hr, hr1, -⟩ := zeroSkipped_spec rb.mBuffers rb.mCapacityBytes
        (rb.byteOffset (rb.adjustBounds n t).EndTime) (rb.byteOffset t) wf.wfStorage.storage
        (wf.byteOffset_le_capacityBytes _) (wf.byteOffset_le_capacityBytes _) hlt
      exact ⟨r, hr, hr1, (zeroSkipped_lengths hr wf.wfStorage.storage).2⟩
    · exact ⟨_, rfl, rfl, wf.wfStorage.storage⟩
  obtain ⟨zeroed, hz, hz1, hz2⟩ := hzex
  have hlen' := wf.wfSized.wrapLen_byteOffset t n hn hCB
  rw [← hCB] at hlen'
  obtain ⟨stored, hst⟩ := storeFrames_exists zeroed rb.mCapacityBytes (rb.byteOffset t)
    (rb.byteOffset (t + n)) abl hz2 (wf.byteOffset_le_capacityBytes _) (wf.byteOffset_le_capacityBytes _) hlt
    (by rw [hz1, wf.wfStorage.channels]; exact hlen) (by rw [hlen']; exact habl)
  refine ⟨_, (Store_eq_some_iff _ _ _ _ _ _).mpr (Or.inr ⟨hn, rfl, zeroed, stored, hz, ?_, rfl⟩)⟩
  simp only [adjustBounds_mCapacityBytes, adjustBounds_FrameOffset,
    wf.wfSized.toSInt32_FrameOffset]
  exact hst

theorem QueueInv.getTimeBounds {rb : CARingBuffer} (h : QueueInv rb) (s e : Int) :
    rb.GetTimeBounds s e = (kCARingBufferError_OK, rb.StartTime, rb.EndTime) := by
  simp [GetTimeBounds, GetTimeBoundsLoop, h.counter, StartTime, EndTime]

theorem QueueInv.clipTimeBounds {rb : CARingBuffer} (h : QueueInv rb) (s e : Int) :
    rb.ClipTimeBounds s e =
      (clipStatus rb.StartTime rb.EndTime s e, clipStart rb.StartTime rb.EndTime s e,
        clipEnd rb.StartTime rb.EndTime s e) := by
  unfold ClipTimeBounds
  rw [h.getTimeBounds]
  simp only [kCARingBufferError_OK, ne_eq, not_true_eq_false, if_false, clipStatus, clipStart,
    clipEnd]
  split_ifs <;> rfl

theorem worse_zero (a : Int) : worse a 0 = a := by
  unfold worse
  simp only [lt_irrefl, if_false]
  split_ifs <;> omega

/-- The clipped range lies inside both the request and the published window, apart
from the two total misses, where it is empty. -/
theorem clip_facts (S E s e : Int) (hSE : S ≤ E) (hse : s ≤ e) :
    clipStart S E s e ≤ clipEnd S E s e ∧ S ≤ clipStart S E s e ∧ clipEnd S E s e ≤ E ∧
    (clipStart S E s e < clipEnd S E s e →
      s ≤ clipStart S E s e ∧ clipEnd S E s e ≤ e ∧
      clipStart S E s e = max s S ∧ clipEnd S E s e = min e E) ∧
    (clipStatus S E s e = 0 ↔ S ≤ s ∧ e ≤ E) ∧
    (clipStatus S E s e = 0 → clipStart S E s e = s ∧ clipEnd S E s e = e) := by
  unfold clipStart clipEnd clipStatus kCARingBufferError_TooMuch kCARingBufferError_WayBehind
    kCARingBufferError_SlightlyBehind kCARingBufferError_WayAhead
    kCARingBufferError_SlightlyAhead kCARingBufferError_OK
  split_ifs <;> simp <;> omega

theorem clipStatus_clip (S E s e : Int) (hSE : S ≤ E) (hse : s ≤ e) :
    clipStatus S E (clipStart S E s e) (clipEnd S E s e) = 0 := by
  have h := clip_facts S E s e hSE hse
  have h2 := clip_facts S E (clipStart S E s e) (clipEnd S E s e) hSE h.1
  exact h2.2.2.2.2.1.mpr ⟨h.2.1, h.2.2.1⟩

/-- What `Fetch` returns: the status of the first clipping in every case, and the
caller's buffers either untouched (a miss with an empty clipped range) or zeroed
outside the clipped range, filled from circular storage inside it and stamped with
the copied byte count. -/
theorem Fetch_eq_some_iff {rb : CARingBuffer} (h : QueueInv rb) (abl : AudioBufferList)
    (m : Nat) (s : Int) (err : Int) (out : AudioBufferList) :
    rb.Fetch abl m s = some (err, out) ↔
      err = clipStatus rb.StartTime rb.EndTime s (s + m) ∧
      ((err ≠ 0 ∧ clipEnd rb.StartTime rb.EndTime s (s + m)
          - clipStart rb.StartTime rb.EndTime s (s + m) ≤ 0 ∧ out = abl) ∨
       (¬ (err ≠ 0 ∧ clipEnd rb.StartTime rb.EndTime s (s + m)
          - clipStart rb.StartTime rb.EndTime s (s + m) ≤ 0) ∧
        ∃ zeroed nbytes copied,
          zeroOutside abl rb.mBytesPerFrame
            (toSInt32 (clipStart rb.StartTime rb.EndTime s (s + m) - s))
            (clipEnd rb.StartTime rb.EndTime s (s + m)
              - clipStart rb.StartTime rb.EndTime s (s + m))
            (toSInt32 (s + m - clipEnd rb.StartTime rb.EndTime s (s + m))) = some zeroed ∧
          fetchFrames zeroed
            (toSInt32 (toSInt32 (clipStart rb.StartTime rb.EndTime s (s + m) - s)
              * rb.mBytesPerFrame))
            rb.mBuffers rb.mCapacityBytes
            (toSInt32 (rb.FrameOffset (clipStart rb.StartTime rb.EndTime s (s + m))))
            (toSInt32 (rb.FrameOffset (clipEnd rb.StartTime rb.EndTime s (s + m))))
            = some (nbytes, copied) ∧
          out = setDataByteSize copied nbytes)) := by
  have hSE := h.start_le_end
  have hcc := clipStatus_clip rb.StartTime rb.EndTime s (s + m) hSE (by omega)
  unfold Fetch
  simp only [h.clipTimeBounds, hcc, worse_zero, ite_self]
  split_ifs with hc
  · simp only [Option.some.injEq, Prod.mk.injEq]
    constructor
    · rintro ⟨rfl, rfl⟩
      exact ⟨rfl, Or.inl ⟨hc.1, hc.2, rfl⟩⟩
    · rintro ⟨rfl, ⟨-, -, rfl⟩ | ⟨h1, -⟩⟩
      · exact ⟨rfl, rfl⟩
      · exact absurd hc h1
  · constructor
    · intro hf
      obtain ⟨zeroed, hz, hf⟩ := Option.bind_eq_some.mp hf
      obtain ⟨⟨nbytes, copied⟩, hcp, hf⟩ := Option.bind_eq_some.mp hf
      simp only [Option.some.injEq, Prod.mk.injEq] at hf
      obtain ⟨rfl, rfl⟩ := hf
      exact ⟨rfl, Or.inr ⟨hc, zeroed, nbytes, copied, hz, hcp, rfl⟩⟩
    · rintro ⟨rfl, ⟨h1, h2, -⟩ | ⟨-, zeroed, nbytes, copied, hz, hcp, rfl⟩⟩
      · exact absurd ⟨h1, h2⟩ hc
      · apply Option.bind_eq_some.mpr
        refine ⟨zeroed, hz, ?_⟩
        apply Option.bind_eq_some.mpr
        exact ⟨(nbytes, copied), hcp, rfl⟩

theorem AblPass_some (abl r : AudioBufferList) : AblPass some abl r ↔ r = abl := by
  unfold AblPass
  constructor
  · rintro ⟨-, h2⟩
    apply List.ext_getElem?
    intro c
    rw [h2 c]
    cases abl[c]? <;> simp [zeroAblChan]
  · rintro rfl
    refine ⟨rfl, fun c => ?_⟩
    cases r[c]? <;> simp [zeroAblChan]

theorem AblPass_comp (f g : List Byte → Option (List Byte)) (abl r : AudioBufferList) :
    (∃ r1, AblPass f abl r1 ∧ AblPass g r1 r) ↔ AblPass (fun a => (f a).bind g) abl r := by
  unfold AblPass
  constructor
  · rintro ⟨r1, ⟨a1, a2⟩, b1, b2⟩
    refine ⟨by omega, fun c => ?_⟩
    rw [b2 c, a2 c]
    cases abl[c]? <;> simp [zeroAblChan]
    rename_i a
    cases f a.mData <;> simp
  · rintro ⟨a1, a2⟩
    obtain ⟨r1, hr1, hr2⟩ := exists_list_getElem? abl.length
      (fun c => zeroAblChan f abl[c]?)
      (fun c hc => by
        have ha : abl[c]? = some abl[c] := List.getElem?_eq_getElem hc
        obtain ⟨x, hrc⟩ : ∃ x, r[c]? = some x := ⟨_, List.getElem?_eq_getElem (by omega)⟩
        have h3 := a2 c
        rw [ha, hrc] at h3
        simp only [ha, zeroAblChan] at h3 ⊢
        obtain ⟨x, hx, -⟩ := Option.map_eq_some'.mp h3.symm
        obtain ⟨y, hy, -⟩ := Option.bind_eq_some.mp hx
        exact ⟨_, by rw [hy]; rfl⟩)
      (fun c hc => by simp [List.getElem?_eq_none hc, zeroAblChan])
    refine ⟨r1, ⟨hr1, hr2⟩, by omega, fun c => ?_⟩
    rw [a2 c, hr2 c]
    cases abl[c]? <;> simp [zeroAblChan]
    rename_i a
    cases f a.mData <;> simp

theorem ZeroABL_pass (abl : AudioBufferList) (d n : Int) (r : AudioBufferList) :
    ZeroABL abl d n = some r ↔ AblPass (fun a => memsetZero a d n) abl r :=
  ZeroABL_iff abl d n r

theorem zeroOutside_iff (abl : AudioBufferList) (bpf : Nat) (dsfo rsf des : Int)
    (r : AudioBufferList) :
    zeroOutside abl bpf dsfo rsf des = some r ↔
      AblPass (fun a => zeroLeadTrail a bpf dsfo rsf des) abl r := by
  unfold zeroOutside zeroLeadTrail
  rw [← AblPass_comp]
  constructor
  · intro h
    obtain ⟨r1, h1, h2⟩ := Option.bind_eq_some.mp h
    refine ⟨r1, ?_, ?_⟩
    · split_ifs at h1 ⊢
      · exact (ZeroABL_pass _ _ _ _).mp h1
      · exact (AblPass_some _ _).mpr (Option.some.inj h1).symm
    · split_ifs at h2 ⊢
      · exact (ZeroABL_pass _ _ _ _).mp h2
      · exact (AblPass_some _ _).mpr (Option.some.inj h2).symm
  · rintro ⟨r1, h1, h2⟩
    apply Option.bind_eq_some.mpr
    refine ⟨r1, ?_, ?_⟩
    · split_ifs at h1 ⊢
      · exact (ZeroABL_pass _ _ _ _).mpr h1
      · rw [(AblPass_some _ _).mp h1]
    · split_ifs at h2 ⊢
      · exact (ZeroABL_pass _ _ _ _).mpr h2
      · rw [(AblPass_some _ _).mp h2]

theorem memsetZero_spec (dst : List Byte) (d n : Nat) (r : List Byte) :
    memsetZero dst d n = some r ↔
      d + n ≤ dst.length ∧ r.length = dst.length ∧
      ∀ q : Nat, r[q]? = if d ≤ q ∧ q < d + n then some 0 else dst[q]? := by
  rw [memsetZero_eq_some_iff]
  simp only [Int.toNat_ofNat]
  have key : d + n ≤ dst.length → ∀ q : Nat, (splice dst d (List.replicate n 0))[q]? =
      if d ≤ q ∧ q < d + n then some 0 else dst[q]? := by
    intro hd q
    rw [getElem?_splice _ _ _ _ (by simpa using hd), List.length_replicate]
    by_cases h1 : q < d
    · rw [if_pos h1, if_neg (by omega)]
    · rw [if_neg h1]
      by_cases h2 : q < d + n
      · rw [if_pos h2, if_pos ⟨by omega, h2⟩, List.getElem?_replicate, if_pos (by omega)]
      · rw [if_neg h2, if_neg (by omega)]
  constructor
  · rintro ⟨-, -, h3, rfl⟩
    have hd : d + n ≤ dst.length := by omega
    exact ⟨hd, length_splice _ _ _ (by simpa using hd), key hd⟩
  · rintro ⟨h1, h2, h3⟩
    refine ⟨by omega, by omega, by omega, ?_⟩
    apply List.ext_getElem?
    intro q
    rw [h3 q, key h1 q]

theorem toSInt32_natCast_mul (x bpf : Nat) (h : x * bpf < 2147483648) :
    toSInt32 ((x : Int) * (bpf : Int)) = ((x * bpf : Nat) : Int) := by
  rw [← Nat.cast_mul, toSInt32_of_lt] <;> omega

/-- The zeroing of `lead` leading and `trail` trailing frames around `len` frames on
one caller buffer. -/
theorem zeroLeadTrail_spec (a : List Byte) (bpf lead len trail : Nat)
    (hfit : (lead + len + trail) * bpf < 2147483648) (r : List Byte) :
    zeroLeadTrail a bpf lead len trail = some r ↔
      lead * bpf ≤ a.length ∧ (0 < trail → (lead + len + trail) * bpf ≤ a.length) ∧
      r.length = a.length ∧
      ∀ q : Nat, r[q]? =
        if q < lead * bpf ∨ ((lead + len) * bpf ≤ q ∧ q < (lead + len + trail) * bpf)
        then some 0 else a[q]? := by
  have e1 : (lead + len + trail) * bpf = lead * bpf + len * bpf + trail * bpf := by ring
  have e2 : (lead + len) * bpf = lead * bpf + len * bpf := by ring
  unfold zeroLeadTrail
  have c1 : toSInt32 ((lead : Int) * (bpf : Int)) = ((lead * bpf : Nat) : Int) :=
    toSInt32_natCast_mul _ _ (by omega)
  have c2 : toSInt32 (((lead : Int) + (len : Int)) * (bpf : Int))
      = (((lead + len) * bpf : Nat) : Int) := by
    rw [← Nat.cast_add]; exact toSInt32_natCast_mul _ _ (by omega)
  have c3 : toSInt32 ((trail : Int) * (bpf : Int)) = ((trail * bpf : Nat) : Int) :=
    toSInt32_natCast_mul _ _ (by omega)
  rw [c1, c2, c3]
  have hz : (0 : Int) = ((0 : Nat) : Int) := rfl
  by_cases hl : 0 < lead
  · have hl' : (lead : Int) > 0 := by omega
    rw [if_pos hl']
    by_cases ht : 0 < trail
    · have ht' : (trail : Int) > 0 := by omega
      simp only [ht', if_true]
      constructor
      · intro h
        obtain ⟨z, hz1, hz2⟩ := Option.bind_eq_some.mp h
        rw [hz, memsetZero_spec] at hz1
        rw [memsetZero_spec] at hz2
        obtain ⟨a1, a2, a3⟩ := hz1
        obtain ⟨b1, b2, b3⟩ := hz2
        refine ⟨by omega, fun _ => by omega, by omega, fun q => ?_⟩
        rw [b3 q, a3 q]
        split_ifs <;> first | rfl | omega
      · rintro ⟨a1, a2, a3, a4⟩
        apply Option.bind_eq_some.mpr
        obtain ⟨z, hz1, hz2⟩ := exists_list_getElem? a.length
          (fun q => if 0 ≤ q ∧ q < 0 + lead * bpf then some (0 : Byte) else a[q]?)
          (fun q hq => by
            simp only
            split_ifs
            · exact ⟨_, rfl⟩
            · exact ⟨_, List.getElem?_eq_getElem hq⟩)
          (fun q hq => by
            simp only
            rw [if_neg (by omega)]
            exact List.getElem?_eq_none hq)
        refine ⟨z, ?_, ?_⟩
        · rw [hz, memsetZero_spec]
          exact ⟨by omega, hz1, hz2⟩
        · rw [memsetZero_spec]
          have := a2 ht
          refine ⟨by omega, by omega, fun q => ?_⟩
          rw [a4 q, hz2 q]
          split_ifs <;> first | rfl | omega
    · have ht' : ¬ (trail : Int) > 0 := by omega
      have ht0 : trail = 0 := by omega
      simp only [ht', if_false, Option.bind_eq_some, Option.some.injEq, exists_eq_right]
      rw [hz, memsetZero_spec]
      subst ht0
      simp only [Nat.zero_add, Nat.add_zero, Nat.zero_le, true_and, lt_irrefl, false_imp_iff]
      refine and_congr Iff.rfl (and_congr Iff.rfl (forall_congr' fun q => ?_))
      have : ¬ ((lead + len) * bpf ≤ q ∧ q < (lead + len) * bpf) := by omega
      simp only [this, or_false]
  · have hl' : ¬ (lead : Int) > 0 := by omega
    have hl0 : lead = 0 := by omega
    subst hl0
    simp only [hl', if_false, Option.some_bind, Nat.zero_mul, Nat.zero_le, true_and,
      Nat.not_lt_zero, false_or, Nat.zero_add]
    by_cases ht : 0 < trail
    · have ht' : (trail : Int) > 0 := by omega
      simp only [ht', if_true, ht, true_imp_iff]
      rw [memsetZero_spec]
      simp only [Nat.zero_add] at e1
      have e3 : len * bpf + trail * bpf = (len + trail) * bpf := by ring
      rw [e3]
    · have ht' : ¬ (trail : Int) > 0 := by omega
      have ht0 : trail = 0 := by omega
      subst ht0
      simp only [ht', if_false, Option.some.injEq, lt_irrefl, false_imp_iff, Nat.add_zero,
        true_and]
      constructor
      · rintro rfl
        refine ⟨rfl, fun q => ?_⟩
        rw [if_neg (by omega)]
      · rintro ⟨h1, h2⟩
        apply List.ext_getElem?
        intro q
        rw [h2 q, if_neg (by omega)]

/-- The frame counts of a request that is not a miss with an empty clipped range: the
clipped range lies inside the request and inside the published window. -/
theorem fetch_counts {rb : CARingBuffer} (h : QueueInv rb) (m : Nat) (s : Int)
    (hne : ¬ (clipStatus rb.StartTime rb.EndTime s (s + m) ≠ 0 ∧
      clipEnd rb.StartTime rb.EndTime s (s + m)
        - clipStart rb.StartTime rb.EndTime s (s + m) ≤ 0)) :
    rb.fetchLead m s + rb.fetchLen m s + rb.fetchTrail m s = m ∧
    clipStart rb.StartTime rb.EndTime s (s + m) = s + rb.fetchLead m s ∧
    clipEnd rb.StartTime rb.EndTime s (s + m)
      = clipStart rb.StartTime rb.EndTime s (s + m) + rb.fetchLen m s ∧
    s + m - clipEnd rb.StartTime rb.EndTime s (s + m) = rb.fetchTrail m s ∧
    rb.fetchLen m s ≤ rb.mCapacityFrames ∧
    (rb.fetchLen m s = 0 → m = 0) ∧
    rb.StartTime ≤ clipStart rb.StartTime rb.EndTime s (s + m) ∧
    clipEnd rb.StartTime rb.EndTime s (s + m) ≤ rb.EndTime ∧
    (m < 2147483648 ∨ clipStatus rb.StartTime rb.EndTime s (s + m) = 0 →
      rb.fetchLead m s < 2147483648 ∧ rb.fetchTrail m s < 2147483648) := by
  have hSE := h.start_le_end
  have hw := h.window_le
  obtain ⟨f1, f2, f3, f4, f5, f6⟩ := clip_facts rb.StartTime rb.EndTime s (s + m) hSE (by omega)
  unfold fetchLead fetchLen fetchTrail
  by_cases h0 : clipStatus rb.StartTime rb.EndTime s (s + m) = 0
  · obtain ⟨e1, e2⟩ := f6 h0
    have := f5.mp h0
    rw [e1, e2]
    refine ⟨by omega, by omega, by omega, by omega, by omega, by omega, by omega, by omega,
      fun _ => by omega⟩
  · have hpos : clipStart rb.StartTime rb.EndTime s (s + m)
        < clipEnd rb.StartTime rb.EndTime s (s + m) := by
      by_contra hcon
      exact hne ⟨h0, by omega⟩
    obtain ⟨g1, g2, -, -⟩ := f4 hpos
    refine ⟨by omega, by omega, by omega, by omega, by omega, by omega, by omega, by omega,
      fun hm => ?_⟩
    rcases hm with hm | hm
    · omega
    · exact absurd hm h0

theorem getElem?_setDataByteSize (abl : AudioBufferList) (nb : Int) (c : Nat) :
    (setDataByteSize abl nb)[c]? =
      abl[c]?.map fun dest => { dest with mDataByteSize := toUInt32 nb } := by
  simp [setDataByteSize, List.getElem?_map]

/-- The caller's buffers after a `Fetch` that is not a miss with an empty clipped
range: it returns only when there is at most one buffer per channel, each holding the
requested bytes, and then every buffer is zero outside the clipped range and holds
the bytes of circular storage inside it. -/
theorem Fetch_spec {rb : CARingBuffer} (wf : WellFormed rb) {abl out : AudioBufferList}
    {m : Nat} {s : Int} {err : Int}
    (hm : m < 2147483648 ∨ clipStatus rb.StartTime rb.EndTime s (s + m) = 0)
    (hmb : m * rb.mBytesPerFrame < 2147483648)
    (hne : ¬ (clipStatus rb.StartTime rb.EndTime s (s + m) ≠ 0 ∧
      clipEnd rb.StartTime rb.EndTime s (s + m)
        - clipStart rb.StartTime rb.EndTime s (s + m) ≤ 0))
    (hf : rb.Fetch abl m s = some (err, out)) :
    abl.length ≤ rb.mNumberChannels ∧ (∀ a ∈ abl, rb.spanBytes m ≤ a.mData.length) ∧
    out.length = abl.length ∧
    ∀ (c : Nat) (a : AudioBuffer) (b : List Byte), abl[c]? = some a → rb.mBuffers[c]? = some b →
      ∃ d, out[c]? = some ⟨rb.spanBytes (rb.fetchLen m s), d⟩ ∧
        d.length = a.mData.length ∧
        ∀ q : Nat, d[q]? = fetchedByte b rb.mCapacityBytes
          (rb.byteOffset (clipStart rb.StartTime rb.EndTime s (s + m)))
          (rb.fetchLead m s * rb.mBytesPerFrame) (rb.spanBytes (rb.fetchLen m s))
          ((rb.fetchLead m s + rb.fetchLen m s) * rb.mBytesPerFrame)
          (m * rb.mBytesPerFrame) a.mData q := by
  obtain ⟨rfl, hcase⟩ := (Fetch_eq_some_iff wf.wfQueue abl m s err out).mp hf
  rcases hcase with ⟨h1, h2, -⟩ | ⟨-, zeroed, nbytes, copied, hz, hcp, rfl⟩
  · exact absurd ⟨h1, h2⟩ hne
  obtain ⟨k1, k2, k3, k4, k5, k6, -, -, k9⟩ := fetch_counts wf.wfQueue m s hne
  have hm' := k9 hm
  have hCB := wf.capacityBytes_eq_prod
  have hlt := wf.capacityBytes_lt
  generalize rb.fetchLead m s = lead at k1 k2 hm' ⊢
  generalize rb.fetchLen m s = len at k1 k3 k5 k6 ⊢
  generalize rb.fetchTrail m s = trail at k1 k4 hm'
  generalize clipEnd rb.StartTime rb.EndTime s (s + m) = ce at hz hcp k3 k4
  generalize clipStart rb.StartTime rb.EndTime s (s + m) = cs at hz hcp k2 k3 ⊢
  have t1 : toSInt32 (cs - s) = (lead : Int) := by rw [toSInt32_of_lt] <;> omega
  have t2 : toSInt32 (s + m - ce) = (trail : Int) := by rw [toSInt32_of_lt] <;> omega
  have t3 : ce - cs = (len : Int) := by omega
  have hle1 : lead * rb.mBytesPerFrame ≤ m * rb.mBytesPerFrame :=
    Nat.mul_le_mul_right _ (by omega)
  have t4 : toSInt32 ((lead : Int) * (rb.mBytesPerFrame : Int))
      = ((lead * rb.mBytesPerFrame : Nat) : Int) := toSInt32_natCast_mul _ _ (by omega)
  rw [t1, t2, t3] at hz
  rw [t1, t4, wf.wfSized.toSInt32_FrameOffset, wf.wfSized.toSInt32_FrameOffset] at hcp
  have hz' := (zeroOutside_iff _ _ _ _ _ _).mp hz
  obtain ⟨c0, c1, c2, c3⟩ := (fetchFrames_iff _ _ _ _ _ _ _ _).mp hcp
  have hwl := wf.wfSized.wrapLen_byteOffset cs len k5 hCB
  rw [← k3, ← hCB] at hwl
  have hnb : nbytes = ((rb.spanBytes len : Nat) : Int) := by
    rw [c0, ← hwl]
    have o0 := wf.byteOffset_le_capacityBytes cs
    have o1 := wf.byteOffset_le_capacityBytes ce
    unfold wrapLen
    split_ifs with x1 x2 x2
    · omega
    · omega
    · omega
    · rw [toSInt32_of_lt] <;> omega
  have hfit : (lead + len + trail) * rb.mBytesPerFrame < 2147483648 := by rw [k1]; exact hmb
  -- per channel
  have hchan : ∀ (c : Nat) (a : AudioBuffer) (b : List Byte), abl[c]? = some a →
      rb.mBuffers[c]? = some b →
      ∃ z d, zeroLeadTrail a.mData rb.mBytesPerFrame lead len trail = some z ∧
        wrapRead z (lead * rb.mBytesPerFrame : Nat) b rb.mCapacityBytes (rb.byteOffset cs)
          (rb.byteOffset ce) = some d ∧
        copied[c]? = some { a with mData := d } := by
    intro c a b ha hb
    have hca : c < abl.length := by
      by_contra hcon
      rw [List.getElem?_eq_none (by omega)] at ha
      exact absurd ha (by simp)
    have hzl : zeroed.length = abl.length := hz'.1
    have hzc := hz'.2 c
    rw [ha] at hzc
    simp only [zeroAblChan] at hzc
    cases hzz : zeroLeadTrail a.mData rb.mBytesPerFrame lead len trail with
    | none =>
      rw [hzz] at hzc
      have := List.getElem?_eq_none_iff.mp hzc
      omega
    | some z =>
      rw [hzz] at hzc
      have hcc := c3 c
      rw [hzc, hb] at hcc
      simp only [fetchChan, Option.map_some'] at hcc
      cases hdd : wrapRead z (lead * rb.mBytesPerFrame : Nat) b rb.mCapacityBytes
          (rb.byteOffset cs) (rb.byteOffset ce) with
      | none =>
        rw [hdd] at hcc
        have := List.getElem?_eq_none_iff.mp hcc
        omega
      | some d =>
        rw [hdd] at hcc
        exact ⟨z, d, rfl, hdd, hcc⟩
  have hbL : ∀ (c : Nat) (b : List Byte), rb.mBuffers[c]? = some b →
      b.length = rb.mCapacityBytes := fun c b hb => wf.wfStorage.storage b (List.getElem?_mem hb)
  refine ⟨?_, ?_, ?_, ?_⟩
  · rw [← wf.wfStorage.channels, ← hz'.1]; exact c1
  · intro a ha
    obtain ⟨c, hc, rfl⟩ := List.getElem_of_mem ha
    have hcb : c < rb.mBuffers.length := by rw [← hz'.1] at hc; omega
    obtain ⟨z, d, hz1, hd1, -⟩ := hchan c _ _ (List.getElem?_eq_getElem hc)
      (List.getElem?_eq_getElem hcb)
    obtain ⟨z1, z2, z3, -⟩ := (zeroLeadTrail_spec _ _ _ _ _ hfit z).mp hz1
    obtain ⟨d1, -, -⟩ := (wrapRead_eq_some_iff z _ _ _ _ _ (hbL c _ (List.getElem?_eq_getElem hcb))
      (wf.byteOffset_le_capacityBytes _) (wf.byteOffset_le_capacityBytes _) hlt d).mp hd1
    rw [hwl, z3] at d1
    unfold spanBytes at d1 ⊢
    by_cases hm0 : m = 0
    · have : len = 0 := by omega
      rw [if_pos hm0]
      rw [if_pos this] at d1
      exact le_trans (Nat.le_add_left _ _) d1
    · have hl0 : len ≠ 0 := fun h0 => hm0 (k6 h0)
      rw [if_neg hm0]
      rw [if_neg hl0] at d1
      by_cases ht : 0 < trail
      · have := z2 ht
        rw [k1] at this
        exact this
      · have e : m = lead + len := by omega
        rw [e, Nat.add_mul]
        exact d1
  · simp only [setDataByteSize, List.length_map]
    rw [c2, hz'.1]
  · intro c a b ha hb
    obtain ⟨z, d, hz1, hd1, hcop⟩ := hchan c a b ha hb
    obtain ⟨z1, z2, z3, z4⟩ := (zeroLeadTrail_spec _ _ _ _ _ hfit z).mp hz1
    obtain ⟨d1, d2, d3⟩ := (wrapRead_eq_some_iff z _ _ _ _ _ (hbL c b hb)
      (wf.byteOffset_le_capacityBytes _) (wf.byteOffset_le_capacityBytes _) hlt d).mp hd1
    refine ⟨d, ?_, by omega, fun q => ?_⟩
    · have hs : rb.spanBytes len < 4294967296 := by
        unfold spanBytes
        split_ifs
        · omega
        · have : len * rb.mBytesPerFrame ≤ m * rb.mBytesPerFrame :=
            Nat.mul_le_mul_right _ (by omega)
          omega
      have hu : toUInt32 ((rb.spanBytes len : Nat) : Int) = rb.spanBytes len := by
        unfold toUInt32; omega
      rw [getElem?_setDataByteSize, hcop, hnb, hu]
      rfl
    · rw [d3 q, z4 q, hwl, k1]
      unfold fetchedByte
      rfl

theorem AblPass_exists (f : List Byte → Option (List Byte)) (abl : AudioBufferList)
    (h : ∀ a ∈ abl, ∃ z, f a.mData = some z) : ∃ r, AblPass f abl r := by
  obtain ⟨r, hr1, hr2⟩ := exists_list_getElem? abl.length
    (fun c => zeroAblChan f abl[c]?)
    (fun c hc => by
      simp only [List.getElem?_eq_getElem hc, zeroAblChan]
      obtain ⟨z, hz⟩ := h _ (List.getElem_mem hc)
      exact ⟨_, by rw [hz]; rfl⟩)
    (fun c hc => by simp [List.getElem?_eq_none hc, zeroAblChan])
  exact ⟨r, hr1, hr2⟩

theorem AblPass_lengths {f : List Byte → Option (List Byte)} {abl r : AudioBufferList}
    (h : AblPass f abl r) (hf : ∀ a z, f a = some z → z.length = a.length) (L : Nat)
    (hL : ∀ a ∈ abl, L ≤ a.mData.length) : ∀ a ∈ r, L ≤ a.mData.length := by
  intro a ha
  obtain ⟨c, hc, rfl⟩ := List.getElem_of_mem ha
  have hca : c < abl.length := by rw [← h.1]; exact hc
  have h2 := h.2 c
  rw [List.getElem?_eq_getElem hc, List.getElem?_eq_getElem hca] at h2
  simp only [zeroAblChan] at h2
  obtain ⟨z, hz1, hz2⟩ := Option.map_eq_some'.mp h2.symm
  rw [← hz2]
  simp only
  rw [hf _ _ hz1]
  exact hL _ (List.getElem_mem hca)

theorem zeroLeadTrail_exists (a : List Byte) (bpf lead len trail : Nat)
    (hfit : (lead + len + trail) * bpf < 2147483648) (h1 : lead * bpf ≤ a.length)
    (h2 : 0 < trail → (lead + len + trail) * bpf ≤ a.length) :
    ∃ z, zeroLeadTrail a bpf lead len trail = some z := by
  obtain ⟨z, hz1, hz2⟩ := exists_list_getElem? a.length
    (fun q => if q < lead * bpf ∨ ((lead + len) * bpf ≤ q ∧ q < (lead + len + trail) * bpf)
      then some (0 : Byte) else a[q]?)
    (fun q hq => by
      simp only
      split_ifs
      · exact ⟨_, rfl⟩
      · exact ⟨_, List.getElem?_eq_getElem hq⟩)
    (fun q hq => by
      simp only
      have e1 : (lead + len + trail) * bpf = (lead + len) * bpf + trail * bpf := by ring
      have : ¬ (q < lead * bpf ∨ ((lead + len) * bpf ≤ q ∧ q < (lead + len + trail) * bpf)) := by
        rintro (h | ⟨h3, h4⟩)
        · omega
        · have : 0 < trail := by
            by_contra hcon
            have ht0 : trail = 0 := by omega
            have e0 : (lead + len + trail) * bpf = (lead + len) * bpf := by
              rw [ht0, Nat.add_zero]
            omega
          have := h2 this
          omega
      rw [if_neg this]
      exact List.getElem?_eq_none hq)
  exact ⟨z, (zeroLeadTrail_spec a bpf lead len trail hfit z).mpr ⟨h1, h2, hz1, hz2⟩⟩

theorem zeroLeadTrail_length {a z : List Byte} {bpf lead len trail : Nat}
    (hfit : (lead + len + trail) * bpf < 2147483648)
    (h : zeroLeadTrail a bpf lead len trail = some z) : z.length = a.length :=
  ((zeroLeadTrail_spec a bpf lead len trail hfit z).mp h).2.2.1

theorem fetchFrames_exists (abl : AudioBufferList) (dsb : Nat) (buffers : List (List Byte))
    (CB o0 o1 : Nat) (hlen : abl.length ≤ buffers.length)
    (hL : ∀ b ∈ buffers, b.length = CB) (h0 : o0 ≤ CB) (h1 : o1 ≤ CB) (hCB : CB < 2147483648)
    (habl : ∀ a ∈ abl, dsb + wrapLen CB o0 o1 ≤ a.mData.length) :
    ∃ nb r, fetchFrames abl dsb buffers CB o0 o1 = some (nb, r) := by
  obtain ⟨r, hr1, hr2⟩ := exists_list_getElem? abl.length
    (fun c => fetchChan (fun a b => wrapRead a dsb b CB o0 o1) abl[c]? buffers[c]?)
    (fun c hc => by
      have hcb : c < buffers.length := by omega
      simp only [List.getElem?_eq_getElem hc, List.getElem?_eq_getElem hcb, fetchChan]
      obtain ⟨d, hd⟩ := wrapRead_exists abl[c].mData buffers[c] dsb CB o0 o1
        (hL _ (List.getElem_mem hcb)) h0 h1 hCB (habl _ (List.getElem_mem hc))
      exact ⟨_, by rw [hd]; rfl⟩)
    (fun c hc => by simp [List.getElem?_eq_none hc, fetchChan])
  exact ⟨_, r, (fetchFrames_iff _ _ _ _ _ _ _ _).mpr ⟨rfl, hlen, hr1, hr2⟩⟩

/-- `Fetch` returns, with the status of the clipping, whenever the caller supplies at
most one buffer per channel, each holding the requested bytes. -/
theorem Fetch_exists {rb : CARingBuffer} (wf : WellFormed rb) (abl : AudioBufferList)
    (m : Nat) (s : Int)
    (hm : m < 2147483648 ∨ clipStatus rb.StartTime rb.EndTime s (s + m) = 0)
    (hmb : m * rb.mBytesPerFrame < 2147483648)
    (hlen : abl.length ≤ rb.mNumberChannels)
    (habl : ∀ a ∈ abl, rb.spanBytes m ≤ a.mData.length) :
    ∃ out, rb.Fetch abl m s = some (clipStatus rb.StartTime rb.EndTime s (s + m), out) := by
  by_cases hne : clipStatus rb.StartTime rb.EndTime s (s + m) ≠ 0 ∧
      clipEnd rb.StartTime rb.EndTime s (s + m)
        - clipStart rb.StartTime rb.EndTime s (s + m) ≤ 0
  · exact ⟨abl, (Fetch_eq_some_iff wf.wfQueue abl m s _ abl).mpr
      ⟨rfl, Or.inl ⟨hne.1, hne.2, rfl⟩⟩⟩
  obtain ⟨k1, k2, k3, k4, k5, k6, -, -, k9⟩ := fetch_counts wf.wfQueue m s hne
  have hm' := k9 hm
  have hCB := wf.capacityBytes_eq_prod
  have hlt := wf.capacityBytes_lt
  have hfit : (rb.fetchLead m s + rb.fetchLen m s + rb.fetchTrail m s) * rb.mBytesPerFrame
      < 2147483648 := by rw [k1]; exact hmb
  have hle1 : rb.fetchLead m s * rb.mBytesPerFrame ≤ m * rb.mBytesPerFrame :=
    Nat.mul_le_mul_right _ (by omega)
  have hspan : m ≠ 0 → rb.spanBytes m = m * rb.mBytesPerFrame := by
    intro h; unfold spanBytes; rw [if_neg h]
  have hwl := wf.wfSized.wrapLen_byteOffset (clipStart rb.StartTime rb.EndTime s (s + m))
    (rb.fetchLen m s) k5 hCB
  rw [← k3, ← hCB] at hwl
  -- the zeroing block
  obtain ⟨zeroed, hz⟩ := AblPass_exists
    (fun a => zeroLeadTrail a rb.mBytesPerFrame (rb.fetchLead m s) (rb.fetchLen m s)
      (rb.fetchTrail m s)) abl
    (fun a ha => by
      have ha' := habl a ha
      apply zeroLeadTrail_exists _ _ _ _ _ hfit
      · by_cases hm0 : m = 0
        · have : rb.fetchLead m s = 0 := by omega
          rw [this]; simp
        · rw [hspan hm0] at ha'; omega
      · intro ht
        rw [k1, ← hspan (by omega)]
        exact ha')
  have hzlen : ∀ a ∈ zeroed, rb.spanBytes m ≤ a.mData.length :=
    AblPass_lengths hz (fun a z h => zeroLeadTrail_length hfit h) _ habl
  -- the copy block
  obtain ⟨nb, copied, hcp⟩ := fetchFrames_exists zeroed
    (rb.fetchLead m s * rb.mBytesPerFrame) rb.mBuffers rb.mCapacityBytes
    (rb.byteOffset (clipStart rb.StartTime rb.EndTime s (s + m)))
    (rb.byteOffset (clipEnd rb.StartTime rb.EndTime s (s + m)))
    (by rw [hz.1, wf.wfStorage.channels]; exact hlen) wf.wfStorage.storage
    (wf.byteOffset_le_capacityBytes _) (wf.byteOffset_le_capacityBytes _) hlt
    (fun a ha => by
      have ha' := hzlen a ha
      rw [hwl]
      by_cases hm0 : m = 0
      · have e1 : rb.fetchLead m s = 0 := by omega
        have e2 : rb.fetchLen m s = 0 := by omega
        rw [e1, e2]
        rw [hm0] at ha'
        simpa using ha'
      · have hl0 : rb.fetchLen m s ≠ 0 := fun h0 => hm0 (k6 h0)
        rw [hspan hm0] at ha'
        unfold spanBytes
        rw [if_neg hl0]
        have : (rb.fetchLead m s + rb.fetchLen m s) * rb.mBytesPerFrame
            ≤ m * rb.mBytesPerFrame := Nat.mul_le_mul_right _ (by omega)
        rw [Nat.add_mul] at this
        omega)
  refine ⟨setDataByteSize copied nb, (Fetch_eq_some_iff wf.wfQueue abl m s _ _).mpr
    ⟨rfl, Or.inr ⟨hne, zeroed, nb, copied, ?_, ?_, rfl⟩⟩⟩
  · have t1 : toSInt32 (clipStart rb.StartTime rb.EndTime s (s + m) - s)
        = (rb.fetchLead m s : Int) := by rw [toSInt32_of_lt] <;> omega
    have t2 : toSInt32 (s + m - clipEnd rb.StartTime rb.EndTime s (s + m))
        = (rb.fetchTrail m s : Int) := by rw [toSInt32_of_lt] <;> omega
    have t3 : clipEnd rb.StartTime rb.EndTime s (s + m)
        - clipStart rb.StartTime rb.EndTime s (s + m) = (rb.fetchLen m s : Int) := by omega
    rw [t1, t2, t3]
    exact (zeroOutside_iff _ _ _ _ _ _).mpr hz
  · have t1 : toSInt32 (clipStart rb.StartTime rb.EndTime s (s + m) - s)
        = (rb.fetchLead m s : Int) := by rw [toSInt32_of_lt] <;> omega
    have t4 : toSInt32 ((rb.fetchLead m s : Int) * (rb.mBytesPerFrame : Int))
        = ((rb.fetchLead m s * rb.mBytesPerFrame : Nat) : Int) :=
      toSInt32_natCast_mul _ _ (by omega)
    rw [t1, t4, wf.wfSized.toSInt32_FrameOffset, wf.wfSized.toSInt32_FrameOffset]
    exact hcp

theorem frame_byte_lt (i n j bpf : Nat) (hi : i < n) (hj : j < bpf) :
    i * bpf + j < n * bpf := by
  have h1 : (i + 1) * bpf ≤ n * bpf := Nat.mul_le_mul_right _ hi
  have h2 : (i + 1) * bpf = i * bpf + bpf := by ring
  omega

theorem frame_byte_ge (i n j bpf : Nat) (hi : n ≤ i) : n * bpf ≤ i * bpf + j := by
  have h1 : n * bpf ≤ i * bpf := Nat.mul_le_mul_right _ hi
  omega

theorem byteOffset_add_cap (rb : CARingBuffer) (τ : Int) :
    rb.byteOffset (τ + rb.mCapacityFrames) = rb.byteOffset τ := by
  unfold byteOffset; rw [emod_add_cap]

theorem WellFormed.byte_lt {rb : CARingBuffer} (wf : WellFormed rb) (τ : Int) (j : Nat)
    (hj : j < rb.mBytesPerFrame) : rb.byteOffset τ + j < rb.mCapacityBytes := by
  have := wf.wfSized.byteOffset_add_le τ
  rw [wf.capacityBytes_eq_prod]
  omega

/-- After a returning `Store` of `n` frames at `t`, the frame of time `t + i` of every
channel for which the caller supplied a buffer holds the source frame `i`. -/
theorem Store_frame_written {rb rb' : CARingBuffer} (wf : WellFormed rb)
    {abl : AudioBufferList} {n : Nat} {t : Int} {err : Int} (hn : n ≤ rb.mCapacityFrames)
    (hs : rb.Store abl n t = some (err, rb')) (c : Nat) (a : AudioBuffer)
    (ha : abl[c]? = some a) (i j : Nat) (hi : i < n) (hj : j < rb.mBytesPerFrame) :
    ∃ s, rb'.mBuffers[c]? = some s ∧
      s[rb.byteOffset (t + i) + j]? = a.mData[i * rb.mBytesPerFrame + j]? ∧
      i * rb.mBytesPerFrame + j < a.mData.length := by
  obtain ⟨-, h2, h3, -, -, -, h7⟩ := Store_spec wf hn hs
  have hca : c < abl.length := by
    by_contra hcon
    rw [List.getElem?_eq_none (by omega)] at ha
    exact absurd ha (by simp)
  have hcb : c < rb.mBuffers.length := by rw [wf.wfStorage.channels]; omega
  obtain ⟨s, hs1, hs2, hs3⟩ := h7 c _ (List.getElem?_eq_getElem hcb)
  have hp := wf.byte_lt (t + i) j hj
  have hrel := wf.wfSized.wrapRel_byteOffset t i j (by omega) hj
  rw [← wf.capacityBytes_eq_prod] at hrel
  have hspan : rb.spanBytes n = n * rb.mBytesPerFrame := by
    unfold spanBytes; rw [if_neg (by omega)]
  have hlt := frame_byte_lt i n j rb.mBytesPerFrame hi hj
  refine ⟨s, hs1, ?_, ?_⟩
  · rw [hs3 _ hp, ha, hrel, hspan]
    simp only [storedByte, hlt, if_true]
  · have := h3 a (List.getElem?_mem ha)
    rw [hspan] at this
    omega

/-- After a returning `Store` of `n ≥ 1` frames at `t`, every frame of the skipped
range between the end of the adjusted window and `t` is zero in every channel. -/
theorem Store_frame_zeroed {rb rb' : CARingBuffer} (wf : WellFormed rb)
    {abl : AudioBufferList} {n : Nat} {t : Int} {err : Int} (hn : n ≤ rb.mCapacityFrames)
    (hn1 : 1 ≤ n) (hs : rb.Store abl n t = some (err, rb')) (c : Nat) (s : List Byte)
    (hc : rb'.mBuffers[c]? = some s) (τ : Int) (j : Nat)
    (hτ0 : (rb.adjustBounds n t).EndTime ≤ τ) (hτ1 : τ < t) (hj : j < rb.mBytesPerFrame) :
    s[rb.byteOffset τ + j]? = some 0 := by
  obtain ⟨-, -, -, -, -, h6, h7⟩ := Store_spec wf hn hs
  have hw := adjustBounds_window wf.wfQueue n t hn
  have hcb : c < rb.mBuffers.length := by
    by_contra hcon
    rw [List.getElem?_eq_none (by omega)] at hc
    exact absurd hc (by simp)
  obtain ⟨s', hs1, hs2, hs3⟩ := h7 c _ (List.getElem?_eq_getElem hcb)
  rw [hc] at hs1
  obtain rfl := Option.some.inj hs1
  have hp := wf.byte_lt τ j hj
  generalize (rb.adjustBounds n t).EndTime = E1 at hτ0 hw hs3
  -- the position relative to the write start
  have hi : (τ - t + rb.mCapacityFrames).toNat < rb.mCapacityFrames := by omega
  have e1 : t + ((τ - t + rb.mCapacityFrames).toNat : Int) = τ + rb.mCapacityFrames := by omega
  have hrel := wf.wfSized.wrapRel_byteOffset t (τ - t + rb.mCapacityFrames).toNat j hi hj
  rw [e1, byteOffset_add_cap, ← wf.capacityBytes_eq_prod] at hrel
  have hspan : rb.spanBytes n = n * rb.mBytesPerFrame := by
    unfold spanBytes; rw [if_neg (by omega)]
  have hge := frame_byte_ge (τ - t + rb.mCapacityFrames).toNat n j rb.mBytesPerFrame (by omega)
  -- the position relative to the start of the skipped range
  have hi2 : (τ - E1).toNat < rb.mCapacityFrames := by omega
  have e2 : E1 + ((τ - E1).toNat : Int) = τ := by omega
  have hrel2 := wf.wfSized.wrapRel_byteOffset E1 (τ - E1).toNat j hi2 hj
  rw [e2, ← wf.capacityBytes_eq_prod] at hrel2
  have hlt2 := frame_byte_lt (τ - E1).toNat (t - E1).toNat j rb.mBytesPerFrame (by omega) hj
  rw [hs3 _ hp, hrel, hspan, hrel2]
  have hz : (if E1 < t ∧ (τ - E1).toNat * rb.mBytesPerFrame + j
      < (t - E1).toNat * rb.mBytesPerFrame then some (0 : Byte)
      else rb.mBuffers[c][rb.byteOffset τ + j]?) = some 0 := by
    rw [if_pos ⟨by omega, hlt2⟩]
  rw [hz]
  unfold storedByte
  split
  · rw [if_neg (by omega)]
  · rfl

/-- Inside a request that is not a miss with an empty clipped range, the frames of the
clipped range are the frames of the request that lie in the published window. -/
theorem fetch_inside_iff {rb : CARingBuffer} (h : QueueInv rb) (m : Nat) (s : Int)
    (hne : ¬ (clipStatus rb.StartTime rb.EndTime s (s + m) ≠ 0 ∧
      clipEnd rb.StartTime rb.EndTime s (s + m)
        - clipStart rb.StartTime rb.EndTime s (s + m) ≤ 0)) (i : Nat) (hi : i < m) :
    (rb.StartTime ≤ s + i ∧ s + i < rb.EndTime) ↔
      (rb.fetchLead m s ≤ i ∧ i < rb.fetchLead m s + rb.fetchLen m s) := by
  have hSE := h.start_le_end
  obtain ⟨f1, f2, f3, f4, f5, f6⟩ := clip_facts rb.StartTime rb.EndTime s (s + m) hSE (by omega)
  unfold fetchLead fetchLen
  by_cases h0 : clipStatus rb.StartTime rb.EndTime s (s + m) = 0
  · obtain ⟨e1, e2⟩ := f6 h0
    have := f5.mp h0
    rw [e1, e2]
    omega
  · have hpos : clipStart rb.StartTime rb.EndTime s (s + m)
        < clipEnd rb.StartTime rb.EndTime s (s + m) := by
      by_contra hcon
      exact hne ⟨h0, by omega⟩
    obtain ⟨g1, g2, g3, g4⟩ := f4 hpos
    rw [g3, g4] at hpos ⊢
    rcases max_cases s rb.StartTime with ⟨x1, x2⟩ | ⟨x1, x2⟩ <;>
      rcases min_cases (s + ↑m) rb.EndTime with ⟨y1, y2⟩ | ⟨y1, y2⟩ <;>
      rw [x1, y1] at hpos ⊢ <;> omega

/-- The layout of the caller's buffers after a `Fetch` that is not a miss with an empty
clipped range: frame `i` of every channel holds the stored frame of time `s + i` when
that time lies in the published window, and is zero otherwise. -/
theorem Fetch_frame {rb : CARingBuffer} (wf : WellFormed rb) {abl out : AudioBufferList}
    {m : Nat} {s : Int} {err : Int}
    (hm : m < 2147483648 ∨ clipStatus rb.StartTime rb.EndTime s (s + m) = 0)
    (hmb : m * rb.mBytesPerFrame < 2147483648)
    (hne : ¬ (clipStatus rb.StartTime rb.EndTime s (s + m) ≠ 0 ∧
      clipEnd rb.StartTime rb.EndTime s (s + m)
        - clipStart rb.StartTime rb.EndTime s (s + m) ≤ 0))
    (hf : rb.Fetch abl m s = some (err, out)) (c : Nat) (a : AudioBuffer)
    (ha : abl[c]? = some a) (i j : Nat) (hi : i < m) (hj : j < rb.mBytesPerFrame) :
    ∃ b o, rb.mBuffers[c]? = some b ∧ out[c]? = some o ∧
      o.mData.length = a.mData.length ∧
      i * rb.mBytesPerFrame + j < o.mData.length ∧
      o.mData[i * rb.mBytesPerFrame + j]? =
        if rb.StartTime ≤ s + i ∧ s + i < rb.EndTime then b[rb.byteOffset (s + i) + j]?
        else some 0 := by
  obtain ⟨h1, h2, h3, h4⟩ := Fetch_spec wf hm hmb hne hf
  obtain ⟨k1, k2, k3, k4, k5, k6, -, -, -⟩ := fetch_counts wf.wfQueue m s hne
  have hin := fetch_inside_iff wf.wfQueue m s hne i hi
  have hca : c < abl.length := by
    by_contra hcon
    rw [List.getElem?_eq_none (by omega)] at ha
    exact absurd ha (by simp)
  have hcb : c < rb.mBuffers.length := by rw [wf.wfStorage.channels]; omega
  obtain ⟨d, hd1, hd2, hd3⟩ := h4 c a _ ha (List.getElem?_eq_getElem hcb)
  have hspanm : rb.spanBytes m = m * rb.mBytesPerFrame := by
    unfold spanBytes; rw [if_neg (by omega)]
  have hlen0 : rb.fetchLen m s ≠ 0 := fun h0 => by have := k6 h0; omega
  have hspan : rb.spanBytes (rb.fetchLen m s) = rb.fetchLen m s * rb.mBytesPerFrame := by
    unfold spanBytes; rw [if_neg hlen0]
  have hq := frame_byte_lt i m j rb.mBytesPerFrame hi hj
  have ham := h2 a (List.getElem?_mem ha)
  rw [hspanm] at ham
  refine ⟨_, _, List.getElem?_eq_getElem hcb, hd1, hd2, by simp only; omega, ?_⟩
  simp only
  rw [hd3, hspan]
  unfold fetchedByte
  generalize rb.fetchLead m s = lead at k1 k2 hin ⊢
  generalize rb.fetchLen m s = len at k1 k3 k5 hin ⊢
  have e3 : (lead + len) * rb.mBytesPerFrame
      = lead * rb.mBytesPerFrame + len * rb.mBytesPerFrame := by ring
  by_cases hcase : rb.StartTime ≤ s + i ∧ s + i < rb.EndTime
  · obtain ⟨g1, g2⟩ := hin.mp hcase
    have q1 := frame_byte_ge i lead j rb.mBytesPerFrame g1
    have q2 := frame_byte_lt i (lead + len) j rb.mBytesPerFrame g2 hj
    rw [if_pos hcase, if_pos ⟨q1, by omega⟩]
    have e4 : i * rb.mBytesPerFrame + j - lead * rb.mBytesPerFrame
        = (i - lead) * rb.mBytesPerFrame + j := by
      rw [Nat.sub_mul]
      have := Nat.mul_le_mul_right rb.mBytesPerFrame g1
      omega
    have hpos := wf.wfSized.byteOffset_add (clipStart rb.StartTime rb.EndTime s (s + m))
      (i - lead) j (by omega) hj
    rw [← wf.capacityBytes_eq_prod] at hpos
    have e5 : clipStart rb.StartTime rb.EndTime s (s + m) + ((i - lead : Nat) : Int) = s + i := by
      omega
    rw [e5] at hpos
    rw [e4, ← hpos]
  · rw [if_neg hcase]
    have hout : ¬ (lead ≤ i ∧ i < lead + len) := fun h => hcase (hin.mpr h)
    by_cases g1 : i < lead
    · have q1 := frame_byte_lt i lead j rb.mBytesPerFrame g1 hj
      rw [if_neg (by omega), if_pos (Or.inl q1)]
    · have g2 : lead + len ≤ i := by omega
      have q2 := frame_byte_ge i (lead + len) j rb.mBytesPerFrame g2
      rw [if_neg (by omega), if_pos (Or.inr ⟨q2, hq⟩)]

/-- The doubling loop of `nextPowerOfTwo` returns the least power of two that is at
least `c`, when it starts from a power of two that no smaller candidate undercuts and
has enough iterations left. -/
theorem nextPowerOfTwoAux_spec (fuel p c : Nat) (hp : ∃ k, p = 2 ^ k) (hfuel : c ≤ p + fuel)
    (hmin : ∀ j, c ≤ 2 ^ j → p ≤ 2 ^ j) :
    c ≤ nextPowerOfTwoAux fuel p c ∧ (∃ k, nextPowerOfTwoAux fuel p c = 2 ^ k) ∧
      ∀ j, c ≤ 2 ^ j → nextPowerOfTwoAux fuel p c ≤ 2 ^ j := by
  induction fuel generalizing p with
  | zero => exact ⟨by simpa [nextPowerOfTwoAux] using hfuel, hp, hmin⟩
  | succ fuel ih =>
    unfold nextPowerOfTwoAux
    split_ifs with hc
    · exact ⟨hc, hp, hmin⟩
    · obtain ⟨k, rfl⟩ := hp
      have hpos : 0 < 2 ^ k := Nat.two_pow_pos _
      apply ih
      · exact ⟨k + 1, by rw [pow_succ]; ring⟩
      · omega
      · intro j hj
        have hlt : 2 ^ k < 2 ^ j := by omega
        have hkj : k < j := (Nat.pow_lt_pow_iff_right (by decide)).mp hlt
        calc 2 * 2 ^ k = 2 ^ (k + 1) := by rw [pow_succ]; ring
          _ ≤ 2 ^ j := Nat.pow_le_pow_right (by decide) hkj

theorem nextPowerOfTwo_spec (c : Nat) :
    c ≤ nextPowerOfTwo c ∧ (∃ k, nextPowerOfTwo c = 2 ^ k) ∧
      ∀ j, c ≤ 2 ^ j → nextPowerOfTwo c ≤ 2 ^ j :=
  nextPowerOfTwoAux_spec c 1 c ⟨0, rfl⟩ (by omega)
    (fun j _ => Nat.one_le_two_pow)

theorem Allocate_mCapacityFrames (rb : CARingBuffer) (nChannels bytesPerFrame c : Nat) :
    (rb.Allocate nChannels bytesPerFrame c).mCapacityFrames = NextPowerOfTwo c := rfl

/-- C10 fails above `2 ^ 31`: for the requested capacity `2 ^ 31 + 1` the capacity that
`Allocate` stores is `0`, the next power of two `2 ^ 32` reduced to 32 bits, which is
neither a power of two nor at least the request. -/
theorem Allocate_capacity_counterexample :
    (CARingBuffer.new.Allocate 2 4 2147483649).mCapacityFrames = 0 ∧
    ¬ (2147483649 ≤ (CARingBuffer.new.Allocate 2 4 2147483649).mCapacityFrames) ∧
    ¬ (∃ k, (CARingBuffer.new.Allocate 2 4 2147483649).mCapacityFrames = 2 ^ k) := by
  have h : (CARingBuffer.new.Allocate 2 4 2147483649).mCapacityFrames = 0 := by decide
  refine ⟨h, by rw [h]; decide, ?_⟩
  rw [h]
  rintro ⟨k, hk⟩
  exact absurd hk.symm (Nat.pos_iff_ne_zero.mp (Nat.two_pow_pos _))

/-- C10, amended: for every requested capacity `c ≤ 2 ^ 31` (0 and 1 included) `Allocate`
yields `capacityFrames = nextPowerOfTwo c`, which is a power of two, at least `c`, and
the least such power. -/
theorem Allocate_capacity (rb : CARingBuffer) (nChannels bytesPerFrame c : Nat)
    (hc : c ≤ 2147483648) :
    (rb.Allocate nChannels bytesPerFrame c).mCapacityFrames = nextPowerOfTwo c ∧
    (∃ k, (rb.Allocate nChannels bytesPerFrame c).mCapacityFrames = 2 ^ k) ∧
    c ≤ (rb.Allocate nChannels bytesPerFrame c).mCapacityFrames ∧
    ∀ j, c ≤ 2 ^ j → (rb.Allocate nChannels bytesPerFrame c).mCapacityFrames ≤ 2 ^ j := by
  obtain ⟨h1, h2, h3⟩ := nextPowerOfTwo_spec c
  have hle : nextPowerOfTwo c ≤ 2 ^ 31 := h3 31 (by norm_num; exact hc)
  have e : (rb.Allocate nChannels bytesPerFrame c).mCapacityFrames = nextPowerOfTwo c := by
    rw [Allocate_mCapacityFrames]
    unfold NextPowerOfTwo
    exact Nat.mod_eq_of_lt (by norm_num at hle; omega)
  rw [e]
  exact ⟨rfl, h2, h1, h3⟩

theorem Allocate_capacity_witness :
    (1000 : Nat) ≤ 2147483648 ∧
    (CARingBuffer.new.Allocate 2 4 1000).mCapacityFrames = nextPowerOfTwo 1000 ∧
    (CARingBuffer.new.Allocate 2 4 1000).mCapacityFrames = 1024 :=
  ⟨by decide, (Allocate_capacity CARingBuffer.new 2 4 1000 (by decide)).1, by decide⟩

/-- The window that a returning `Store` of `n ≤ capacity` frames at `t` publishes. -/
theorem Store_bounds {rb rb' : CARingBuffer} (h : QueueInv rb) {abl : AudioBufferList}
    {n : Nat} {t : Int} {err : Int} (hn : n ≤ rb.mCapacityFrames)
    (hs : rb.Store abl n t = some (err, rb')) :
    rb'.EndTime = t + n ∧
    rb'.StartTime =
      if t < rb.EndTime then t
      else if t + n - rb.StartTime ≤ rb.mCapacityFrames then rb.StartTime
      else t + n - rb.mCapacityFrames := by
  rcases (Store_eq_some_iff _ _ _ _ _ _).mp hs with
    ⟨h1, -, -⟩ | ⟨-, -, zeroed, stored, -, -, rfl⟩
  · omega
  · have hq := (h.adjustBounds n t).withBuffers stored
    have hb := adjustBounds_bounds h n t
    rw [StartTime_SetTimeBounds _ _ _ hq.queue_length, EndTime_SetTimeBounds _ _ _ hq.queue_length]
    refine ⟨rfl, ?_⟩
    split_ifs at hb ⊢ <;> simp only [Prod.mk.injEq] at hb <;> exact hb.1

theorem Store_err {rb rb' : CARingBuffer} {abl : AudioBufferList} {n : Nat} {t : Int}
    {err : Int} (hs : rb.Store abl n t = some (err, rb')) :
    (err = kCARingBufferError_TooMuch ∧ rb.mCapacityFrames < n ∧ rb' = rb) ∨
    (err = kCARingBufferError_OK ∧ n ≤ rb.mCapacityFrames) := by
  rcases (Store_eq_some_iff _ _ _ _ _ _).mp hs with ⟨h1, h2, h3⟩ | ⟨h1, h2, -⟩
  · exact Or.inl ⟨h2, h1, h3⟩
  · exact Or.inr ⟨h2, h1⟩

theorem Store_stateAfter {rb rb' : CARingBuffer} {abl : AudioBufferList} {n : Nat} {t : Int}
    {err : Int} (hs : rb.Store abl n t = some (err, rb')) :
    rb.Store abl n t = some (err, stateAfter (rb.Store abl n t)) := by
  rw [hs]; rfl

theorem example1024_reachable : Reachable example1024 := Reachable.allocate _ _ _ _

theorem example1024_fields : example1024.mCapacityFrames = 1024 ∧
    example1024.mBytesPerFrame = 1 ∧ example1024.mNumberChannels = 1 ∧
    example1024.mCapacityBytes = 1024 ∧ example1024.StartTime = 0 ∧ example1024.EndTime = 0 := by
  decide

theorem example1024_sized : Sized example1024 :=
  ⟨by rw [example1024_fields.1]; decide,
   by rw [example1024_fields.1, example1024_fields.2.1]; decide⟩

theorem frames512_fits (rb : CARingBuffer) (h1 : rb.mNumberChannels = 1)
    (h2 : rb.mBytesPerFrame = 1) :
    frames512.length ≤ rb.mNumberChannels ∧
      ∀ a ∈ frames512, rb.spanBytes 512 ≤ a.mData.length := by
  refine ⟨by rw [h1]; decide, fun a ha => ?_⟩
  simp only [frames512, List.mem_singleton] at ha
  subst ha
  show rb.spanBytes 512 ≤ (List.replicate 512 7).length
  rw [List.length_replicate]
  unfold spanBytes
  rw [if_neg (by decide), h2]

/-- A returning `Store` on a well-formed state with the example frames. -/
theorem example_store {rb : CARingBuffer} (wf : WellFormed rb) (h0 : rb.mCapacityFrames = 1024)
    (h1 : rb.mNumberChannels = 1) (h2 : rb.mBytesPerFrame = 1) (t : Int) :
    rb.Store frames512 512 t
      = some (kCARingBufferError_OK, stateAfter (rb.Store frames512 512 t)) := by
  obtain ⟨rb', hs⟩ := Store_exists wf frames512 512 t (by rw [h0]; decide)
    (frames512_fits rb h1 h2).1 (frames512_fits rb h1 h2).2
  exact Store_stateAfter hs

theorem example1024a_store :
    example1024.Store frames512 512 0 = some (kCARingBufferError_OK, example1024a) :=
  example_store (example1024_reachable.wellFormed example1024_sized) example1024_fields.1
    example1024_fields.2.2.1 example1024_fields.2.1 0

theorem example1024a_reachable : Reachable example1024a :=
  Reachable.store _ _ _ example1024_reachable example1024a_store

theorem example1024a_fields : example1024a.mCapacityFrames = 1024 ∧
    example1024a.mBytesPerFrame = 1 ∧ example1024a.mNumberChannels = 1 ∧
    example1024a.StartTime = 0 ∧ example1024a.EndTime = 512 := by
  obtain ⟨f1, f2, f3, -⟩ := Store_fields example1024a_store
  obtain ⟨g1, g2, g3, g4, g5, g6⟩ := example1024_fields
  obtain ⟨b1, b2⟩ := Store_bounds example1024_reachable.queueInv (by rw [g1]; decide)
    example1024a_store
  rw [g5, g6, g1] at b2
  exact ⟨by rw [f3, g1], by rw [f2, g2], by rw [f1, g3], by rw [b2]; decide, by rw [b1]; decide⟩

theorem example1024a_sized : Sized example1024a :=
  example1024_sized.store_sized example1024a_store

theorem example1024b_store :
    example1024a.Store frames512 512 512 = some (kCARingBufferError_OK, example1024b) :=
  example_store (example1024a_reachable.wellFormed example1024a_sized) example1024a_fields.1
    example1024a_fields.2.2.1 example1024a_fields.2.1 512

theorem example1024b_reachable : Reachable example1024b :=
  Reachable.store _ _ _ example1024a_reachable example1024b_store

theorem example1024b_fields : example1024b.mCapacityFrames = 1024 ∧
    example1024b.mBytesPerFrame = 1 ∧ example1024b.mNumberChannels = 1 ∧
    example1024b.StartTime = 0 ∧ example1024b.EndTime = 1024 := by
  obtain ⟨f1, f2, f3, -⟩ := Store_fields example1024b_store
  obtain ⟨g1, g2, g3, g5, g6⟩ := example1024a_fields
  obtain ⟨b1, b2⟩ := Store_bounds example1024a_reachable.queueInv (by rw [g1]; decide)
    example1024b_store
  rw [g5, g6, g1] at b2
  exact ⟨by rw [f3, g1], by rw [f2, g2], by rw [f1, g3], by rw [b2]; decide, by rw [b1]; decide⟩

theorem example1024b_sized : Sized example1024b :=
  example1024a_sized.store_sized example1024b_store

theorem example1024c_store :
    example1024b.Store frames512 512 1024 = some (kCARingBufferError_OK, example1024c) :=
  example_store (example1024b_reachable.wellFormed example1024b_sized) example1024b_fields.1
    example1024b_fields.2.2.1 example1024b_fields.2.1 1024

theorem example1024c_reachable : Reachable example1024c :=
  Reachable.store _ _ _ example1024b_reachable example1024c_store

theorem example1024c_fields : example1024c.mCapacityFrames = 1024 ∧
    example1024c.mBytesPerFrame = 1 ∧ example1024c.mNumberChannels = 1 ∧
    example1024c.StartTime = 512 ∧ example1024c.EndTime = 1536 := by
  obtain ⟨f1, f2, f3, -⟩ := Store_fields example1024c_store
  obtain ⟨g1, g2, g3, g5, g6⟩ := example1024b_fields
  obtain ⟨b1, b2⟩ := Store_bounds example1024b_reachable.queueInv (by rw [g1]; decide)
    example1024c_store
  rw [g5, g6, g1] at b2
  exact ⟨by rw [f3, g1], by rw [f2, g2], by rw [f1, g3], by rw [b2]; decide, by rw [b1]; decide⟩

/-- C2: `Store` returns `TooMuch` exactly when `framesToWrite > capacityFrames`, and every
other return is `OK`; a `TooMuch` return leaves the whole object unchanged, in particular
the channel storage, every slot of the bounds history and the version counter. On an
allocated buffer `Store` does return `OK` for every `framesToWrite ≤ capacityFrames`
when the source buffers hold the bytes that the copy reads. -/
theorem Store_TooMuch_iff (rb : CARingBuffer) (abl : AudioBufferList) (n : Nat) (t : Int) :
    (rb.mCapacityFrames < n → rb.Store abl n t = some (kCARingBufferError_TooMuch, rb)) ∧
    (∀ err rb', rb.Store abl n t = some (err, rb') →
      (err = kCARingBufferError_TooMuch ↔ rb.mCapacityFrames < n) ∧
      (err = kCARingBufferError_OK ↔ n ≤ rb.mCapacityFrames) ∧
      (err = kCARingBufferError_TooMuch →
        rb'.mBuffers = rb.mBuffers ∧ rb'.mTimeBoundsQueue = rb.mTimeBoundsQueue ∧
        rb'.mTimeBoundsQueuePtr = rb.mTimeBoundsQueuePtr ∧ rb' = rb)) ∧
    (Reachable rb → Sized rb → n ≤ rb.mCapacityFrames → abl.length ≤ rb.mNumberChannels →
      (∀ a ∈ abl, rb.spanBytes n ≤ a.mData.length) →
      ∃ rb', rb.Store abl n t = some (kCARingBufferError_OK, rb')) := by
  refine ⟨fun h => ?_, fun err rb' hs => ?_, fun hr hz hn hlen habl => ?_⟩
  · exact (Store_eq_some_iff _ _ _ _ _ _).mpr (Or.inl ⟨h, rfl, rfl⟩)
  · rcases Store_err hs with ⟨h1, h2, h3⟩ | ⟨h1, h2⟩
    · subst h1 h3
      refine ⟨⟨fun _ => h2, fun _ => rfl⟩, ⟨fun h => ?_, fun h => ?_⟩, fun _ => ⟨rfl, rfl, rfl, rfl⟩⟩
      · exact absurd h (by decide)
      · omega
    · subst h1
      refine ⟨⟨fun h => ?_, fun h => ?_⟩, ⟨fun _ => h2, fun _ => rfl⟩, fun h => ?_⟩
      · exact absurd h (by decide)
      · omega
      · exact absurd h (by decide)
  · exact Store_exists (hr.wellFormed hz) abl n t hn hlen habl

theorem Store_TooMuch_iff_witness :
    example1024.Store frames512 2000 0 = some (kCARingBufferError_TooMuch, example1024) ∧
    ∃ rb', example1024.Store frames512 512 0 = some (kCARingBufferError_OK, rb') :=
  ⟨(Store_TooMuch_iff example1024 frames512 2000 0).1
      (by rw [example1024_fields.1]; decide),
    (Store_TooMuch_iff example1024 frames512 512 0).2.2 example1024_reachable example1024_sized
      (by rw [example1024_fields.1]; decide)
      (frames512_fits _ example1024_fields.2.2.1 example1024_fields.2.1).1
      (frames512_fits _ example1024_fields.2.2.1 example1024_fields.2.1).2⟩

/-- C5: after `Allocate` and any sequence of `Store` calls with arbitrary arguments, every
slot of the bounds history satisfies `startTime ≤ endTime` and
`endTime - startTime ≤ capacityFrames`; so do the entry that a further `Store` publishes
when it adjusts the bounds (reset or eviction) and the entry it publishes last, both of
which are slots of the history when it returns. -/
theorem bounds_invariant (rb : CARingBuffer) (hr : Reachable rb) :
    (∀ b ∈ rb.mTimeBoundsQueue,
      b.mStartTime ≤ b.mEndTime ∧ b.mEndTime - b.mStartTime ≤ rb.mCapacityFrames) ∧
    ∀ (abl : AudioBufferList) (n : Nat) (t : Int) (rb' : CARingBuffer),
      rb.Store abl n t = some (kCARingBufferError_OK, rb') →
      ((rb.adjustBounds n t).currentBounds.mStartTime
          ≤ (rb.adjustBounds n t).currentBounds.mEndTime ∧
        (rb.adjustBounds n t).currentBounds.mEndTime
          - (rb.adjustBounds n t).currentBounds.mStartTime ≤ rb.mCapacityFrames) ∧
      (rb'.currentBounds.mStartTime ≤ rb'.currentBounds.mEndTime ∧
        rb'.currentBounds.mEndTime - rb'.currentBounds.mStartTime ≤ rb.mCapacityFrames) ∧
      ∀ b ∈ rb'.mTimeBoundsQueue,
        b.mStartTime ≤ b.mEndTime ∧ b.mEndTime - b.mStartTime ≤ rb.mCapacityFrames := by
  have hq := hr.queueInv
  refine ⟨hq.bounds, fun abl n t rb' hs => ?_⟩
  have hq1 := hq.adjustBounds n t
  have hq' := hq.store_queue hs
  have hcap := (Store_fields hs).2.2.1
  have h1 := hq1.bounds _ (currentBounds_mem _ hq1.queue_length)
  have h2 := hq'.bounds _ (currentBounds_mem _ hq'.queue_length)
  rw [adjustBounds_mCapacityFrames] at h1
  rw [hcap] at h2
  refine ⟨h1, h2, fun b hb => ?_⟩
  have := hq'.bounds b hb
  rw [hcap] at this
  exact this

theorem bounds_invariant_witness :
    example1024c.currentBounds.mStartTime ≤ example1024c.currentBounds.mEndTime ∧
    example1024c.currentBounds.mEndTime - example1024c.currentBounds.mStartTime
      ≤ example1024c.mCapacityFrames :=
  (bounds_invariant example1024c example1024c_reachable).1 example1024c.currentBounds
    (currentBounds_mem _ example1024c_reachable.queueInv.queue_length)

/-- C6: for every reachable buffer state and every `Store(_, n, t)` that returns `OK`, the
published end time after the call is `t + n`, and `GetTimeBounds` reports it. -/
theorem Store_endTime (rb : CARingBuffer) (hr : Reachable rb) (abl : AudioBufferList)
    (n : Nat) (t : Int) (rb' : CARingBuffer)
    (hs : rb.Store abl n t = some (kCARingBufferError_OK, rb')) :
    rb'.EndTime = t + n ∧
    rb'.GetTimeBounds 0 0 = (kCARingBufferError_OK, rb'.StartTime, t + n) := by
  rcases Store_err hs with ⟨h1, -, -⟩ | ⟨-, hn⟩
  · exact absurd h1 (by decide)
  · have hb := (Store_bounds hr.queueInv hn hs).1
    refine ⟨hb, ?_⟩
    rw [(hr.queueInv.store_queue hs).getTimeBounds, hb]

theorem Store_endTime_witness : example1024b.EndTime = 512 + (512 : Nat) :=
  (Store_endTime example1024a example1024a_reachable frames512 512 512 example1024b
    example1024b_store).1

/-- C7: for every reachable buffer state with published end time `e` and every `Store(_, n,
t)` that returns `OK` with `t < e`, the resulting bounds are exactly `[t, t + n)`, the span
written by this call; in particular `Store(_, n1, 100)` followed by `Store(_, n2, 0)` leaves
the bounds `[0, n2)`. -/
theorem Store_backward_reset (rb : CARingBuffer) (hr : Reachable rb) :
    (∀ (abl : AudioBufferList) (n : Nat) (t : Int) (rb' : CARingBuffer), t < rb.EndTime →
      rb.Store abl n t = some (kCARingBufferError_OK, rb') →
      rb'.StartTime = t ∧ rb'.EndTime = t + n ∧
      rb'.GetTimeBounds 0 0 = (kCARingBufferError_OK, t, t + n)) ∧
    ∀ (abl1 abl2 : AudioBufferList) (n1 n2 : Nat) (rb1 rb2 : CARingBuffer),
      rb.Store abl1 n1 100 = some (kCARingBufferError_OK, rb1) →
      rb1.Store abl2 n2 0 = some (kCARingBufferError_OK, rb2) →
      rb2.StartTime = 0 ∧ rb2.EndTime = n2 := by
  have key : ∀ (rb : CARingBuffer), Reachable rb →
      ∀ (abl : AudioBufferList) (n : Nat) (t : Int) (rb' : CARingBuffer), t < rb.EndTime →
      rb.Store abl n t = some (kCARingBufferError_OK, rb') →
      rb'.StartTime = t ∧ rb'.EndTime = t + n := by
    intro rb hr abl n t rb' ht hs
    rcases Store_err hs with ⟨h1, -, -⟩ | ⟨-, hn⟩
    · exact absurd h1 (by decide)
    · obtain ⟨b1, b2⟩ := Store_bounds hr.queueInv hn hs
      rw [if_pos ht] at b2
      exact ⟨b2, b1⟩
  refine ⟨fun abl n t rb' ht hs => ?_, fun abl1 abl2 n1 n2 rb1 rb2 hs1 hs2 => ?_⟩
  · obtain ⟨b1, b2⟩ := key rb hr abl n t rb' ht hs
    refine ⟨b1, b2, ?_⟩
    rw [(hr.queueInv.store_queue hs).getTimeBounds, b1, b2]
  · rcases Store_err hs1 with ⟨h1, -, -⟩ | ⟨-, hn⟩
    · exact absurd h1 (by decide)
    · have e1 := (Store_bounds hr.queueInv hn hs1).1
      obtain ⟨c1, c2⟩ := key rb1 (Reachable.store _ _ _ hr hs1) abl2 n2 0 rb2
        (by rw [e1]; omega) hs2
      exact ⟨c1, by rw [c2]; omega⟩

theorem Store_backward_reset_witness :
    (0 : Int) < example1024a.EndTime ∧
    (stateAfter (example1024a.Store frames512 512 0)).StartTime = 0 ∧
    (stateAfter (example1024a.Store frames512 512 0)).EndTime = 0 + (512 : Nat) :=
  ⟨by rw [example1024a_fields.2.2.2.2]; decide,
    ((Store_backward_reset example1024a example1024a_reachable).1 frames512 512 0 _
      (by rw [example1024a_fields.2.2.2.2]; decide)
      (example_store (example1024a_reachable.wellFormed example1024a_sized)
        example1024a_fields.1 example1024a_fields.2.2.1 example1024a_fields.2.1 0)).1,
    ((Store_backward_reset example1024a example1024a_reachable).1 frames512 512 0 _
      (by rw [example1024a_fields.2.2.2.2]; decide)
      (example_store (example1024a_reachable.wellFormed example1024a_sized)
        example1024a_fields.1 example1024a_fields.2.2.1 example1024a_fields.2.1 0)).2.1⟩

/-- C8: for every reachable buffer state and every `Store(_, n, t)` that returns `OK` with
`t` at or after the current end time, the window start is unchanged when
`t + n - currentStart ≤ capacityFrames`, and otherwise becomes
`max(existing end, t + n) - capacityFrames = t + n - capacityFrames`; with capacity 1024,
`Store(_, 512, 0)`, `Store(_, 512, 512)`, `Store(_, 512, 1024)` after `Allocate` yield the
bounds `(512, 1536)`. -/
theorem Store_eviction :
    (∀ (rb : CARingBuffer), Reachable rb →
      ∀ (abl : AudioBufferList) (n : Nat) (t : Int) (rb' : CARingBuffer), rb.EndTime ≤ t →
      rb.Store abl n t = some (kCARingBufferError_OK, rb') →
      (t + n - rb.StartTime ≤ rb.mCapacityFrames → rb'.StartTime = rb.StartTime) ∧
      (¬ (t + n - rb.StartTime ≤ rb.mCapacityFrames) →
        rb'.StartTime = max rb.EndTime (t + n) - rb.mCapacityFrames ∧
        rb'.StartTime = t + n - rb.mCapacityFrames)) ∧
    ∀ (rb0 : CARingBuffer) (nChannels bytesPerFrame : Nat) (abl1 abl2 abl3 : AudioBufferList)
      (rb1 rb2 rb3 : CARingBuffer),
      (rb0.Allocate nChannels bytesPerFrame 1024).Store abl1 512 0
        = some (kCARingBufferError_OK, rb1) →
      rb1.Store abl2 512 512 = some (kCARingBufferError_OK, rb2) →
      rb2.Store abl3 512 1024 = some (kCARingBufferError_OK, rb3) →
      (rb3.StartTime, rb3.EndTime) = (512, 1536) := by
  refine ⟨fun rb hr abl n t rb' ht hs => ?_, ?_⟩
  · rcases Store_err hs with ⟨h1, -, -⟩ | ⟨-, hn⟩
    · exact absurd h1 (by decide)
    obtain ⟨b1, b2⟩ := Store_bounds hr.queueInv hn hs
    rw [if_neg (by omega)] at b2
    refine ⟨fun h => by rw [b2, if_pos h], fun h => ?_⟩
    rw [b2, if_neg h, max_eq_right (by omega)]
    exact ⟨rfl, rfl⟩
  · intro rb0 nChannels bytesPerFrame abl1 abl2 abl3 rb1 rb2 rb3 hs1 hs2 hs3
    have ha : Reachable (rb0.Allocate nChannels bytesPerFrame 1024) := Reachable.allocate _ _ _ _
    have hcap0 : (rb0.Allocate nChannels bytesPerFrame 1024).mCapacityFrames = 1024 := by
      rw [Allocate_mCapacityFrames]; decide
    have hS0 : (rb0.Allocate nChannels bytesPerFrame 1024).StartTime = 0 := by
      simp [Allocate, StartTime, currentBounds, kGeneralRingTimeBoundsQueueSize,
        land_queueMask, List.getD_eq_getElem?_getD]
    have hE0 : (rb0.Allocate nChannels bytesPerFrame 1024).EndTime = 0 := by
      simp [Allocate, EndTime, currentBounds, kGeneralRingTimeBoundsQueueSize,
        land_queueMask, List.getD_eq_getElem?_getD]
    obtain ⟨c1, c2⟩ := Store_bounds ha.queueInv (by rw [hcap0]; decide) hs1
    have hcap1 := (Store_fields hs1).2.2.1
    rw [hE0, hS0, hcap0] at c2
    have c1' : rb1.EndTime = 512 := by rw [c1]; norm_num
    have c2' : rb1.StartTime = 0 := by rw [c2]; norm_num
    have hr1 : Reachable rb1 := Reachable.store _ _ _ ha hs1
    obtain ⟨d1, d2⟩ := Store_bounds hr1.queueInv (by rw [hcap1, hcap0]; decide) hs2
    have hcap2 := (Store_fields hs2).2.2.1
    rw [c1', c2', hcap1, hcap0] at d2
    have d1' : rb2.EndTime = 1024 := by rw [d1]; norm_num
    have d2' : rb2.StartTime = 0 := by rw [d2]; norm_num
    have hr2 : Reachable rb2 := Reachable.store _ _ _ hr1 hs2
    obtain ⟨b1, b2⟩ := Store_bounds hr2.queueInv (by rw [hcap2, hcap1, hcap0]; decide) hs3
    rw [d1', d2', hcap2, hcap1, hcap0] at b2
    rw [b1, b2]
    norm_num

theorem Store_eviction_witness :
    example1024b.EndTime ≤ 1024 ∧
    ¬ ((1024 : Int) + (512 : Nat) - example1024b.StartTime ≤ example1024b.mCapacityFrames) ∧
    example1024c.StartTime = 1024 + (512 : Nat) - example1024b.mCapacityFrames :=
  ⟨by rw [example1024b_fields.2.2.2.2],
    by rw [example1024b_fields.2.2.2.1, example1024b_fields.1]; decide,
    ((Store_eviction.1 example1024b example1024b_reachable frames512 512 1024 example1024c
      (by rw [example1024b_fields.2.2.2.2]) example1024c_store).2
      (by rw [example1024b_fields.2.2.2.1, example1024b_fields.1]; decide)).2⟩

theorem out256_fits (rb : CARingBuffer) (h1 : rb.mNumberChannels = 1)
    (h2 : rb.mBytesPerFrame = 1) :
    out256.length ≤ rb.mNumberChannels ∧
      ∀ a ∈ out256, rb.spanBytes 256 ≤ a.mData.length := by
  refine ⟨by rw [h1]; decide, fun a ha => ?_⟩
  simp only [out256, List.mem_singleton] at ha
  subst ha
  show rb.spanBytes 256 ≤ (List.replicate 256 7).length
  rw [List.length_replicate]
  unfold spanBytes
  rw [if_neg (by decide), h2]

/-- C3: on every buffer state reachable by `Allocate` and `Store` calls, `GetTimeBounds`
reports a valid window `[validStart, validEnd)`, and a `Fetch` returns `OK` if and only if
`validStart ≤ startTime` and `startTime + framesToRead ≤ validEnd`. On an allocated buffer
`Fetch` does return, for every request whose byte size fits an `int`, when the
caller's buffers hold the bytes that the copy writes. -/
theorem Fetch_OK_iff (rb : CARingBuffer) (hr : Reachable rb) (abl : AudioBufferList)
    (m : Nat) (s : Int) :
    (∃ validStart validEnd,
      rb.GetTimeBounds 0 0 = (kCARingBufferError_OK, validStart, validEnd)) ∧
    (∀ (validStart validEnd err : Int) (out : AudioBufferList),
      rb.GetTimeBounds 0 0 = (kCARingBufferError_OK, validStart, validEnd) →
      rb.Fetch abl m s = some (err, out) →
      (err = kCARingBufferError_OK ↔ validStart ≤ s ∧ s + m ≤ validEnd)) ∧
    (Sized rb → m < 2147483648 → m * rb.mBytesPerFrame < 2147483648 →
      abl.length ≤ rb.mNumberChannels → (∀ a ∈ abl, rb.spanBytes m ≤ a.mData.length) →
      ∃ err out, rb.Fetch abl m s = some (err, out)) := by
  have hq := hr.queueInv
  refine ⟨⟨_, _, hq.getTimeBounds 0 0⟩, fun vs ve err out hg hf => ?_,
    fun hz hm hmb hlen habl => ?_⟩
  · rw [hq.getTimeBounds] at hg
    obtain ⟨-, hg2⟩ := Prod.mk.inj hg
    obtain ⟨hg3, hg4⟩ := Prod.mk.inj hg2
    subst hg3 hg4
    obtain ⟨rfl, -⟩ := (Fetch_eq_some_iff hq abl m s err out).mp hf
    exact (clip_facts rb.StartTime rb.EndTime s (s + m) hq.start_le_end (by omega)).2.2.2.2.1
  · obtain ⟨out, hf⟩ := Fetch_exists (hr.wellFormed hz) abl m s (Or.inl hm) hmb hlen habl
    exact ⟨_, out, hf⟩

theorem Fetch_OK_iff_witness :
    ∃ out, example1024c.Fetch out256 256 512 = some (kCARingBufferError_OK, out) := by
  obtain ⟨-, h2, h3⟩ := Fetch_OK_iff example1024c example1024c_reachable out256 256 512
  obtain ⟨f1, f2, f3, f4, f5⟩ := example1024c_fields
  obtain ⟨err, out, hf⟩ := h3 (example1024b_sized.store_sized example1024c_store) (by decide)
    (by rw [f2]; decide) (out256_fits _ f3 f2).1 (out256_fits _ f3 f2).2
  have he := (h2 _ _ err out (example1024c_reachable.queueInv.getTimeBounds 0 0) hf).mpr
    ⟨by rw [f4], by rw [f5]; decide⟩
  rw [he] at hf
  exact ⟨out, hf⟩

/-- A request that shares no frame with the published window is a miss with an empty
clipped range. -/
theorem clip_miss (S E s : Int) (m : Nat) (hSE : S ≤ E) (hm : 1 ≤ m)
    (hmiss : ∀ τ : Int, s ≤ τ → τ < s + m → ¬ (S ≤ τ ∧ τ < E)) :
    clipStatus S E s (s + m) ≠ 0 ∧ clipEnd S E s (s + m) - clipStart S E s (s + m) ≤ 0 := by
  obtain ⟨f1, f2, f3, f4, f5, f6⟩ := clip_facts S E s (s + m) hSE (by omega)
  have h0 : clipStatus S E s (s + m) ≠ 0 := by
    intro h
    have := f5.mp h
    exact hmiss s (le_refl _) (by omega) ⟨this.1, by omega⟩
  refine ⟨h0, ?_⟩
  by_contra hcon
  obtain ⟨g1, g2, -, -⟩ := f4 (by omega)
  exact hmiss (clipStart S E s (s + m)) g1 (by omega) ⟨f2, by omega⟩

/-- C4 fails on the code: with capacity 1024 and bounds `(512, 1536)`, `Fetch(_, 256, 0)`
returns `WayBehind` and leaves the caller's buffer, here 256 bytes of value 7, as it was:
the output is not zeroed. -/
theorem Fetch_miss_counterexample :
    example1024c.mCapacityFrames = 1024 ∧ example1024c.StartTime = 512 ∧
    example1024c.EndTime = 1536 ∧
    example1024c.Fetch out256 256 0 = some (kCARingBufferError_WayBehind, out256) ∧
    out256 = [⟨256, List.replicate 256 7⟩] ∧ (7 : Byte) ∈ List.replicate 256 7 := by
  obtain ⟨f1, f2, f3, f4, f5⟩ := example1024c_fields
  refine ⟨f1, f4, f5, ?_, rfl, List.mem_replicate.mpr ⟨by decide, rfl⟩⟩
  apply (Fetch_eq_some_iff example1024c_reachable.queueInv out256 256 0 _ _).mpr
  rw [f4, f5]
  exact ⟨by decide, Or.inl ⟨by decide, by decide, rfl⟩⟩

/-- C4, amended: for every `Fetch` of at least one frame whose requested window contains no
frame of the valid window, `Fetch` returns a miss status (`WayBehind` when the request ends
before the window, `WayAhead` when it starts after it) and leaves the output
buffer exactly as it was before the call; with capacity 1024 and bounds `(512, 1536)`,
`Fetch(_, 256, 0)` returns `WayBehind` with the output buffer untouched. -/
theorem Fetch_miss_untouched (rb : CARingBuffer) (hr : Reachable rb) (abl : AudioBufferList)
    (m : Nat) (s : Int) (hm : 1 ≤ m)
    (hmiss : ∀ τ : Int, s ≤ τ → τ < s + m → ¬ (rb.StartTime ≤ τ ∧ τ < rb.EndTime)) :
    ∃ err, rb.Fetch abl m s = some (err, abl) ∧ err ≠ kCARingBufferError_OK ∧
      (s + m < rb.StartTime → err = kCARingBufferError_WayBehind) ∧
      (rb.EndTime < s → err = kCARingBufferError_WayAhead) := by
  have hq := hr.queueInv
  have hSE := hq.start_le_end
  obtain ⟨h1, h2⟩ := clip_miss rb.StartTime rb.EndTime s m hSE hm hmiss
  refine ⟨_, (Fetch_eq_some_iff hq abl m s _ abl).mpr ⟨rfl, Or.inl ⟨h1, h2, rfl⟩⟩, h1, ?_, ?_⟩
  · intro h
    unfold clipStatus
    rw [if_pos (by omega), if_neg (by omega), if_pos (by omega)]
  · intro h
    unfold clipStatus
    rw [if_neg (by omega), if_pos (by omega), if_pos (by omega)]

theorem Fetch_miss_untouched_witness :
    example1024c.Fetch out256 256 0 = some (kCARingBufferError_WayBehind, out256) := by
  obtain ⟨f1, f2, f3, f4, f5⟩ := example1024c_fields
  obtain ⟨err, h1, -, h3, -⟩ := Fetch_miss_untouched example1024c example1024c_reachable
    out256 256 0 (by decide) (fun τ h0 h1 => by rw [f4]; omega)
  rw [h3 (by rw [f4]; decide)] at h1
  exact h1

theorem byteOffset_congr {rb rb' : CARingBuffer} (h1 : rb'.mCapacityFrames = rb.mCapacityFrames)
    (h2 : rb'.mBytesPerFrame = rb.mBytesPerFrame) (τ : Int) :
    rb'.byteOffset τ = rb.byteOffset τ := by
  unfold byteOffset; rw [h1, h2]

/-- A request that shares a frame with the published window is not a miss with an empty
clipped range. -/
theorem clip_overlap (S E s : Int) (m : Nat) (τ : Int) (hSE : S ≤ E) (h1 : S ≤ τ) (h2 : τ < E)
    (h3 : s ≤ τ) (h4 : τ < s + m) :
    ¬ (clipStatus S E s (s + m) ≠ 0 ∧ clipEnd S E s (s + m) - clipStart S E s (s + m) ≤ 0) := by
  unfold clipStart clipEnd
  rintro ⟨-, h⟩
  split_ifs at h <;> omega

/-- The end of the window that `adjustBounds` publishes for a forward write, in terms
of the previous end and the start that `Store` publishes. -/
theorem adjustBounds_EndTime_forward {rb rb' : CARingBuffer} (h : QueueInv rb)
    {abl : AudioBufferList} {n : Nat} {t : Int} {err : Int} (hn : n ≤ rb.mCapacityFrames)
    (hgap : rb.EndTime ≤ t) (hs : rb.Store abl n t = some (err, rb')) :
    (rb.adjustBounds n t).EndTime = max rb.EndTime rb'.StartTime := by
  have hb := adjustBounds_bounds h n t
  obtain ⟨-, b2⟩ := Store_bounds h hn hs
  have hSE := h.start_le_end
  rw [if_neg (by omega)] at hb b2
  split_ifs at hb b2 with hc
  · simp only [Prod.mk.injEq] at hb
    rw [hb.2, b2, max_eq_left hSE]
  · simp only [Prod.mk.injEq] at hb
    rw [hb.2, b2, max_comm]

/-- C9: on every allocated buffer (reached from `Allocate`, with a storage size that fits
an `int`), for every `Store(_, n, t)` that returns `OK` with `n ≥ 1` and `t` greater than
the previous end time, every frame time `τ` with
`max(previous endTime, new window start) ≤ τ < t` lies inside the resulting valid window
and reads back as all-zero bytes in every channel on a later `Fetch` that covers it,
whatever the storage held before and however large the gap is. -/
theorem Store_gap_zero (rb : CARingBuffer) (hr : Reachable rb) (hz : Sized rb)
    (abl : AudioBufferList) (n : Nat) (t : Int) (rb' : CARingBuffer) (hn1 : 1 ≤ n)
    (hgap : rb.EndTime < t) (hs : rb.Store abl n t = some (kCARingBufferError_OK, rb'))
    (τ : Int) (hτ0 : max rb.EndTime rb'.StartTime ≤ τ) (hτ1 : τ < t) :
    (rb'.StartTime ≤ τ ∧ τ < rb'.EndTime) ∧
    ∀ (out out' : AudioBufferList) (m : Nat) (s err : Int), m < 2147483648 →
      m * rb.mBytesPerFrame < 2147483648 → s ≤ τ → τ < s + m →
      rb'.Fetch out m s = some (err, out') →
      ∀ (c : Nat) (o : AudioBuffer), out'[c]? = some o →
        ∀ j : Nat, j < rb.mBytesPerFrame →
          o.mData[(τ - s).toNat * rb.mBytesPerFrame + j]? = some 0 := by
  have wf := hr.wellFormed hz
  have wf' := wf.store_wellFormed hs
  rcases Store_err hs with ⟨h1, -, -⟩ | ⟨-, hn⟩
  · exact absurd h1 (by decide)
  obtain ⟨b1, -⟩ := Store_bounds wf.wfQueue hn hs
  have hE1 := adjustBounds_EndTime_forward wf.wfQueue hn (le_of_lt hgap) hs
  obtain ⟨f1, f2, f3, f4⟩ := Store_fields hs
  have hin : rb'.StartTime ≤ τ ∧ τ < rb'.EndTime :=
    ⟨le_trans (le_max_right _ _) hτ0, by rw [b1]; omega⟩
  refine ⟨hin, fun out out' m s err hm hmb hs0 hs1 hf c o ho j hj => ?_⟩
  have hne := clip_overlap rb'.StartTime rb'.EndTime s m τ wf'.wfQueue.start_le_end hin.1 hin.2
    hs0 hs1
  rw [← f2] at hmb hj
  obtain ⟨-, -, hlen, -⟩ := Fetch_spec wf' (Or.inl hm) hmb hne hf
  have hc : c < out.length := by
    rw [← hlen]
    by_contra hcon
    rw [List.getElem?_eq_none (by omega)] at ho
    exact absurd ho (by simp)
  obtain ⟨b, o2, hb, ho2, -, -, hbyte⟩ := Fetch_frame wf' (Or.inl hm) hmb hne hf c _
    (List.getElem?_eq_getElem hc) (τ - s).toNat j (by omega) hj
  rw [ho] at ho2
  obtain rfl := Option.some.inj ho2
  have e : s + ((τ - s).toNat : Int) = τ := by omega
  rw [e, if_pos hin, byteOffset_congr f3 f2] at hbyte
  rw [← f2, hbyte]
  rw [f2] at hj
  exact Store_frame_zeroed wf hn hn1 hs c b hb τ j (by rw [hE1]; exact hτ0) hτ1 hj

theorem small_reachable : Reachable small := Reachable.allocate _ _ _ _

theorem small_sized : Sized small := ⟨by decide, by decide⟩

theorem smallStored_store :
    small.Store smallFrames 3 2 = some (kCARingBufferError_OK, smallStored) := by decide

theorem Store_gap_zero_witness :
    (smallStored.StartTime ≤ 1 ∧ 1 < smallStored.EndTime) ∧
    smallStored.Fetch smallOut 3 1 = some (kCARingBufferError_OK,
      [⟨6, [0, 0, 1, 2, 3, 4]⟩, ⟨6, [0, 0, 11, 12, 13, 14]⟩]) :=
  ⟨(Store_gap_zero small small_reachable small_sized smallFrames 3 2 smallStored (by decide)
      (by decide) smallStored_store 1 (by decide) (by decide)).1, by decide⟩

/-- C1 fails for "any capacity": a buffer allocated with 4 bytes per frame and a capacity
of `2 ^ 30` frames has a storage size of `2 ^ 32` bytes, which the 32-bit
`mCapacityBytes` holds as 0, so the channel region is empty and `Store` of a single frame
at time 0 runs past it instead of returning `OK`. -/
theorem Store_Fetch_roundtrip_counterexample :
    (CARingBuffer.new.Allocate 1 4 1073741824).mCapacityFrames = 1073741824 ∧
    (CARingBuffer.new.Allocate 1 4 1073741824).mCapacityBytes = 0 ∧
    (CARingBuffer.new.Allocate 1 4 1073741824).mBuffers = [[]] ∧
    (CARingBuffer.new.Allocate 1 4 1073741824).Store [⟨4, [1, 2, 3, 4]⟩] 1 0 = none := by
  decide

/-- C1, amended: on every allocated buffer (reached from `Allocate`, any channel count, with
at least one frame of capacity and a storage size `bytesPerFrame * capacityFrames`
below `2 ^ 31`), for every `n` with `1 ≤ n ≤ capacityFrames`, every sample time `t` and
every input `buf` holding `n` frames per channel, `Store(buf, n, t)` returns `OK` and an
immediately following `Fetch(out, n, t)` returns `OK` with the `n` frames of `out` equal to
those of `buf` byte for byte in every channel, also when the span wraps past the physical
end of storage. -/
theorem Store_Fetch_roundtrip (rb : CARingBuffer) (hr : Reachable rb) (hz : Sized rb)
    (buf out : AudioBufferList) (n : Nat) (t : Int) (hn1 : 1 ≤ n)
    (hn : n ≤ rb.mCapacityFrames) (hbuf : buf.length ≤ rb.mNumberChannels)
    (hbufB : ∀ a ∈ buf, n * rb.mBytesPerFrame ≤ a.mData.length)
    (hout : out.length ≤ rb.mNumberChannels)
    (houtB : ∀ a ∈ out, n * rb.mBytesPerFrame ≤ a.mData.length) :
    ∃ rb' out', rb.Store buf n t = some (kCARingBufferError_OK, rb') ∧
      rb'.Fetch out n t = some (kCARingBufferError_OK, out') ∧ out'.length = out.length ∧
      ∀ (c : Nat) (a o : AudioBuffer), buf[c]? = some a → out'[c]? = some o →
        ∀ k : Nat, k < n * rb.mBytesPerFrame → o.mData[k]? = a.mData[k]? := by
  have wf := hr.wellFormed hz
  have hspan : rb.spanBytes n = n * rb.mBytesPerFrame := by
    unfold spanBytes; rw [if_neg (by omega)]
  obtain ⟨rb', hs⟩ := Store_exists wf buf n t hn hbuf (by rw [hspan]; exact hbufB)
  have wf' := wf.store_wellFormed hs
  obtain ⟨f1, f2, f3, f4⟩ := Store_fields hs
  obtain ⟨-, -, -, s4, s5, -, -⟩ := Store_spec wf hn hs
  have hw := adjustBounds_window wf.wfQueue n t hn
  have hS : rb'.StartTime ≤ t := by rw [s4]; omega
  have hst : clipStatus rb'.StartTime rb'.EndTime t (t + n) = 0 :=
    (clip_facts rb'.StartTime rb'.EndTime t (t + n) wf'.wfQueue.start_le_end
      (by omega)).2.2.2.2.1.mpr ⟨hS, by rw [s5]⟩
  have hmb : n * rb'.mBytesPerFrame < 2147483648 := by
    rw [f2]
    have h1 : n * rb.mBytesPerFrame ≤ rb.mCapacityFrames * rb.mBytesPerFrame :=
      Nat.mul_le_mul_right _ hn
    have h2 := hz.fits
    rw [Nat.mul_comm] at h2
    omega
  have hspan' : rb'.spanBytes n = n * rb.mBytesPerFrame := by
    unfold spanBytes; rw [if_neg (by omega), f2]
  obtain ⟨out', hf⟩ := Fetch_exists wf' out n t (Or.inr hst) hmb (by rw [f1]; exact hout)
    (by rw [hspan']; exact houtB)
  rw [hst] at hf
  have hne : ¬ (clipStatus rb'.StartTime rb'.EndTime t (t + n) ≠ 0 ∧
      clipEnd rb'.StartTime rb'.EndTime t (t + n)
        - clipStart rb'.StartTime rb'.EndTime t (t + n) ≤ 0) := fun h => h.1 hst
  obtain ⟨-, -, hlen, -⟩ := Fetch_spec wf' (Or.inr hst) hmb hne hf
  refine ⟨rb', out', hs, hf, hlen, fun c a o ha ho k hk => ?_⟩
  have hbpf : 0 < rb.mBytesPerFrame := by
    rcases Nat.eq_zero_or_pos rb.mBytesPerFrame with h0 | h0
    · rw [h0] at hk; omega
    · exact h0
  have hc : c < out.length := by
    rw [← hlen]
    by_contra hcon
    rw [List.getElem?_eq_none (by omega)] at ho
    exact absurd ho (by simp)
  have key : ∀ i j : Nat, i < n → j < rb.mBytesPerFrame →
      o.mData[i * rb.mBytesPerFrame + j]? = a.mData[i * rb.mBytesPerFrame + j]? := by
    intro i j hi hj
    obtain ⟨b, o2, hb, ho2, -, -, hbyte⟩ := Fetch_frame wf' (Or.inr hst) hmb hne hf c _
      (List.getElem?_eq_getElem hc) i j hi (by rw [f2]; exact hj)
    rw [ho] at ho2
    obtain rfl := Option.some.inj ho2
    obtain ⟨sb, hsb, hwr, -⟩ := Store_frame_written wf hn hs c a ha i j hi hj
    rw [hb] at hsb
    obtain rfl := Option.some.inj hsb
    have hcond : rb'.StartTime ≤ t + (i : Int) ∧ t + (i : Int) < rb'.EndTime :=
      ⟨by omega, by rw [s5]; omega⟩
    rw [f2, byteOffset_congr f3 f2, if_pos hcond] at hbyte
    rw [hbyte, hwr]
  have hi : k / rb.mBytesPerFrame < n := Nat.div_lt_of_lt_mul (by rw [Nat.mul_comm]; exact hk)
  have hj : k % rb.mBytesPerFrame < rb.mBytesPerFrame := Nat.mod_lt _ hbpf
  have hk' : k / rb.mBytesPerFrame * rb.mBytesPerFrame + k % rb.mBytesPerFrame = k := by
    rw [Nat.mul_comm]; exact Nat.div_add_mod k rb.mBytesPerFrame
  have := key _ _ hi hj
  rw [hk'] at this
  exact this

theorem Store_Fetch_roundtrip_witness :
    ∃ rb' out', small.Store smallFrames 3 2 = some (kCARingBufferError_OK, rb') ∧
      rb'.Fetch smallOut 3 2 = some (kCARingBufferError_OK, out') ∧
      out'.length = smallOut.length ∧
      ∀ (c : Nat) (a o : AudioBuffer), smallFrames[c]? = some a → out'[c]? = some o →
        ∀ k : Nat, k < 3 * small.mBytesPerFrame → o.mData[k]? = a.mData[k]? :=
  Store_Fetch_roundtrip small small_reachable small_sized smallFrames smallOut 3 2 (by decide)
    (by decide) (by decide) (by decide) (by decide) (by decide)

/-- C11: `Allocate` discards the prior state. From every prior state of the object
(constructed, allocated and written to, or deallocated) the state after
`Allocate(channels, bytesPerFrame, c)` is the state after the same call on a constructed
object, so allocating twice is the same as allocating once; in that state every byte of
every channel's storage is zero, the bounds history holds eight slots `(0, 0, 0)`, the
published counter is zero and `GetTimeBounds` returns `OK` with the window `(0, 0)`. -/
theorem Allocate_discards_prior_state (rb : CARingBuffer) (nChannels bytesPerFrame c : Nat) :
    rb.Allocate nChannels bytesPerFrame c = CARingBuffer.new.Allocate nChannels bytesPerFrame c ∧
    rb.Deallocate.Allocate nChannels bytesPerFrame c
      = CARingBuffer.new.Allocate nChannels bytesPerFrame c ∧
    (rb.Allocate nChannels bytesPerFrame c).Allocate nChannels bytesPerFrame c
      = rb.Allocate nChannels bytesPerFrame c ∧
    (rb.Allocate nChannels bytesPerFrame c).mBuffers.length = nChannels ∧
    (∀ b ∈ (rb.Allocate nChannels bytesPerFrame c).mBuffers,
      b.length = (rb.Allocate nChannels bytesPerFrame c).mCapacityBytes ∧ ∀ x ∈ b, x = 0) ∧
    (rb.Allocate nChannels bytesPerFrame c).mTimeBoundsQueue.length
      = kGeneralRingTimeBoundsQueueSize ∧
    (∀ slot ∈ (rb.Allocate nChannels bytesPerFrame c).mTimeBoundsQueue,
      slot = (⟨0, 0, 0⟩ : TimeBounds)) ∧
    (rb.Allocate nChannels bytesPerFrame c).mTimeBoundsQueuePtr = 0 ∧
    ∀ startTime endTime : Int,
      (rb.Allocate nChannels bytesPerFrame c).GetTimeBounds startTime endTime
        = (kCARingBufferError_OK, 0, 0) := by
  have hq := QueueInv.of_allocate rb nChannels bytesPerFrame c
  refine ⟨rfl, rfl, rfl, by simp [Allocate], ?_, by simp [Allocate], ?_, rfl, ?_⟩
  · intro b hb
    simp only [Allocate, List.mem_replicate] at hb
    rw [hb.2]
    exact ⟨by simp [Allocate], fun x hx => (List.mem_replicate.mp hx).2⟩
  · intro slot hs
    simp only [Allocate, List.mem_replicate] at hs
    exact hs.2
  · intro s e
    rw [hq.getTimeBounds]
    have hcur : (rb.Allocate nChannels bytesPerFrame c).currentBounds = ⟨0, 0, 0⟩ := by
      simp [Allocate, currentBounds, kGeneralRingTimeBoundsQueueSize, land_queueMask,
        List.getD_eq_getElem?_getD]
    simp [StartTime, EndTime, hcur]

theorem smallStored_reachable : Reachable smallStored :=
  Reachable.store smallFrames 3 2 small_reachable smallStored_store

theorem smallStored_sized : Sized smallStored := small_sized.store_sized smallStored_store

theorem smallStored_bounds : smallStored.StartTime = 1 ∧ smallStored.EndTime = 5 := by decide

/-- C16: the status of `Fetch`. On every buffer state reachable by `Allocate` and `Store`
calls `GetTimeBounds` reports a valid window `[validStart, validEnd)`, and a `Fetch` of
the request `[s, e)` with `e = s + framesToRead` returns: if `s < validStart` then
`TooMuch` when `e > validEnd`, else `WayBehind` when `e < validStart`, else
`SlightlyBehind`; else if `e > validEnd` then `WayAhead` when `s > validEnd`, else
`SlightlyAhead`; else `OK`. In particular a request of at least one frame that starts
exactly at `validEnd` returns `SlightlyAhead`, and one that ends exactly at `validStart`
returns `SlightlyBehind`. On an allocated buffer `Fetch` does return, for every request
whose byte size fits an `int`, when the caller's buffers hold the bytes that the copy
writes. -/
theorem Fetch_status_classification (rb : CARingBuffer) (hr : Reachable rb)
    (abl : AudioBufferList) (m : Nat) (s : Int) :
    (∃ validStart validEnd,
      rb.GetTimeBounds 0 0 = (kCARingBufferError_OK, validStart, validEnd)) ∧
    (∀ (validStart validEnd err : Int) (out : AudioBufferList),
      rb.GetTimeBounds 0 0 = (kCARingBufferError_OK, validStart, validEnd) →
      rb.Fetch abl m s = some (err, out) →
      err = (if s < validStart then
          if s + m > validEnd then kCARingBufferError_TooMuch
          else if s + m < validStart then kCARingBufferError_WayBehind
          else kCARingBufferError_SlightlyBehind
        else if s + m > validEnd then
          if s > validEnd then kCARingBufferError_WayAhead
          else kCARingBufferError_SlightlyAhead
        else kCARingBufferError_OK) ∧
      (s = validEnd → 1 ≤ m → err = kCARingBufferError_SlightlyAhead) ∧
      (s + m = validStart → 1 ≤ m → err = kCARingBufferError_SlightlyBehind)) ∧
    (Sized rb → m < 2147483648 → m * rb.mBytesPerFrame < 2147483648 →
      abl.length ≤ rb.mNumberChannels → (∀ a ∈ abl, rb.spanBytes m ≤ a.mData.length) →
      ∃ err out, rb.Fetch abl m s = some (err, out)) := by
  have hq := hr.queueInv
  refine ⟨⟨_, _, hq.getTimeBounds 0 0⟩, fun vs ve err out hg hf => ?_,
    fun hz hm hmb hlen habl => ?_⟩
  · rw [hq.getTimeBounds] at hg
    obtain ⟨-, hg2⟩ := Prod.mk.inj hg
    obtain ⟨hg3, hg4⟩ := Prod.mk.inj hg2
    subst hg3 hg4
    obtain ⟨rfl, -⟩ := (Fetch_eq_some_iff hq abl m s err out).mp hf
    have hSE := hq.start_le_end
    refine ⟨rfl, fun h1 h2 => ?_, fun h1 h2 => ?_⟩
    · unfold clipStatus
      rw [if_neg (by omega), if_pos (by omega), if_neg (by omega)]
    · unfold clipStatus
      rw [if_pos (by omega), if_neg (by omega), if_neg (by omega)]
  · obtain ⟨out, hf⟩ := Fetch_exists (hr.wellFormed hz) abl m s (Or.inl hm) hmb hlen habl
    exact ⟨_, out, hf⟩

theorem Fetch_status_classification_witness :
    ∃ err out, smallStored.Fetch smallOut 3 5 = some (err, out) ∧
      err = kCARingBufferError_SlightlyAhead := by
  obtain ⟨-, h2, h3⟩ := Fetch_status_classification smallStored smallStored_reachable smallOut 3 5
  obtain ⟨err, out, hf⟩ := h3 smallStored_sized (by decide) (by decide) (by decide) (by decide)
  exact ⟨err, out, hf, (h2 1 5 err out (by decide) hf).2.1 rfl (by decide)⟩

/-- C17: the layout of a `Fetch` that is a partial miss. On every allocated buffer (reached
from `Allocate`, with a storage size that fits an `int`), for every
`Fetch(out, n, t)` whose requested window shares at least one frame `τ` with the valid
window (the request being one whose byte size fits an `int`, with at most one output
buffer per channel, each holding `n` frames), `Fetch` returns, and on return frame `i`
(`0 ≤ i < n`) of every channel of the output holds the bytes that circular storage
holds for the frame time `t + i`, at the slot `(t + i) mod capacityFrames`, when
`validStart ≤ t + i < validEnd`, and is all-zero otherwise. -/
theorem Fetch_partial_layout (rb : CARingBuffer) (hr : Reachable rb) (hz : Sized rb)
    (abl : AudioBufferList) (m : Nat) (s : Int) (hm : m < 2147483648)
    (hmb : m * rb.mBytesPerFrame < 2147483648) (hlen : abl.length ≤ rb.mNumberChannels)
    (habl : ∀ a ∈ abl, m * rb.mBytesPerFrame ≤ a.mData.length)
    (τ : Int) (h1 : s ≤ τ) (h2 : τ < s + m) (h3 : rb.StartTime ≤ τ) (h4 : τ < rb.EndTime) :
    ∃ err out, rb.Fetch abl m s = some (err, out) ∧ out.length = abl.length ∧
      ∀ (c : Nat) (a : AudioBuffer), abl[c]? = some a →
        ∃ b o, rb.mBuffers[c]? = some b ∧ out[c]? = some o ∧
          o.mData.length = a.mData.length ∧
          ∀ i j : Nat, i < m → j < rb.mBytesPerFrame →
            i * rb.mBytesPerFrame + j < o.mData.length ∧
            rb.byteOffset (s + i) + j < b.length ∧
            o.mData[i * rb.mBytesPerFrame + j]? =
              if rb.StartTime ≤ s + i ∧ s + i < rb.EndTime then
                b[rb.byteOffset (s + i) + j]?
              else some 0 := by
  have wf := hr.wellFormed hz
  have hne := clip_overlap rb.StartTime rb.EndTime s m τ wf.wfQueue.start_le_end h3 h4 h1 h2
  have hspan : rb.spanBytes m = m * rb.mBytesPerFrame := by
    unfold spanBytes; rw [if_neg (by omega)]
  obtain ⟨out, hf⟩ := Fetch_exists wf abl m s (Or.inl hm) hmb hlen (by rw [hspan]; exact habl)
  obtain ⟨-, -, hlo, -⟩ := Fetch_spec wf (Or.inl hm) hmb hne hf
  refine ⟨_, out, hf, hlo, fun c a ha => ?_⟩
  have hca : c < abl.length := by
    by_contra hcon
    rw [List.getElem?_eq_none (by omega)] at ha
    exact absurd ha (by simp)
  obtain ⟨b, hb⟩ : ∃ b, rb.mBuffers[c]? = some b :=
    ⟨_, List.getElem?_eq_getElem (by rw [wf.wfStorage.channels]; omega)⟩
  obtain ⟨o, ho⟩ : ∃ o, out[c]? = some o := ⟨_, List.getElem?_eq_getElem (by omega)⟩
  have hbl : b.length = rb.mCapacityBytes := wf.wfStorage.storage b (List.getElem?_mem hb)
  have hol : o.mData.length = a.mData.length := by
    have hm1 : 0 < m := by omega
    by_cases hbpf : 0 < rb.mBytesPerFrame
    · obtain ⟨b2, o2, -, ho2, hl, -, -⟩ := Fetch_frame wf (Or.inl hm) hmb hne hf c a ha 0 0 hm1 hbpf
      rw [ho] at ho2
      obtain rfl := Option.some.inj ho2
      exact hl
    · obtain ⟨-, -, -, h4'⟩ := Fetch_spec wf (Or.inl hm) hmb hne hf
      obtain ⟨d, hd, hdl, -⟩ := h4' c a b ha hb
      rw [ho] at hd
      obtain rfl := Option.some.inj hd
      exact hdl
  refine ⟨b, o, hb, ho, hol, fun i j hi hj => ?_⟩
  obtain ⟨b2, o2, hb2, ho2, -, hlt, hbyte⟩ := Fetch_frame wf (Or.inl hm) hmb hne hf c a ha i j hi hj
  rw [hb] at hb2
  rw [ho] at ho2
  obtain rfl := Option.some.inj hb2
  obtain rfl := Option.some.inj ho2
  refine ⟨hlt, ?_, hbyte⟩
  rw [hbl]
  exact wf.byte_lt (s + i) j hj

theorem Fetch_partial_layout_witness :
    (∃ err out, smallStored.Fetch smallOut 3 3 = some (err, out) ∧
      out.length = smallOut.length) ∧
    smallStored.Fetch smallOut 3 3 = some (kCARingBufferError_SlightlyAhead,
      [⟨4, [3, 4, 5, 6, 0, 0]⟩, ⟨4, [13, 14, 15, 16, 0, 0]⟩]) ∧
    smallStored.Fetch smallOut 3 0 = some (kCARingBufferError_SlightlyBehind,
      [⟨4, [0, 0, 0, 0, 1, 2]⟩, ⟨4, [0, 0, 0, 0, 11, 12]⟩]) := by
  obtain ⟨err, out, hf, hl, -⟩ := Fetch_partial_layout smallStored smallStored_reachable
    smallStored_sized smallOut 3 3 (by decide) (by decide) (by decide) (by decide) 4
    (by decide) (by decide) (by decide) (by decide)
  exact ⟨⟨err, out, hf, hl⟩, by decide, by decide⟩

/-- C18 fails on a partial miss: with two bytes per frame and the valid window `[1, 5)`,
`Fetch(out, 3, 0)` returns `SlightlyBehind` with the output populated (one zeroed frame,
two copied frames), and the byte size recorded on each output buffer is 4, the size of
the two copied frames, not `3 * 2 = 6`. -/
theorem Fetch_recorded_size_counterexample :
    smallStored.mBytesPerFrame = 2 ∧ smallStored.StartTime = 1 ∧ smallStored.EndTime = 5 ∧
    smallStored.Fetch smallOut 3 0 = some (kCARingBufferError_SlightlyBehind,
      [⟨4, [0, 0, 0, 0, 1, 2]⟩, ⟨4, [0, 0, 0, 0, 11, 12]⟩]) ∧
    (4 : Nat) ≠ 3 * smallStored.mBytesPerFrame := by
  decide

/-- C18, amended: on every allocated buffer, on return from every `Fetch(out, n, t)` whose
requested window shares at least one frame with the valid window (so that the output is
populated), the byte size recorded on each output channel buffer is the size of the
copied frames, `(min(t + n, validEnd) - max(t, validStart)) * bytesPerFrame`: it is
`n * bytesPerFrame` when the status is `OK`, and less than that on a partial miss. -/
theorem Fetch_recorded_size (rb : CARingBuffer) (hr : Reachable rb) (hz : Sized rb)
    (abl : AudioBufferList) (m : Nat) (s : Int) (hm : m < 2147483648)
    (hmb : m * rb.mBytesPerFrame < 2147483648) (hlen : abl.length ≤ rb.mNumberChannels)
    (habl : ∀ a ∈ abl, m * rb.mBytesPerFrame ≤ a.mData.length)
    (τ : Int) (h1 : s ≤ τ) (h2 : τ < s + m) (h3 : rb.StartTime ≤ τ) (h4 : τ < rb.EndTime) :
    ∃ err out, rb.Fetch abl m s = some (err, out) ∧ out.length = abl.length ∧
      (∀ o ∈ out, (o.mDataByteSize : Int)
        = (min (s + m) rb.EndTime - max s rb.StartTime) * rb.mBytesPerFrame) ∧
      (err = kCARingBufferError_OK → ∀ o ∈ out, o.mDataByteSize = m * rb.mBytesPerFrame) ∧
      (err ≠ kCARingBufferError_OK → 0 < rb.mBytesPerFrame →
        ∀ o ∈ out, o.mDataByteSize < m * rb.mBytesPerFrame) := by
  have wf := hr.wellFormed hz
  have hSE := wf.wfQueue.start_le_end
  have hne := clip_overlap rb.StartTime rb.EndTime s m τ hSE h3 h4 h1 h2
  have hspan : rb.spanBytes m = m * rb.mBytesPerFrame := by
    unfold spanBytes; rw [if_neg (by omega)]
  obtain ⟨out, hf⟩ := Fetch_exists wf abl m s (Or.inl hm) hmb hlen (by rw [hspan]; exact habl)
  obtain ⟨-, -, hlo, hsp⟩ := Fetch_spec wf (Or.inl hm) hmb hne hf
  obtain ⟨f1, f2, f3, f4, f5, f6⟩ := clip_facts rb.StartTime rb.EndTime s (s + m) hSE (by omega)
  have hpos : clipStart rb.StartTime rb.EndTime s (s + m)
      < clipEnd rb.StartTime rb.EndTime s (s + m) := by
    unfold clipStart clipEnd
    split_ifs <;> omega
  obtain ⟨g1, g2, g3, g4⟩ := f4 hpos
  have hlen1 : 1 ≤ rb.fetchLen m s := by unfold fetchLen; omega
  have hlenm : rb.fetchLen m s ≤ m := by unfold fetchLen; omega
  have hspan2 : rb.spanBytes (rb.fetchLen m s) = rb.fetchLen m s * rb.mBytesPerFrame := by
    unfold spanBytes; rw [if_neg (by omega)]
  have hcast : ((rb.fetchLen m s : Nat) : Int)
      = min (s + m) rb.EndTime - max s rb.StartTime := by
    unfold fetchLen
    rw [g3, g4] at hpos ⊢
    omega
  -- the size recorded on every buffer of the output
  have hsize : ∀ o ∈ out, o.mDataByteSize = rb.fetchLen m s * rb.mBytesPerFrame := by
    intro o ho
    obtain ⟨c, hc⟩ := List.getElem?_of_mem ho
    have hco : c < out.length := by
      by_contra hcon
      rw [List.getElem?_eq_none (by omega)] at hc
      exact absurd hc (by simp)
    obtain ⟨a, ha⟩ : ∃ a, abl[c]? = some a := ⟨_, List.getElem?_eq_getElem (by omega)⟩
    obtain ⟨b, hb⟩ : ∃ b, rb.mBuffers[c]? = some b :=
      ⟨_, List.getElem?_eq_getElem (by rw [wf.wfStorage.channels]; omega)⟩
    obtain ⟨d, hd, -, -⟩ := hsp c a b ha hb
    rw [hc] at hd
    obtain rfl := Option.some.inj hd
    exact hspan2
  refine ⟨_, out, hf, hlo, fun o ho => ?_, fun he o ho => ?_, fun he hb o ho => ?_⟩
  · rw [hsize o ho, Nat.cast_mul, hcast]
  · obtain ⟨e1, e2⟩ := f6 he
    have : rb.fetchLen m s = m := by unfold fetchLen; rw [e1, e2]; omega
    rw [hsize o ho, this]
  · have hlt : rb.fetchLen m s < m := by
      by_contra hcon
      have hfe : rb.fetchLen m s = m := by omega
      apply he
      apply f5.mpr
      unfold fetchLen at hfe
      omega
    rw [hsize o ho]
    exact Nat.mul_lt_mul_of_pos_right hlt hb

theorem Fetch_recorded_size_witness :
    ∃ err out, smallStored.Fetch smallOut 3 1 = some (err, out) ∧
      out.length = smallOut.length ∧
      ∀ o ∈ out, (o.mDataByteSize : Int)
        = (min ((1 : Int) + (3 : Nat)) smallStored.EndTime - max 1 smallStored.StartTime)
          * smallStored.mBytesPerFrame := by
  obtain ⟨err, out, hf, hl, hs, -⟩ := Fetch_recorded_size smallStored smallStored_reachable
    smallStored_sized smallOut 3 1 (by decide) (by decide) (by decide) (by decide) 1
    (by decide) (by decide) (by decide) (by decide)
  exact ⟨err, out, hf, hl, hs⟩

/-- The published slot of the bounds history, by its index. -/
theorem QueueInv.slot {rb : CARingBuffer} (h : QueueInv rb) :
    rb.mTimeBoundsQueue[rb.mTimeBoundsQueuePtr % kGeneralRingTimeBoundsQueueSize]?
      = some rb.currentBounds := by
  have hlt : rb.mTimeBoundsQueuePtr % 8 < rb.mTimeBoundsQueue.length := by
    rw [h.queue_length]; exact Nat.mod_lt _ (by decide)
  simp only [currentBounds, land_queueMask]
  rw [List.getD_eq_getElem?_getD]
  show rb.mTimeBoundsQueue[rb.mTimeBoundsQueuePtr % 8]? = _
  rw [List.getElem?_eq_getElem hlt]
  rfl

theorem adjustBounds_mTimeBoundsQueuePtr (rb : CARingBuffer) (n : Nat) (t : Int) :
    (rb.adjustBounds n t).mTimeBoundsQueuePtr =
      if t < rb.EndTime ∨ (rb.mCapacityFrames : Int) < t + n - rb.StartTime then
        (rb.mTimeBoundsQueuePtr + 1) % 4294967296
      else rb.mTimeBoundsQueuePtr := by
  rw [adjustBounds_def]
  by_cases h1 : t < rb.EndTime
  · rw [if_pos h1, if_pos (Or.inl h1)]; rfl
  · by_cases h2 : t + n - rb.StartTime ≤ rb.mCapacityFrames
    · have h3 : ¬ (t < rb.EndTime ∨ (rb.mCapacityFrames : Int) < t + n - rb.StartTime) := by
        omega
      rw [if_neg h1, if_pos h2, if_neg h3]
    · have h3 : t < rb.EndTime ∨ (rb.mCapacityFrames : Int) < t + n - rb.StartTime := by
        omega
      rw [if_neg h1, if_neg h2, if_pos h3]; rfl

/-- C20 fails on a `Store` that evicts: on a fresh buffer of capacity 4 (published counter
0), `Store(_, 3, 2)` returns `OK` and leaves the published counter at 2, not 1: it
publishes the advanced start `(1, 1)` with counter 1 before the copy and the final
bounds `(1, 5)` with counter 2 after it. -/
theorem Store_publishes_counterexample :
    small.mCapacityFrames = 4 ∧ small.mTimeBoundsQueuePtr = 0 ∧
    small.Store smallFrames 3 2 = some (kCARingBufferError_OK, smallStored) ∧
    smallStored.mTimeBoundsQueuePtr = 2 ∧
    smallStored.mTimeBoundsQueue[1]? = some ⟨1, 1, 1⟩ ∧
    smallStored.mTimeBoundsQueue[2]? = some ⟨1, 5, 2⟩ := by
  decide

/-- C20, amended: for every `Store(_, n, t)` that returns `OK` from published counter `v`,
the counter afterwards is `v + 1` when the write goes forward within the capacity, and
`v + 2` when `Store` first resets the bounds (backward write, `t` before the end time)
or evicts (new end more than `capacityFrames` after the start), the counter being a
32-bit value; the bounds entry left published is `(start of window, t + n, v')` for the
new counter `v'` and sits in slot `v' mod historySize`; the counter does not decrease
and advances by at most two. -/
theorem Store_publishes (rb : CARingBuffer) (hr : Reachable rb) (abl : AudioBufferList)
    (n : Nat) (t : Int) (rb' : CARingBuffer)
    (hs : rb.Store abl n t = some (kCARingBufferError_OK, rb')) :
    rb'.mTimeBoundsQueuePtr
      = (rb.mTimeBoundsQueuePtr + rb.storePublishes n t) % 4294967296 ∧
    rb'.mTimeBoundsQueue[rb'.mTimeBoundsQueuePtr % kGeneralRingTimeBoundsQueueSize]?
      = some ⟨rb'.StartTime, t + n, rb'.mTimeBoundsQueuePtr⟩ ∧
    rb'.currentBounds = ⟨rb'.StartTime, t + n, rb'.mTimeBoundsQueuePtr⟩ ∧
    (rb.mTimeBoundsQueuePtr + 2 < 4294967296 →
      rb.mTimeBoundsQueuePtr < rb'.mTimeBoundsQueuePtr ∧
      rb'.mTimeBoundsQueuePtr ≤ rb.mTimeBoundsQueuePtr + 2) := by
  have hq := hr.queueInv
  have hq' := hq.store_queue hs
  rcases (Store_eq_some_iff _ _ _ _ _ _).mp hs with
    ⟨-, h, -⟩ | ⟨-, -, zeroed, stored, -, -, hrb⟩
  · exact absurd h (by decide)
  have hqa := (hq.adjustBounds n t).withBuffers stored
  have hptr : rb'.mTimeBoundsQueuePtr
      = (rb.mTimeBoundsQueuePtr + rb.storePublishes n t) % 4294967296 := by
    rw [hrb, SetTimeBounds_mTimeBoundsQueuePtr]
    show ((rb.adjustBounds n t).mTimeBoundsQueuePtr + 1) % 4294967296 = _
    rw [adjustBounds_mTimeBoundsQueuePtr]
    unfold storePublishes
    split_ifs <;> omega
  have hcur : rb'.currentBounds = ⟨rb'.StartTime, t + n, rb'.mTimeBoundsQueuePtr⟩ := by
    have hc := currentBounds_SetTimeBounds _ (rb.adjustBounds n t).StartTime (t + n)
      hqa.queue_length
    rw [← hrb] at hc
    have hst : rb'.StartTime = (rb.adjustBounds n t).StartTime := by
      unfold StartTime; rw [hc]; rfl
    have hcnt := hq'.counter
    rw [hc] at hcnt
    rw [hst, hc]
    exact congrArg (TimeBounds.mk _ _) hcnt
  refine ⟨hptr, ?_, hcur, fun hv => ?_⟩
  · rw [hq'.slot, hcur]
  · rw [hptr]
    unfold storePublishes
    split_ifs <;> omega

theorem Store_publishes_witness :
    smallStored.mTimeBoundsQueuePtr
      = (small.mTimeBoundsQueuePtr + small.storePublishes 3 2) % 4294967296 ∧
    small.storePublishes 3 2 = 2 :=
  ⟨(Store_publishes small small_reachable smallFrames 3 2 smallStored smallStored_store).1,
    by decide⟩

/-- After a returning `Store` of `n ≥ 1` frames at `t`, a byte position of a channel's
storage that lies neither in the `n` written frame slots nor in the zero-filled gap
keeps its byte. -/
theorem Store_other_bytes_kept {rb rb' : CARingBuffer} (wf : WellFormed rb)
    {abl : AudioBufferList} {n : Nat} {t : Int} {err : Int} (hn : n ≤ rb.mCapacityFrames)
    (hn1 : 1 ≤ n) (hs : rb.Store abl n t = some (err, rb')) (c : Nat) (b : List Byte)
    (hb : rb.mBuffers[c]? = some b) (p : Nat) (hp : p < rb.mCapacityBytes)
    (hw : n * rb.mBytesPerFrame ≤ wrapRel rb.mCapacityBytes (rb.byteOffset t) p)
    (hg : ¬ ((rb.adjustBounds n t).EndTime < t ∧
      wrapRel rb.mCapacityBytes (rb.byteOffset (rb.adjustBounds n t).EndTime) p
        < (t - (rb.adjustBounds n t).EndTime).toNat * rb.mBytesPerFrame)) :
    ∃ s, rb'.mBuffers[c]? = some s ∧ s[p]? = b[p]? := by
  obtain ⟨-, -, -, -, -, -, h7⟩ := Store_spec wf hn hs
  obtain ⟨s, hs1, -, hs3⟩ := h7 c b hb
  refine ⟨s, hs1, ?_⟩
  have hspan : rb.spanBytes n = n * rb.mBytesPerFrame := by
    unfold spanBytes; rw [if_neg (by omega)]
  rw [hs3 p hp, hspan, if_neg hg]
  unfold storedByte
  cases abl[c]? with
  | none => rfl
  | some a => simp only []; rw [if_neg (by omega)]

/-- C19 at `framesToWrite = 0`: on a buffer of two channels, two bytes per frame and
capacity 4 (8 bytes of storage per channel), `Store(buf, 0, 0)` returns `OK` and
overwrites the eight storage bytes of every channel with the first eight bytes of the
source; `Store(buf, 0, 5)` on the same buffer holding the valid window `[1, 5)` overwrites
all of its stored frames and leaves the window as it was; and with a source that holds
no frame the copy reads past the source. -/
theorem Store_zero_frames_overwrites :
    small.mCapacityFrames = 4 ∧ small.mBuffers = [[0, 0, 0, 0, 0, 0, 0, 0], [0, 0, 0, 0, 0, 0, 0, 0]] ∧
    (small.Store smallFull 0 0).map (fun r => (r.1, r.2.mBuffers))
      = some (kCARingBufferError_OK,
          [[1, 2, 3, 4, 5, 6, 7, 8], [11, 12, 13, 14, 15, 16, 17, 18]]) ∧
    smallStored.mBuffers = [[5, 6, 0, 0, 1, 2, 3, 4], [15, 16, 0, 0, 11, 12, 13, 14]] ∧
    (smallStored.Store smallFull 0 5).map
        (fun r => (r.1, r.2.mBuffers, r.2.StartTime, r.2.EndTime))
      = some (kCARingBufferError_OK,
          [[7, 8, 1, 2, 3, 4, 5, 6], [17, 18, 11, 12, 13, 14, 15, 16]], 1, 5) ∧
    small.Store smallEmpty 0 0 = none := by
  decide

theorem constWrite_some : ConstWrite some :=
  ⟨fun _ => True, fun _ => none, fun x =>
    ⟨fun _ => ⟨x, rfl⟩, fun y h => by
      obtain rfl := Option.some.inj h
      exact ⟨trivial, rfl, fun p _ => rfl⟩⟩⟩

theorem constWrite_splice (x seg : List Byte) (d : Nat) (hd : d + seg.length ≤ x.length)
    (p : Nat) :
    (splice x d seg)[p]? =
      overlayByte (if d ≤ p ∧ p < d + seg.length then seg[p - d]? else none) x[p]? := by
  rw [getElem?_splice x seg d p hd]
  by_cases h1 : p < d
  · rw [if_pos h1, if_neg (by omega)]; rfl
  · rw [if_neg h1]
    by_cases h2 : p < d + seg.length
    · rw [if_pos h2, if_pos ⟨by omega, h2⟩, List.getElem?_eq_getElem (by omega)]; rfl
    · rw [if_neg h2, if_neg (by omega)]; rfl

theorem constWrite_memsetZero (d n : Int) : ConstWrite (fun x => memsetZero x d n) := by
  refine ⟨fun L => 0 ≤ d ∧ 0 ≤ n ∧ d + n ≤ L,
    fun p => if d.toNat ≤ p ∧ p < d.toNat + (List.replicate n.toNat (0 : Byte)).length then
      (List.replicate n.toNat (0 : Byte))[p - d.toNat]? else none, fun x => ⟨fun h => ?_, fun y h => ?_⟩⟩
  · exact ⟨_, (memsetZero_eq_some_iff x d n _).mpr ⟨h.1, h.2.1, h.2.2, rfl⟩⟩
  · obtain ⟨h1, h2, h3, rfl⟩ := (memsetZero_eq_some_iff x d n y).mp h
    have hd : d.toNat + (List.replicate n.toNat (0 : Byte)).length ≤ x.length := by
      rw [List.length_replicate]; omega
    exact ⟨⟨h1, h2, h3⟩, length_splice x _ _ hd, fun p _ => constWrite_splice x _ _ hd p⟩

theorem constWrite_memcpy (d : Int) (src : List Byte) (s n : Int) :
    ConstWrite (fun x => memcpy x d src s n) := by
  refine ⟨fun L => 0 ≤ d ∧ 0 ≤ s ∧ 0 ≤ n ∧ d + n ≤ L ∧ s + n ≤ src.length,
    fun p => if d.toNat ≤ p ∧ p < d.toNat + ((src.drop s.toNat).take n.toNat).length then
      ((src.drop s.toNat).take n.toNat)[p - d.toNat]? else none, fun x => ⟨fun h => ?_, fun y h => ?_⟩⟩
  · exact ⟨_, (memcpy_eq_some_iff x src d s n _).mpr ⟨h.1, h.2.1, h.2.2.1, h.2.2.2.1, h.2.2.2.2, rfl⟩⟩
  · obtain ⟨h1, h2, h3, h4, h5, rfl⟩ := (memcpy_eq_some_iff x src d s n y).mp h
    have hl : ((src.drop s.toNat).take n.toNat).length = n.toNat := by
      simp; omega
    have hd : d.toNat + ((src.drop s.toNat).take n.toNat).length ≤ x.length := by
      rw [hl]; omega
    exact ⟨⟨h1, h2, h3, h4, h5⟩, length_splice x _ _ hd, fun p _ => constWrite_splice x _ _ hd p⟩

theorem constWrite_bind {f g : List Byte → Option (List Byte)} (hf : ConstWrite f)
    (hg : ConstWrite g) : ConstWrite (fun x => (f x).bind g) := by
  obtain ⟨okf, wf, hf⟩ := hf
  obtain ⟨okg, wg, hg⟩ := hg
  refine ⟨fun L => okf L ∧ okg L, fun p => overlayByte (wg p) (wf p), fun x => ⟨fun h => ?_, fun z h => ?_⟩⟩
  · obtain ⟨y, hy⟩ := (hf x).1 h.1
    obtain ⟨-, hl, -⟩ := (hf x).2 y hy
    obtain ⟨z, hz⟩ := (hg y).1 (by rw [hl]; exact h.2)
    exact ⟨z, by simp only [hy, Option.some_bind, hz]⟩
  · obtain ⟨y, hy, hz⟩ := Option.bind_eq_some.mp h
    obtain ⟨o1, l1, b1⟩ := (hf x).2 y hy
    obtain ⟨o2, l2, b2⟩ := (hg y).2 z hz
    refine ⟨⟨o1, by rw [← l1]; exact o2⟩, by rw [l2, l1], fun p hp => ?_⟩
    rw [b2 p (by omega), b1 p hp]
    show overlayByte (wg p) (overlayByte (wf p) x[p]?)
      = overlayByte (overlayByte (wg p) (wf p)) x[p]?
    cases wg p <;> cases wf p <;> rfl

theorem constWrite_ite (c : Prop) [Decidable c] {f g : List Byte → Option (List Byte)}
    (hf : ConstWrite f) (hg : ConstWrite g) : ConstWrite (fun x => if c then f x else g x) := by
  by_cases h : c
  · simpa only [h, if_true] using hf
  · simpa only [h, if_false] using hg

/-- A pass that writes fixed bytes at fixed positions leaves its own result as it is. -/
theorem ConstWrite.idem {f : List Byte → Option (List Byte)} (hf : ConstWrite f)
    {x y : List Byte} (h : f x = some y) : f y = some y := by
  obtain ⟨ok, w, hf⟩ := hf
  obtain ⟨o1, l1, b1⟩ := (hf x).2 y h
  obtain ⟨z, hz⟩ := (hf y).1 (by rw [l1]; exact o1)
  obtain ⟨-, l2, b2⟩ := (hf y).2 z hz
  rw [hz]
  congr 1
  apply List.ext_getElem?
  intro p
  by_cases hp : p < y.length
  · rw [b2 p hp, b1 p (by omega)]
    cases w p <;> rfl
  · rw [List.getElem?_eq_none (by omega), List.getElem?_eq_none (by omega)]

theorem constWrite_zeroLeadTrail (bpf : Nat) (dsfo rsf des : Int) :
    ConstWrite (fun a => zeroLeadTrail a bpf dsfo rsf des) := by
  unfold zeroLeadTrail
  exact constWrite_bind (constWrite_ite _ (constWrite_memsetZero _ _) constWrite_some)
    (constWrite_ite _ (constWrite_memsetZero _ _) constWrite_some)

theorem constWrite_wrapRead (dsb : Int) (ring : List Byte) (CB : Nat) (o0 o1 : Int) :
    ConstWrite (fun a => wrapRead a dsb ring CB o0 o1) := by
  unfold wrapRead
  exact constWrite_ite _ (constWrite_memcpy _ _ _ _)
    (constWrite_bind (constWrite_memcpy _ _ _ _) (constWrite_memcpy _ _ _ _))

/-- The two passes of `Fetch` over the caller's buffers (zeroing outside the clipped
range, copying from circular storage) followed by the stamping of the byte size, run
again on their own result, return that result. -/
theorem fetch_passes_idem (abl : AudioBufferList) (bpf : Nat) (d1 d2 d3 dsb : Int)
    (buffers : List (List Byte)) (CB : Nat) (o0 o1 : Int) (zeroed copied : AudioBufferList)
    (nb : Int) (hz : zeroOutside abl bpf d1 d2 d3 = some zeroed)
    (hcp : fetchFrames zeroed dsb buffers CB o0 o1 = some (nb, copied)) :
    ∃ zeroed' copied', zeroOutside (setDataByteSize copied nb) bpf d1 d2 d3 = some zeroed' ∧
      fetchFrames zeroed' dsb buffers CB o0 o1 = some (nb, copied') ∧
      setDataByteSize copied' nb = setDataByteSize copied nb := by
  obtain ⟨hzl, hzc⟩ := (zeroOutside_iff abl bpf d1 d2 d3 zeroed).mp hz
  obtain ⟨hnb, hbl, hcl, hcc⟩ := (fetchFrames_iff zeroed dsb buffers CB o0 o1 nb copied).mp hcp
  have hol : (setDataByteSize copied nb).length = abl.length := by
    simp [setDataByteSize, hcl, hzl]
  -- what the passes do on one channel
  have key : ∀ (c : Nat) (a : AudioBuffer), abl[c]? = some a →
      ∃ b z r, buffers[c]? = some b ∧ zeroLeadTrail a.mData bpf d1 d2 d3 = some z ∧
        wrapRead z dsb b CB o0 o1 = some r ∧
        (setDataByteSize copied nb)[c]? = some ⟨toUInt32 nb, r⟩ := by
    intro c a ha
    have hca : c < abl.length := by
      by_contra hcon
      rw [List.getElem?_eq_none (by omega)] at ha
      exact absurd ha (by simp)
    obtain ⟨zc, hzc1⟩ : ∃ zc, zeroed[c]? = some zc := ⟨_, List.getElem?_eq_getElem (by omega)⟩
    obtain ⟨cc, hcc1⟩ : ∃ cc, copied[c]? = some cc := ⟨_, List.getElem?_eq_getElem (by omega)⟩
    obtain ⟨b, hb⟩ : ∃ b, buffers[c]? = some b := ⟨_, List.getElem?_eq_getElem (by omega)⟩
    have h1 := hzc c
    rw [hzc1, ha] at h1
    simp only [zeroAblChan] at h1
    obtain ⟨z, hz1, hz2⟩ := Option.map_eq_some'.mp h1.symm
    have h2 := hcc c
    rw [hcc1, hzc1, hb] at h2
    simp only [fetchChan] at h2
    obtain ⟨r, hr1, hr2⟩ := Option.map_eq_some'.mp h2.symm
    refine ⟨b, z, r, hb, hz1, ?_, ?_⟩
    · rw [← hz2] at hr1; exact hr1
    · rw [getElem?_setDataByteSize, hcc1, ← hr2, ← hz2]; rfl
  -- the same passes on the result of one channel
  have key2 : ∀ (c : Nat) (a : AudioBuffer), abl[c]? = some a →
      ∃ b z' r, buffers[c]? = some b ∧
        (setDataByteSize copied nb)[c]? = some ⟨toUInt32 nb, r⟩ ∧
        zeroLeadTrail r bpf d1 d2 d3 = some z' ∧ wrapRead z' dsb b CB o0 o1 = some r := by
    intro c a ha
    obtain ⟨b, z, r, hb, hz1, hr1, ho⟩ := key c a ha
    have hcw := constWrite_bind (constWrite_zeroLeadTrail bpf d1 d2 d3)
      (constWrite_wrapRead dsb b CB o0 o1)
    have hF : (zeroLeadTrail a.mData bpf d1 d2 d3).bind (fun z => wrapRead z dsb b CB o0 o1)
        = some r := by rw [hz1]; exact hr1
    have hI := hcw.idem hF
    obtain ⟨z', hz', hr'⟩ := Option.bind_eq_some.mp hI
    exact ⟨b, z', r, hb, ho, hz', hr'⟩
  have hout : ∀ (c : Nat) (o : AudioBuffer), (setDataByteSize copied nb)[c]? = some o →
      ∃ a, abl[c]? = some a := by
    intro c o ho
    have hco : c < abl.length := by
      by_contra hcon
      rw [List.getElem?_eq_none (by omega)] at ho
      exact absurd ho (by simp)
    exact ⟨_, List.getElem?_eq_getElem hco⟩
  -- the zeroing pass on the result
  obtain ⟨zeroed', hz'⟩ := AblPass_exists (fun a => zeroLeadTrail a bpf d1 d2 d3)
    (setDataByteSize copied nb) (fun o ho => by
      obtain ⟨c, hc⟩ := List.getElem?_of_mem ho
      obtain ⟨a, ha⟩ := hout c o hc
      obtain ⟨b, z', r, -, ho2, hz2, -⟩ := key2 c a ha
      rw [hc] at ho2
      obtain rfl := Option.some.inj ho2
      exact ⟨z', hz2⟩)
  have hz'l := hz'.1
  -- the copy pass on the result
  obtain ⟨copied', hc'l, hc'c⟩ := exists_list_getElem? abl.length
    (fun c => fetchChan (fun a b => wrapRead a dsb b CB o0 o1) zeroed'[c]? buffers[c]?)
    (fun c hc => by
      obtain ⟨b, z', r, hb, ho2, hz2, hr2⟩ := key2 c _ (List.getElem?_eq_getElem hc)
      have h1 := hz'.2 c
      rw [ho2] at h1
      simp only [zeroAblChan, hz2, Option.map_some'] at h1
      simp only [h1, hb, fetchChan, hr2, Option.map_some']
      exact ⟨_, rfl⟩)
    (fun c hc => by
      simp only [List.getElem?_eq_none (show zeroed'.length ≤ c by omega), fetchChan])
  refine ⟨zeroed', copied', (zeroOutside_iff _ bpf d1 d2 d3 zeroed').mpr hz', ?_, ?_⟩
  · exact (fetchFrames_iff zeroed' dsb buffers CB o0 o1 nb copied').mpr
      ⟨hnb, by omega, by omega, hc'c⟩
  · apply List.ext_getElem?
    intro c
    by_cases hc : c < abl.length
    · obtain ⟨b, z', r, hb, ho2, hz2, hr2⟩ := key2 c _ (List.getElem?_eq_getElem hc)
      have h1 := hz'.2 c
      rw [ho2] at h1
      simp only [zeroAblChan, hz2, Option.map_some'] at h1
      rw [ho2, getElem?_setDataByteSize, hc'c c, h1, hb]
      simp only [fetchChan, hr2, Option.map_some']
    · have l1 : (setDataByteSize copied' nb).length = copied'.length := by
        simp [setDataByteSize]
      rw [List.getElem?_eq_none (by omega), List.getElem?_eq_none (by omega)]

/-- The body of `Fetch` in terms of the results of its two calls of `ClipTimeBounds`,
on any object state. -/
theorem Fetch_unfold (rb : CARingBuffer) (abl : AudioBufferList) (m : Nat) (s : Int)
    (e1 s1 t1 e2 s2 t2 : Int) (hc : rb.ClipTimeBounds s (s + m) = (e1, s1, t1))
    (hc2 : rb.ClipTimeBounds s1 t1 = (e2, s2, t2)) :
    rb.Fetch abl m s =
      if e1 ≠ 0 ∧ t1 - s1 ≤ 0 then some (e1, abl)
      else
        (zeroOutside abl rb.mBytesPerFrame (toSInt32 (s1 - s)) (t1 - s1)
          (toSInt32 (s + m - t1))).bind fun zeroed =>
          (fetchFrames zeroed (toSInt32 (toSInt32 (s1 - s) * rb.mBytesPerFrame)) rb.mBuffers
            rb.mCapacityBytes (toSInt32 (rb.FrameOffset s1))
            (toSInt32 (rb.FrameOffset t1))).bind fun r =>
            some (worse e1 e2, setDataByteSize r.2 r.1) := by
  unfold Fetch
  simp only [hc, hc2, ite_self]

/-- C23: `Fetch` is read-only on the ring. `Fetch` is a function of the object state that
hands back a status and the caller's buffers and no new object state (no statement of
`Fetch`, `ClipTimeBounds` or `GetTimeBounds` assigns to the channel storage, to a slot of
the bounds history or to the published counter), so a second call finds the same
storage, bounds history and counter; and for every object state and every request (any
frame count and start time, any returned status) the second of two consecutive
identical `Fetch` calls, run on the buffers as the first call left them, returns the
same status and leaves the same output. -/
theorem Fetch_read_only (rb : CARingBuffer) (abl : AudioBufferList) (m : Nat) (s : Int)
    (err : Int) (out : AudioBufferList) (hf : rb.Fetch abl m s = some (err, out)) :
    rb.Fetch out m s = some (err, out) := by
  obtain ⟨e1, s1, t1, hc⟩ : ∃ e1 s1 t1, rb.ClipTimeBounds s (s + m) = (e1, s1, t1) :=
    ⟨_, _, _, rfl⟩
  obtain ⟨e2, s2, t2, hc2⟩ : ∃ e2 s2 t2, rb.ClipTimeBounds s1 t1 = (e2, s2, t2) :=
    ⟨_, _, _, rfl⟩
  rw [Fetch_unfold rb abl m s e1 s1 t1 e2 s2 t2 hc hc2] at hf
  rw [Fetch_unfold rb out m s e1 s1 t1 e2 s2 t2 hc hc2]
  by_cases he : e1 ≠ 0 ∧ t1 - s1 ≤ 0
  · rw [if_pos he] at hf ⊢
    obtain ⟨rfl, rfl⟩ := Prod.mk.inj (Option.some.inj hf)
    rfl
  · rw [if_neg he] at hf ⊢
    obtain ⟨zeroed, hz, hf⟩ := Option.bind_eq_some.mp hf
    obtain ⟨⟨nb, copied⟩, hcp, hf⟩ := Option.bind_eq_some.mp hf
    obtain ⟨rfl, rfl⟩ := Prod.mk.inj (Option.some.inj hf)
    obtain ⟨zeroed', copied', hz', hcp', heq⟩ := fetch_passes_idem abl rb.mBytesPerFrame _ _ _ _
      rb.mBuffers rb.mCapacityBytes _ _ zeroed copied nb hz hcp
    simp only [hz', Option.some_bind, hcp', heq]

theorem Fetch_read_only_witness :
    smallStored.Fetch [⟨4, [0, 0, 0, 0, 1, 2]⟩, ⟨4, [0, 0, 0, 0, 11, 12]⟩] 3 0
      = some (kCARingBufferError_SlightlyBehind,
          [⟨4, [0, 0, 0, 0, 1, 2]⟩, ⟨4, [0, 0, 0, 0, 11, 12]⟩]) :=
  Fetch_read_only smallStored smallOut 3 0 _ _ (by decide)

/-- C21: snapshot consistency without contention. On every object state reached by
`Allocate` followed by any sequence of `Store` calls, the slot of the bounds history at
index `version mod historySize` carries an update counter equal to the published
`version`, so the loop of `GetTimeBounds` returns `OK` on its first try (a single
iteration suffices) and `GetTimeBounds` never returns `CPUOverload`; the pair it returns
is the one most recently published: after any publish `SetTimeBounds(s0, e0)` it is
`(s0, e0)`, and after a `Store(_, n, t)` that returns `OK` it is the window start
published by `Store` together with `t + n`. -/
theorem GetTimeBounds_snapshot (rb : CARingBuffer) (hr : Reachable rb) :
    (∃ b : TimeBounds,
      rb.mTimeBoundsQueue[rb.mTimeBoundsQueuePtr % kGeneralRingTimeBoundsQueueSize]? = some b ∧
      b.mUpdateCounter = rb.mTimeBoundsQueuePtr ∧
      (∀ startTime endTime : Int, rb.GetTimeBoundsLoop 1 startTime endTime
        = (kCARingBufferError_OK, b.mStartTime, b.mEndTime)) ∧
      (∀ startTime endTime : Int, rb.GetTimeBounds startTime endTime
        = (kCARingBufferError_OK, b.mStartTime, b.mEndTime))) ∧
    (∀ startTime endTime : Int,
      (rb.GetTimeBounds startTime endTime).1 ≠ kCARingBufferError_CPUOverload) ∧
    (∀ s0 e0 startTime endTime : Int,
      (rb.SetTimeBounds s0 e0).GetTimeBounds startTime endTime
        = (kCARingBufferError_OK, s0, e0)) ∧
    (∀ (abl : AudioBufferList) (n : Nat) (t : Int) (rb' : CARingBuffer),
      rb.Store abl n t = some (kCARingBufferError_OK, rb') →
      ∀ startTime endTime : Int, rb'.GetTimeBounds startTime endTime
        = (kCARingBufferError_OK,
            if t < rb.EndTime then t
            else if t + n - rb.StartTime ≤ rb.mCapacityFrames then rb.StartTime
            else t + n - rb.mCapacityFrames,
            t + n)) := by
  have hq := hr.queueInv
  refine ⟨⟨rb.currentBounds, hq.slot, hq.counter, fun s e => ?_, fun s e => ?_⟩,
    fun s e => ?_, fun s0 e0 s e => ?_, fun abl n t rb' hs s e => ?_⟩
  · simp [GetTimeBoundsLoop, hq.counter]
  · rw [hq.getTimeBounds]; rfl
  · rw [hq.getTimeBounds]
    show kCARingBufferError_OK ≠ kCARingBufferError_CPUOverload
    decide
  · have hc := currentBounds_SetTimeBounds rb s0 e0 hq.queue_length
    simp [GetTimeBounds, GetTimeBoundsLoop, hc]
  · rcases Store_err hs with ⟨h1, -, -⟩ | ⟨-, hn⟩
    · exact absurd h1 (by decide)
    obtain ⟨b1, b2⟩ := Store_bounds hq hn hs
    rw [(hq.store_queue hs).getTimeBounds, b1, b2]

theorem GetTimeBounds_snapshot_witness :
    smallStored.mTimeBoundsQueuePtr = 2 ∧
    smallStored.GetTimeBoundsLoop 1 0 0 = (kCARingBufferError_OK, 1, 5) := by
  obtain ⟨⟨b, hb, -, h1, -⟩, -⟩ := GetTimeBounds_snapshot smallStored smallStored_reachable
  have hslot : smallStored.mTimeBoundsQueue[
      smallStored.mTimeBoundsQueuePtr % kGeneralRingTimeBoundsQueueSize]? = some ⟨1, 5, 2⟩ := by
    decide
  rw [hslot] at hb
  obtain rfl := Option.some.inj hb
  exact ⟨by decide, h1 0 0⟩

/-- After a returning `Store` of `n ≥ 1` frames at `t`, a frame time that lies less than
one capacity before the new end and before the end of the adjusted window keeps its
bytes in every channel: its slot is neither written nor zeroed. -/
theorem Store_frame_kept {rb rb' : CARingBuffer} (wf : WellFormed rb)
    {abl : AudioBufferList} {n : Nat} {t : Int} {err : Int} (hn : n ≤ rb.mCapacityFrames)
    (hn1 : 1 ≤ n) (hs : rb.Store abl n t = some (err, rb')) (c : Nat) (b : List Byte)
    (hb : rb.mBuffers[c]? = some b) (τ : Int) (j : Nat)
    (hτ0 : t + n - rb.mCapacityFrames ≤ τ) (hτ1 : τ < (rb.adjustBounds n t).EndTime)
    (hj : j < rb.mBytesPerFrame) :
    ∃ b', rb'.mBuffers[c]? = some b' ∧
      b'[rb.byteOffset τ + j]? = b[rb.byteOffset τ + j]? := by
  have hw := adjustBounds_window wf.wfQueue n t hn
  have hp := wf.byte_lt τ j hj
  refine Store_other_bytes_kept wf hn hn1 hs c b hb _ hp ?_ ?_
  · have hi : (τ - t + rb.mCapacityFrames).toNat < rb.mCapacityFrames := by omega
    have e1 : t + ((τ - t + rb.mCapacityFrames).toNat : Int) = τ + rb.mCapacityFrames := by
      omega
    have hrel := wf.wfSized.wrapRel_byteOffset t (τ - t + rb.mCapacityFrames).toNat j hi hj
    rw [e1, byteOffset_add_cap, ← wf.capacityBytes_eq_prod] at hrel
    rw [hrel]
    exact frame_byte_ge _ n j _ (by omega)
  · generalize (rb.adjustBounds n t).EndTime = E1 at hτ1 hw
    rintro ⟨hlt, hcon⟩
    have hi2 : (τ - E1 + rb.mCapacityFrames).toNat < rb.mCapacityFrames := by omega
    have e2 : E1 + ((τ - E1 + rb.mCapacityFrames).toNat : Int) = τ + rb.mCapacityFrames := by
      omega
    have hrel2 := wf.wfSized.wrapRel_byteOffset E1 (τ - E1 + rb.mCapacityFrames).toNat j hi2 hj
    rw [e2, byteOffset_add_cap, ← wf.capacityBytes_eq_prod] at hrel2
    rw [hrel2] at hcon
    have hge := frame_byte_ge (τ - E1 + rb.mCapacityFrames).toNat (t - E1).toNat j
      rb.mBytesPerFrame (by omega)
    omega

/-- C22: retention across `Store`. On every allocated buffer (reached from `Allocate`,
with a storage size that fits an `int`), for every `Store(_, n, t)` that returns `OK`
with `n ≥ 1` and `t` not before the current end time, every frame time `τ` with
`new window start ≤ τ < previous endTime` was inside the valid window before the call and
is inside it afterwards, keeps its stored bytes in every channel, and a `Fetch` that
covers `τ` returns for it the same bytes after the `Store` as before it. -/
theorem Store_retention (rb : CARingBuffer) (hr : Reachable rb) (hz : Sized rb)
    (abl : AudioBufferList) (n : Nat) (t : Int) (rb' : CARingBuffer) (hn1 : 1 ≤ n)
    (hfwd : rb.EndTime ≤ t) (hs : rb.Store abl n t = some (kCARingBufferError_OK, rb'))
    (τ : Int) (hτ0 : rb'.StartTime ≤ τ) (hτ1 : τ < rb.EndTime) :
    (rb.StartTime ≤ τ ∧ τ < rb.EndTime) ∧ (rb'.StartTime ≤ τ ∧ τ < rb'.EndTime) ∧
    (∀ (c : Nat) (b : List Byte), rb.mBuffers[c]? = some b →
      ∃ b', rb'.mBuffers[c]? = some b' ∧ ∀ j : Nat, j < rb.mBytesPerFrame →
        b'[rb.byteOffset τ + j]? = b[rb.byteOffset τ + j]?) ∧
    ∀ (out1 out2 r1 r2 : AudioBufferList) (m : Nat) (s err1 err2 : Int), m < 2147483648 →
      m * rb.mBytesPerFrame < 2147483648 → s ≤ τ → τ < s + m →
      rb.Fetch out1 m s = some (err1, r1) → rb'.Fetch out2 m s = some (err2, r2) →
      ∀ (c : Nat) (o1 o2 : AudioBuffer), r1[c]? = some o1 → r2[c]? = some o2 →
        ∀ j : Nat, j < rb.mBytesPerFrame →
          o2.mData[(τ - s).toNat * rb.mBytesPerFrame + j]?
            = o1.mData[(τ - s).toNat * rb.mBytesPerFrame + j]? := by
  have wf := hr.wellFormed hz
  have wf' := wf.store_wellFormed hs
  rcases Store_err hs with ⟨h1, -, -⟩ | ⟨-, hn⟩
  · exact absurd h1 (by decide)
  obtain ⟨b1, b2⟩ := Store_bounds wf.wfQueue hn hs
  have hE1 := adjustBounds_EndTime_forward wf.wfQueue hn hfwd hs
  obtain ⟨f1, f2, f3, f4⟩ := Store_fields hs
  have hwin' := wf'.wfQueue.window_le
  rw [b1, f3] at hwin'
  have hS : rb.StartTime ≤ rb'.StartTime := by
    rw [b2, if_neg (by omega)]
    split_ifs <;> omega
  have hin : rb.StartTime ≤ τ ∧ τ < rb.EndTime := ⟨by omega, hτ1⟩
  have hin' : rb'.StartTime ≤ τ ∧ τ < rb'.EndTime := ⟨hτ0, by rw [b1]; omega⟩
  have hkept : ∀ (c : Nat) (b : List Byte), rb.mBuffers[c]? = some b →
      ∃ b', rb'.mBuffers[c]? = some b' ∧ ∀ j : Nat, j < rb.mBytesPerFrame →
        b'[rb.byteOffset τ + j]? = b[rb.byteOffset τ + j]? := by
    intro c b hb
    have hcb : c < rb'.mBuffers.length := by
      rw [wf'.wfStorage.channels, f1, ← wf.wfStorage.channels]
      by_contra hcon
      rw [List.getElem?_eq_none (by omega)] at hb
      exact absurd hb (by simp)
    refine ⟨_, List.getElem?_eq_getElem hcb, fun j hj => ?_⟩
    obtain ⟨b', hb', hbyte⟩ := Store_frame_kept wf hn hn1 hs c b hb τ j (by omega)
      (by rw [hE1]; exact lt_of_lt_of_le hτ1 (le_max_left _ _)) hj
    rw [List.getElem?_eq_getElem hcb] at hb'
    obtain rfl := Option.some.inj hb'
    exact hbyte
  refine ⟨hin, hin', hkept, ?_⟩
  intro out1 out2 r1 r2 m s err1 err2 hm hmb hs0 hs1 hf1 hf2 c o1 o2 ho1 ho2 j hj
  have hne := clip_overlap rb.StartTime rb.EndTime s m τ wf.wfQueue.start_le_end hin.1 hin.2
    hs0 hs1
  have hne' := clip_overlap rb'.StartTime rb'.EndTime s m τ wf'.wfQueue.start_le_end hin'.1
    hin'.2 hs0 hs1
  have hmb' : m * rb'.mBytesPerFrame < 2147483648 := by rw [f2]; exact hmb
  have hj' : j < rb'.mBytesPerFrame := by rw [f2]; exact hj
  obtain ⟨-, -, hl1, -⟩ := Fetch_spec wf (Or.inl hm) hmb hne hf1
  obtain ⟨-, -, hl2, -⟩ := Fetch_spec wf' (Or.inl hm) hmb' hne' hf2
  have hc1 : c < out1.length := by
    rw [← hl1]
    by_contra hcon
    rw [List.getElem?_eq_none (by omega)] at ho1
    exact absurd ho1 (by simp)
  have hc2 : c < out2.length := by
    rw [← hl2]
    by_contra hcon
    rw [List.getElem?_eq_none (by omega)] at ho2
    exact absurd ho2 (by simp)
  obtain ⟨b, p1, hb, hp1, -, -, hbyte1⟩ := Fetch_frame wf (Or.inl hm) hmb hne hf1 c _
    (List.getElem?_eq_getElem hc1) (τ - s).toNat j (by omega) hj
  obtain ⟨b', p2, hb', hp2, -, -, hbyte2⟩ := Fetch_frame wf' (Or.inl hm) hmb' hne' hf2 c _
    (List.getElem?_eq_getElem hc2) (τ - s).toNat j (by omega) hj'
  rw [ho1] at hp1
  rw [ho2] at hp2
  obtain rfl := Option.some.inj hp1
  obtain rfl := Option.some.inj hp2
  have e : s + ((τ - s).toNat : Int) = τ := by omega
  rw [e, if_pos hin] at hbyte1
  rw [e, if_pos hin', byteOffset_congr f3 f2, f2] at hbyte2
  obtain ⟨b2', hb2', hk⟩ := hkept c b hb
  rw [hb'] at hb2'
  obtain rfl := Option.some.inj hb2'
  rw [hbyte1, hbyte2]
  exact hk j hj

theorem Store_retention_witness :
    (smallStored.Store smallFull 1 5).map
        (fun r => (r.1, r.2.mBuffers, r.2.StartTime, r.2.EndTime))
      = some (kCARingBufferError_OK,
          [[5, 6, 1, 2, 1, 2, 3, 4], [15, 16, 11, 12, 11, 12, 13, 14]], 2, 6) ∧
    (smallStored.StartTime ≤ 4 ∧ 4 < smallStored.EndTime) ∧
    smallStored.mBuffers = [[5, 6, 0, 0, 1, 2, 3, 4], [15, 16, 0, 0, 11, 12, 13, 14]] := by
  have hst : smallStored.Store smallFull 1 5
      = some (kCARingBufferError_OK, stateAfter (smallStored.Store smallFull 1 5)) := by
    decide
  exact ⟨by decide,
    (Store_retention smallStored smallStored_reachable smallStored_sized smallFull 1 5 _
      (by decide) (by decide) hst 4 (by decide) (by decide)).1, by decide⟩

end CARingBuffer

/-! ## The synchronizer: conversions, silence and the miss correction -/

namespace CAPlayThrough

open CARingBuffer

theorem toSInt64_intCast (k : Int) : toSInt64 (k : ℚ) = k := by
  unfold toSInt64
  simp

/-- `MakeBufferSilent` returns when every recorded size lies within its buffer, and
leaves the sizes and the lengths of the buffers as they are. -/
theorem MakeBufferSilent_exists (ioData : AudioBufferList) (hv : SizesValid ioData) :
    ∃ r, MakeBufferSilent ioData = some r ∧ SizesValid r ∧ r.length = ioData.length := by
  induction ioData with
  | nil => exact ⟨[], rfl, fun a ha => absurd ha (List.not_mem_nil a), rfl⟩
  | cons b rest ih =>
    obtain ⟨r, hr, hvr, hlr⟩ := ih (fun a ha => hv a (List.mem_cons_of_mem _ ha))
    have hb := hv b (List.mem_cons_self _ _)
    obtain ⟨d, hd⟩ : ∃ d, memsetZero b.mData 0 b.mDataByteSize = some d := by
      unfold memsetZero
      rw [if_pos ⟨le_refl _, by omega, by omega⟩]
      exact ⟨_, rfl⟩
    refine ⟨{ b with mData := d } :: r, ?_, ?_, by simp [hlr]⟩
    · simp only [MakeBufferSilent, hd, hr]
    · intro a ha
      rcases List.mem_cons.mp ha with rfl | ha
      · show b.mDataByteSize ≤ d.length
        rw [memsetZero_length hd]
        exact hb
      · exact hvr a ha

/-- The recorded sizes of the buffers that `Fetch` hands back lie within the buffers. -/
theorem Fetch_sizesValid {rb : CARingBuffer} (wf : WellFormed rb) {abl out : AudioBufferList}
    {m : Nat} {s : Int} {err : Int} (hm : m < 2147483648)
    (hmb : m * rb.mBytesPerFrame < 2147483648) (hv : SizesValid abl)
    (hf : rb.Fetch abl m s = some (err, out)) : SizesValid out := by
  by_cases hne : clipStatus rb.StartTime rb.EndTime s (s + m) ≠ 0 ∧
      clipEnd rb.StartTime rb.EndTime s (s + m)
        - clipStart rb.StartTime rb.EndTime s (s + m) ≤ 0
  · obtain ⟨rfl, hcase⟩ := (Fetch_eq_some_iff wf.wfQueue abl m s err out).mp hf
    rcases hcase with ⟨-, -, rfl⟩ | ⟨h, -⟩
    · exact hv
    · exact absurd hne h
  · obtain ⟨h1, h2, h3, h4⟩ := Fetch_spec wf (Or.inl hm) hmb hne hf
    obtain ⟨k1, -, -, -, -, k6, -⟩ := fetch_counts wf.wfQueue m s hne
    intro o ho
    obtain ⟨c, hc⟩ := List.getElem?_of_mem ho
    have hco : c < out.length := by
      by_contra hcon
      rw [List.getElem?_eq_none (by omega)] at hc
      exact absurd hc (by simp)
    obtain ⟨a, ha⟩ : ∃ a, abl[c]? = some a := ⟨_, List.getElem?_eq_getElem (by omega)⟩
    obtain ⟨b, hb⟩ : ∃ b, rb.mBuffers[c]? = some b :=
      ⟨_, List.getElem?_eq_getElem (by rw [wf.wfStorage.channels]; omega)⟩
    obtain ⟨d, hd, hdl, -⟩ := h4 c a b ha hb
    rw [hc] at hd
    obtain rfl := Option.some.inj hd
    show rb.spanBytes (rb.fetchLen m s) ≤ d.length
    rw [hdl]
    refine le_trans ?_ (h2 a (List.getElem?_mem ha))
    unfold spanBytes
    by_cases h0 : rb.fetchLen m s = 0
    · rw [if_pos h0, if_pos (k6 h0)]
    · rw [if_neg h0, if_neg (by omega)]
      exact Nat.mul_le_mul_right _ (by omega)

/-- The correction block of `OutputProc` on a buffer whose bounds history is consistent:
it returns when the recorded sizes lie within the buffers, adds to the sample offset
`max(x - validStart, 128)` for a status below `OK` and `max(x + n - validEnd, 128)` for
a status above `OK`, where `x` is the read position `mSampleTime - mInToOutSampleOffset`,
and leaves every other member as it is. -/
theorem correctMiss_spec (This : CAPlayThrough) (err : Int) (mSampleTime : ℚ)
    (inNumberFrames : Nat) (ioData : AudioBufferList) (hq : QueueInv This.mBuffer)
    (hv : SizesValid ioData) (he : err ≠ kCARingBufferError_OK) :
    ∃ out, correctMiss This err mSampleTime inNumberFrames ioData =
      some ({ This with
          mInToOutSampleOffset := This.mInToOutSampleOffset +
            if err < kCARingBufferError_OK then
              max ((mSampleTime - This.mInToOutSampleOffset) - This.mBuffer.StartTime)
                kAdjustmentOffsetSamples
            else
              max (((mSampleTime - This.mInToOutSampleOffset) + inNumberFrames)
                - This.mBuffer.EndTime) kAdjustmentOffsetSamples },
        out) := by
  unfold correctMiss
  rw [hq.getTimeBounds]
  obtain ⟨r1, hr1, hv1, -⟩ := MakeBufferSilent_exists ioData hv
  obtain ⟨r2, hr2, -, -⟩ := MakeBufferSilent_exists r1 hv1
  obtain ⟨r3, hr3, -, -⟩ := MakeBufferSilent_exists ioData hv
  by_cases hlt : err < kCARingBufferError_OK
  · simp only [hlt, if_true]
    by_cases hw : err = kCARingBufferError_WayBehind
    · simp only [hw, if_true, hr1, Option.map_some', Option.some_bind, hr2]
      exact ⟨_, rfl⟩
    · simp only [hw, if_false, Option.map_some', Option.some_bind, hr3]
      exact ⟨_, rfl⟩
  · have hgt : err > kCARingBufferError_OK := by
      have : err ≠ kCARingBufferError_OK := he
      omega
    simp only [hlt, if_false, hgt, if_true]
    by_cases hw : err = kCARingBufferError_WayAhead
    · simp only [hw, if_true, hr1, Option.map_some', Option.some_bind, hr2]
      exact ⟨_, rfl⟩
    · simp only [hw, if_false, Option.map_some', Option.some_bind, hr3]
      exact ⟨_, rfl⟩

/-- The conversion to `SInt64` rounds toward zero: down for a nonnegative value, up for
a negative one. -/
theorem toSInt64_eq (x : ℚ) : toSInt64 x = if 0 ≤ x then ⌊x⌋ else ⌈x⌉ := by
  unfold toSInt64
  split_ifs with h
  · rw [Rat.floor_def, Int.tdiv_eq_ediv (Rat.num_nonneg.mpr h) (Int.ofNat_nonneg _)]
  · have hneg : 0 ≤ -x := by linarith
    have hc : ⌈x⌉ = -⌊-x⌋ := by rw [Int.floor_neg, neg_neg]
    rw [hc, Rat.floor_def, Rat.neg_num, Rat.neg_den]
    have hn : 0 ≤ -x.num := by
      have := Rat.num_nonneg.mpr hneg
      rwa [Rat.neg_num] at this
    rw [← Int.tdiv_eq_ediv hn (Int.ofNat_nonneg _), Int.neg_tdiv, neg_neg]

theorem le_toSInt64 (S : Int) (x : ℚ) (h : (S : ℚ) ≤ x) : S ≤ toSInt64 x := by
  rw [toSInt64_eq]
  split_ifs
  · exact Int.le_floor.mpr h
  · exact Int.le_ceil_iff.mpr (by linarith)

theorem toSInt64_le (S : Int) (x : ℚ) (h : x ≤ (S : ℚ)) : toSInt64 x ≤ S := by
  rw [toSInt64_eq]
  split_ifs
  · exact Int.floor_le_iff.mpr (by linarith)
  · exact Int.ceil_le.mpr h

/-- The consumer tick of `OutputProc` once both first times are recorded: `Fetch` at
the read position `mSampleTime - mInToOutSampleOffset` converted to `SInt64`; on `OK`
the object is left as it is, on any other status the correction is added to the sample
offset. The callback returns when the buffers hold the requested frames and their
recorded sizes lie within them. -/
theorem OutputProc_locked_spec (This : CAPlayThrough) (mSampleTime : ℚ) (inNumberFrames : Nat)
    (ioData : AudioBufferList) (hin : 0 ≤ This.mFirstInputTime)
    (hout : 0 ≤ This.mFirstOutputTime) (hr : Reachable This.mBuffer)
    (hz : Sized This.mBuffer) (hm : inNumberFrames < 2147483648)
    (hmb : inNumberFrames * This.mBuffer.mBytesPerFrame < 2147483648)
    (hlen : ioData.length ≤ This.mBuffer.mNumberChannels)
    (habl : ∀ a ∈ ioData, This.mBuffer.spanBytes inNumberFrames ≤ a.mData.length)
    (hv : SizesValid ioData) :
    ∃ status fetched,
      This.mBuffer.Fetch ioData inNumberFrames
        (toSInt64 (mSampleTime - This.mInToOutSampleOffset)) = some (status, fetched) ∧
      status = clipStatus This.mBuffer.StartTime This.mBuffer.EndTime
        (toSInt64 (mSampleTime - This.mInToOutSampleOffset))
        (toSInt64 (mSampleTime - This.mInToOutSampleOffset) + inNumberFrames) ∧
      (status = kCARingBufferError_OK →
        This.OutputProc 0 mSampleTime inNumberFrames ioData = some (This, fetched)) ∧
      (status ≠ kCARingBufferError_OK →
        ∃ out, This.OutputProc 0 mSampleTime inNumberFrames ioData =
          some ({ This with
              mInToOutSampleOffset := This.mInToOutSampleOffset +
                if status < kCARingBufferError_OK then
                  max ((mSampleTime - This.mInToOutSampleOffset) - This.mBuffer.StartTime)
                    kAdjustmentOffsetSamples
                else
                  max (((mSampleTime - This.mInToOutSampleOffset) + inNumberFrames)
                    - This.mBuffer.EndTime) kAdjustmentOffsetSamples },
            out)) := by
  have wf := hr.wellFormed hz
  obtain ⟨fetched, hf⟩ := Fetch_exists wf ioData inNumberFrames
    (toSInt64 (mSampleTime - This.mInToOutSampleOffset)) (Or.inl hm) hmb hlen habl
  have hvf := Fetch_sizesValid wf hm hmb hv hf
  have hstep : This.OutputProc 0 mSampleTime inNumberFrames ioData =
      (This.mBuffer.Fetch ioData inNumberFrames
        (toSInt64 (mSampleTime - This.mInToOutSampleOffset))).bind fun r =>
        if r.1 ≠ kCARingBufferError_OK then
          correctMiss This r.1 mSampleTime inNumberFrames r.2
        else some (This, r.2) := by
    unfold OutputProc
    rw [if_neg (not_lt.mpr hin), if_neg (by simp), if_neg (not_lt.mpr hout)]
  refine ⟨_, fetched, hf, rfl, fun h0 => ?_, fun h0 => ?_⟩
  · rw [hstep, hf, Option.some_bind, if_neg (not_not.mpr h0)]
  · obtain ⟨out, ho⟩ := correctMiss_spec This _ mSampleTime inNumberFrames fetched
      wf.wfQueue hvf h0
    exact ⟨out, by rw [hstep, hf, Option.some_bind, if_pos h0, ho]⟩

theorem smallOut_sizesValid : SizesValid smallOut := by
  unfold SizesValid
  decide

/-- On a behind miss the first argument of the `max` of the correction is negative, so
the correction is the minimum step: the sample offset grows by 128 and the read
position moves 128 frames further before the valid window. -/
theorem behind_correction (validStart validEnd : Int) (n : Nat) (x : ℚ)
    (hs : clipStatus validStart validEnd (toSInt64 x) (toSInt64 x + n) < kCARingBufferError_OK) :
    x < validStart ∧ max (x - validStart) kAdjustmentOffsetSamples = kAdjustmentOffsetSamples := by
  have hlt : toSInt64 x < validStart := by
    unfold clipStatus kCARingBufferError_TooMuch kCARingBufferError_WayBehind
      kCARingBufferError_SlightlyBehind kCARingBufferError_WayAhead
      kCARingBufferError_SlightlyAhead kCARingBufferError_OK at hs
    split_ifs at hs <;> omega
  have hx : x < validStart := by
    by_contra hcon
    have := le_toSInt64 validStart x (not_lt.mp hcon)
    omega
  refine ⟨hx, max_eq_right ?_⟩
  unfold kAdjustmentOffsetSamples
  linarith

/-- C13: the amount of the miss correction. On a consumer tick of `OutputProc` with both
first times recorded (on an allocated ring buffer, the output buffers holding the
requested frames), `Fetch` is called at the read position
`mSampleTime - mInToOutSampleOffset` converted to `SInt64` (the read position itself
when it is a whole number), and the callback returns with the sample offset
`old + max(128, d)`, where `d = readPosition - validStart` for a status below `OK` and
`d = readPosition + frameCount - validEnd` for a status above `OK`; hence on every
status other than `OK` the offset grows by at least 128, it never decreases, and on
`OK` it is unchanged. -/
theorem OutputProc_miss_correction (This : CAPlayThrough) (mSampleTime : ℚ)
    (inNumberFrames : Nat) (ioData : AudioBufferList) (hin : 0 ≤ This.mFirstInputTime)
    (hout : 0 ≤ This.mFirstOutputTime) (hr : Reachable This.mBuffer)
    (hz : Sized This.mBuffer) (hm : inNumberFrames < 2147483648)
    (hmb : inNumberFrames * This.mBuffer.mBytesPerFrame < 2147483648)
    (hlen : ioData.length ≤ This.mBuffer.mNumberChannels)
    (habl : ∀ a ∈ ioData, This.mBuffer.spanBytes inNumberFrames ≤ a.mData.length)
    (hv : SizesValid ioData) :
    ∃ (status : Int) (fetched : AudioBufferList) (This' : CAPlayThrough)
      (out : AudioBufferList) (validStart validEnd : Int),
      This.mBuffer.Fetch ioData inNumberFrames
        (toSInt64 (mSampleTime - This.mInToOutSampleOffset)) = some (status, fetched) ∧
      This.mBuffer.GetTimeBounds 0 0 = (kCARingBufferError_OK, validStart, validEnd) ∧
      This.OutputProc 0 mSampleTime inNumberFrames ioData = some (This', out) ∧
      (status < kCARingBufferError_OK →
        This'.mInToOutSampleOffset = This.mInToOutSampleOffset +
          max kAdjustmentOffsetSamples
            ((mSampleTime - This.mInToOutSampleOffset) - validStart)) ∧
      (status > kCARingBufferError_OK →
        This'.mInToOutSampleOffset = This.mInToOutSampleOffset +
          max kAdjustmentOffsetSamples
            (((mSampleTime - This.mInToOutSampleOffset) + inNumberFrames) - validEnd)) ∧
      (status = kCARingBufferError_OK →
        This'.mInToOutSampleOffset = This.mInToOutSampleOffset) ∧
      (status ≠ kCARingBufferError_OK →
        This.mInToOutSampleOffset + 128 ≤ This'.mInToOutSampleOffset) ∧
      This.mInToOutSampleOffset ≤ This'.mInToOutSampleOffset ∧
      kAdjustmentOffsetSamples = 128 ∧
      ∀ k : Int, mSampleTime - This.mInToOutSampleOffset = k →
        toSInt64 (mSampleTime - This.mInToOutSampleOffset) = k := by
  obtain ⟨status, fetched, hf, -, h0, h1⟩ := OutputProc_locked_spec This mSampleTime
    inNumberFrames ioData hin hout hr hz hm hmb hlen habl hv
  have hk : ∀ k : Int, mSampleTime - This.mInToOutSampleOffset = k →
      toSInt64 (mSampleTime - This.mInToOutSampleOffset) = k := by
    intro k hk
    rw [hk, toSInt64_intCast]
  by_cases hs : status = kCARingBufferError_OK
  · refine ⟨status, fetched, This, fetched, _, _, hf, hr.queueInv.getTimeBounds 0 0, h0 hs,
      fun h => ?_, fun h => ?_, fun _ => rfl, fun h => absurd hs h, le_refl _, rfl, hk⟩
    · rw [hs] at h; exact absurd h (lt_irrefl _)
    · rw [hs] at h; exact absurd h (lt_irrefl _)
  · obtain ⟨out, ho⟩ := h1 hs
    refine ⟨status, fetched, _, out, _, _, hf, hr.queueInv.getTimeBounds 0 0, ho,
      fun h => ?_, fun h => ?_, fun h => absurd h hs, fun _ => ?_, ?_, rfl, hk⟩
    · show This.mInToOutSampleOffset + _ = _
      rw [if_pos h, max_comm]
    · show This.mInToOutSampleOffset + _ = _
      rw [if_neg (by omega), max_comm]
    · show This.mInToOutSampleOffset + 128 ≤ This.mInToOutSampleOffset + _
      have h128 : kAdjustmentOffsetSamples = 128 := rfl
      split_ifs
      · linarith [le_max_right ((mSampleTime - This.mInToOutSampleOffset)
          - (This.mBuffer.StartTime : ℚ)) kAdjustmentOffsetSamples]
      · linarith [le_max_right (((mSampleTime - This.mInToOutSampleOffset) + inNumberFrames)
          - (This.mBuffer.EndTime : ℚ)) kAdjustmentOffsetSamples]
    · show This.mInToOutSampleOffset ≤ This.mInToOutSampleOffset + _
      have h128 : kAdjustmentOffsetSamples = 128 := rfl
      split_ifs
      · linarith [le_max_right ((mSampleTime - This.mInToOutSampleOffset)
          - (This.mBuffer.StartTime : ℚ)) kAdjustmentOffsetSamples]
      · linarith [le_max_right (((mSampleTime - This.mInToOutSampleOffset) + inNumberFrames)
          - (This.mBuffer.EndTime : ℚ)) kAdjustmentOffsetSamples]

theorem OutputProc_miss_correction_witness :
    ∃ This' out, exampleLocked.OutputProc 0 10 3 smallOut = some (This', out) ∧
      exampleLocked.mInToOutSampleOffset ≤ This'.mInToOutSampleOffset := by
  obtain ⟨status, fetched, This', out, vs, ve, -, -, ho, -, -, -, -, hle, -⟩ :=
    OutputProc_miss_correction exampleLocked 10 3 smallOut (by decide) (by decide)
      smallStored_reachable smallStored_sized (by decide) (by decide) (by decide) (by decide)
      smallOut_sizesValid
  exact ⟨This', out, ho, hle⟩

/-- The seed of `ComputeThruOffset` is the sum of the four latencies when the sum is
below `2 ^ 31`, the range of the `SInt32` it is converted to. -/
theorem ComputeThruOffset_seed (This : CAPlayThrough)
    (h : This.mInputDevice.mSafetyOffset + This.mInputDevice.mBufferSizeFrames
      + This.mOutputDevice.mSafetyOffset + This.mOutputDevice.mBufferSizeFrames < 2147483648) :
    This.ComputeThruOffset.mInToOutSampleOffset =
      ((This.mInputDevice.mSafetyOffset + This.mInputDevice.mBufferSizeFrames
        + This.mOutputDevice.mSafetyOffset + This.mOutputDevice.mBufferSizeFrames : Nat) : ℚ) := by
  unfold ComputeThruOffset
  simp only []
  rw [Nat.mod_eq_of_lt (by omega), toSInt32_of_lt _ (Int.ofNat_nonneg _) (by omega)]
  rfl

/-- C14: the first-contact correction. On the first consumer tick after the producer's
first tick (the first input time recorded, the first output time not yet), `OutputProc`
records the tick's sample time as the first output time and sets the sample offset to
`seed - delta`, where `seed` is the value of `ComputeThruOffset` and
`delta = firstProducerTime - firstConsumerTime`, for every `delta`: the branch for
`delta < 0` and the branch for `delta ≥ 0` yield the same value. The seed is the sum
`inputSafetyOffset + inputBufferFrames + outputSafetyOffset + outputBufferFrames` when
the sum is in the range of the `SInt32` that the code converts it to. -/
theorem OutputProc_first_contact (This : CAPlayThrough) (mSampleTime : ℚ)
    (inNumberFrames : Nat) (ioData : AudioBufferList) (hin : 0 ≤ This.mFirstInputTime)
    (hout : This.mFirstOutputTime < 0) (hv : SizesValid ioData) :
    ∃ This' out, This.OutputProc 0 mSampleTime inNumberFrames ioData = some (This', out) ∧
      This'.mFirstOutputTime = mSampleTime ∧
      This'.mFirstInputTime = This.mFirstInputTime ∧
      This'.mBuffer = This.mBuffer ∧
      This'.mInToOutSampleOffset = This.ComputeThruOffset.mInToOutSampleOffset
        - (This.mFirstInputTime - mSampleTime) ∧
      (This.mInputDevice.mSafetyOffset + This.mInputDevice.mBufferSizeFrames
          + This.mOutputDevice.mSafetyOffset + This.mOutputDevice.mBufferSizeFrames
          < 2147483648 →
        This'.mInToOutSampleOffset =
          ((This.mInputDevice.mSafetyOffset + This.mInputDevice.mBufferSizeFrames
            + This.mOutputDevice.mSafetyOffset + This.mOutputDevice.mBufferSizeFrames : Nat) : ℚ)
          - (This.mFirstInputTime - mSampleTime)) := by
  obtain ⟨out, ho, -, -⟩ := MakeBufferSilent_exists ioData hv
  have hoff : ∀ This' r, This.OutputProc 0 mSampleTime inNumberFrames ioData = some (This', r) →
      This'.mFirstOutputTime = mSampleTime ∧ This'.mFirstInputTime = This.mFirstInputTime ∧
      This'.mBuffer = This.mBuffer ∧
      This'.mInToOutSampleOffset = This.ComputeThruOffset.mInToOutSampleOffset
        - (This.mFirstInputTime - mSampleTime) := by
    intro This' r hr
    unfold OutputProc at hr
    rw [if_neg (not_lt.mpr hin), if_neg (by simp), if_pos hout, ho] at hr
    simp only [Option.map_some', Option.some.injEq, Prod.mk.injEq] at hr
    obtain ⟨rfl, -⟩ := hr
    split_ifs
    · exact ⟨rfl, rfl, rfl, rfl⟩
    · refine ⟨rfl, rfl, rfl, ?_⟩
      show -(This.mFirstInputTime - mSampleTime) + This.ComputeThruOffset.mInToOutSampleOffset
        = _
      ring
  have hex : ∃ This', This.OutputProc 0 mSampleTime inNumberFrames ioData = some (This', out) := by
    unfold OutputProc
    rw [if_neg (not_lt.mpr hin), if_neg (by simp), if_pos hout, ho]
    exact ⟨_, rfl⟩
  obtain ⟨This', hT⟩ := hex
  obtain ⟨h1, h2, h3, h4⟩ := hoff This' out hT
  exact ⟨This', out, hT, h1, h2, h3, h4, fun hs => by rw [h4, ComputeThruOffset_seed This hs]⟩

theorem OutputProc_first_contact_witness :
    (∃ This' out, exampleSeeded.OutputProc 0 40 3 smallOut = some (This', out) ∧
      This'.mInToOutSampleOffset = 1012) ∧
    (∃ This' out, exampleSeeded.OutputProc 0 200 3 smallOut = some (This', out) ∧
      This'.mInToOutSampleOffset = 1172) := by
  obtain ⟨T1, o1, h1, -, -, -, -, s1⟩ := OutputProc_first_contact exampleSeeded 40 3 smallOut
    (by decide) (by decide) smallOut_sizesValid
  obtain ⟨T2, o2, h2, -, -, -, -, s2⟩ := OutputProc_first_contact exampleSeeded 200 3 smallOut
    (by decide) (by decide) smallOut_sizesValid
  refine ⟨⟨T1, o1, h1, ?_⟩, ⟨T2, o2, h2, ?_⟩⟩
  · rw [s1 (by decide)]
    norm_num [exampleSeeded]
  · rw [s2 (by decide)]
    norm_num [exampleSeeded]

/-- C12 at a behind miss: with the valid window `[1, 5)` and a sample offset of 12, the
consumer tick at sample time 10 with 3 frames reads at position `-2`; `Fetch` returns
`SlightlyBehind` (the request `[-2, 1)` lies before the window), and `OutputProc` sets
the offset to `12 + max(-2 - 1, 128) = 140`: the corrected read position for the same
tick is `-130`, 128 frames further before the valid window than the one that missed. -/
theorem OutputProc_behind_miss_moves_away :
    exampleLocked.mBuffer.StartTime = 1 ∧ exampleLocked.mBuffer.EndTime = 5 ∧
    exampleLocked.mInToOutSampleOffset = 12 ∧
    toSInt64 (10 - exampleLocked.mInToOutSampleOffset) = -2 ∧
    exampleLocked.mBuffer.Fetch smallOut 3 (-2)
      = some (kCARingBufferError_SlightlyBehind, smallOut) ∧
    ∃ This' out, exampleLocked.OutputProc 0 10 3 smallOut = some (This', out) ∧
      This'.mInToOutSampleOffset = 140 ∧
      10 - This'.mInToOutSampleOffset = -130 ∧
      10 - This'.mInToOutSampleOffset < 10 - exampleLocked.mInToOutSampleOffset ∧
      10 - exampleLocked.mInToOutSampleOffset < (exampleLocked.mBuffer.StartTime : ℚ) := by
  have hs : toSInt64 (10 - exampleLocked.mInToOutSampleOffset) = -2 := by
    norm_num [toSInt64, exampleLocked]
  have hS : exampleLocked.mBuffer.StartTime = 1 := by decide
  have hE : exampleLocked.mBuffer.EndTime = 5 := by decide
  have hf : exampleLocked.mBuffer.Fetch smallOut 3 (-2)
      = some (kCARingBufferError_SlightlyBehind, smallOut) := by decide
  obtain ⟨status, fetched, hf', hst, -, h1⟩ := OutputProc_locked_spec exampleLocked 10 3 smallOut
    (by decide) (by decide) smallStored_reachable smallStored_sized (by decide) (by decide)
    (by decide) (by decide) smallOut_sizesValid
  rw [hs, hf] at hf'
  obtain ⟨rfl, rfl⟩ := Prod.mk.inj (Option.some.inj hf')
  obtain ⟨out, ho⟩ := h1 (by decide)
  refine ⟨hS, hE, rfl, hs, hf, _, out, ho, ?_⟩
  have hoff : exampleLocked.mInToOutSampleOffset = 12 := rfl
  have hval : exampleLocked.mInToOutSampleOffset +
      (if kCARingBufferError_SlightlyBehind < kCARingBufferError_OK then
        max ((10 - exampleLocked.mInToOutSampleOffset) - exampleLocked.mBuffer.StartTime)
          kAdjustmentOffsetSamples
      else
        max (((10 - exampleLocked.mInToOutSampleOffset) + (3 : Nat))
          - exampleLocked.mBuffer.EndTime) kAdjustmentOffsetSamples) = 140 := by
    rw [if_pos (by decide), hS, hoff]
    norm_num [kAdjustmentOffsetSamples]
  refine ⟨hval, ?_, ?_, ?_⟩
  · show (10 : ℚ) - (exampleLocked.mInToOutSampleOffset + _) = -130
    rw [hval]; norm_num
  · show (10 : ℚ) - (exampleLocked.mInToOutSampleOffset + _) < _
    rw [hval, hoff]; norm_num
  · rw [hS, hoff]; norm_num

/-- C24: the correction of an ahead miss suffices. On a consumer tick of `OutputProc` at
sample time `ts` with frame count `n` (both first times recorded, on an allocated ring
buffer, the output buffers holding the requested frames) on which `Fetch` returns a
status above `OK` against bounds with end `validEnd`, the callback returns with a
corrected offset that satisfies `(ts - newOffset) + n ≤ validEnd`; the request time of
the same tick with the corrected offset, `SInt64(ts - newOffset)`, satisfies the same
bound, so that the request re-issued against the same bounds no longer reads past the
end of the valid window: its status is not above `OK`. -/
theorem OutputProc_ahead_correction_suffices (This : CAPlayThrough) (mSampleTime : ℚ)
    (inNumberFrames : Nat) (ioData : AudioBufferList) (hin : 0 ≤ This.mFirstInputTime)
    (hout : 0 ≤ This.mFirstOutputTime) (hr : Reachable This.mBuffer)
    (hz : Sized This.mBuffer) (hm : inNumberFrames < 2147483648)
    (hmb : inNumberFrames * This.mBuffer.mBytesPerFrame < 2147483648)
    (hlen : ioData.length ≤ This.mBuffer.mNumberChannels)
    (habl : ∀ a ∈ ioData, This.mBuffer.spanBytes inNumberFrames ≤ a.mData.length)
    (hv : SizesValid ioData) :
    ∃ (status : Int) (fetched : AudioBufferList) (This' : CAPlayThrough)
      (out : AudioBufferList) (validStart validEnd : Int),
      This.mBuffer.Fetch ioData inNumberFrames
        (toSInt64 (mSampleTime - This.mInToOutSampleOffset)) = some (status, fetched) ∧
      This.mBuffer.GetTimeBounds 0 0 = (kCARingBufferError_OK, validStart, validEnd) ∧
      This.OutputProc 0 mSampleTime inNumberFrames ioData = some (This', out) ∧
      This'.mBuffer = This.mBuffer ∧
      (status > kCARingBufferError_OK →
        (mSampleTime - This'.mInToOutSampleOffset) + inNumberFrames ≤ validEnd ∧
        toSInt64 (mSampleTime - This'.mInToOutSampleOffset) + inNumberFrames ≤ validEnd ∧
        ∀ (abl2 out2 : AudioBufferList) (err2 : Int),
          This'.mBuffer.Fetch abl2 inNumberFrames
            (toSInt64 (mSampleTime - This'.mInToOutSampleOffset)) = some (err2, out2) →
          err2 ≤ kCARingBufferError_OK) := by
  obtain ⟨status, fetched, hf, -, h0, h1⟩ := OutputProc_locked_spec This mSampleTime
    inNumberFrames ioData hin hout hr hz hm hmb hlen habl hv
  have hq := hr.queueInv
  by_cases hs : status = kCARingBufferError_OK
  · refine ⟨status, fetched, This, fetched, _, _, hf, hq.getTimeBounds 0 0, h0 hs, rfl,
      fun h => ?_⟩
    rw [hs] at h
    exact absurd h (lt_irrefl _)
  · obtain ⟨out, ho⟩ := h1 hs
    refine ⟨status, fetched, _, out, _, _, hf, hq.getTimeBounds 0 0, ho, rfl, fun h => ?_⟩
    have hnlt : ¬ status < kCARingBufferError_OK := by omega
    have hle : (mSampleTime - (This.mInToOutSampleOffset +
        max (((mSampleTime - This.mInToOutSampleOffset) + inNumberFrames)
          - This.mBuffer.EndTime) kAdjustmentOffsetSamples)) + inNumberFrames
        ≤ This.mBuffer.EndTime := by
      linarith [le_max_left (((mSampleTime - This.mInToOutSampleOffset) + inNumberFrames)
        - (This.mBuffer.EndTime : ℚ)) kAdjustmentOffsetSamples]
    have hreq : toSInt64 (mSampleTime - (This.mInToOutSampleOffset +
        max (((mSampleTime - This.mInToOutSampleOffset) + inNumberFrames)
          - This.mBuffer.EndTime) kAdjustmentOffsetSamples)) + inNumberFrames
        ≤ This.mBuffer.EndTime := by
      have := toSInt64_le (This.mBuffer.EndTime - inNumberFrames) _
        (show mSampleTime - (This.mInToOutSampleOffset +
          max (((mSampleTime - This.mInToOutSampleOffset) + inNumberFrames)
            - This.mBuffer.EndTime) kAdjustmentOffsetSamples)
          ≤ ((This.mBuffer.EndTime - inNumberFrames : Int) : ℚ) by
            push_cast; linarith)
      omega
    show (mSampleTime - (This.mInToOutSampleOffset + _) + inNumberFrames ≤ _) ∧
      (toSInt64 (mSampleTime - (This.mInToOutSampleOffset + _)) + inNumberFrames ≤ _) ∧ _
    rw [if_neg hnlt]
    refine ⟨hle, hreq, fun abl2 out2 err2 hf2 => ?_⟩
    have hf3 : This.mBuffer.Fetch abl2 inNumberFrames
        (toSInt64 (mSampleTime - (This.mInToOutSampleOffset +
          max (((mSampleTime - This.mInToOutSampleOffset) + inNumberFrames)
            - This.mBuffer.EndTime) kAdjustmentOffsetSamples))) = some (err2, out2) := hf2
    generalize toSInt64 (mSampleTime - (This.mInToOutSampleOffset +
      max (((mSampleTime - This.mInToOutSampleOffset) + inNumberFrames)
        - This.mBuffer.EndTime) kAdjustmentOffsetSamples)) = s2 at hreq hf3
    obtain ⟨rfl, -⟩ := (Fetch_eq_some_iff hq abl2 inNumberFrames s2 _ out2).mp hf3
    have hSE := hq.start_le_end
    unfold clipStatus kCARingBufferError_TooMuch kCARingBufferError_WayBehind
      kCARingBufferError_SlightlyBehind kCARingBufferError_WayAhead
      kCARingBufferError_SlightlyAhead kCARingBufferError_OK
    split_ifs <;> omega

theorem OutputProc_ahead_correction_suffices_witness :
    exampleLocked.mBuffer.Fetch smallOut 3 4 = some (kCARingBufferError_SlightlyAhead,
      [⟨2, [5, 6, 0, 0, 0, 0]⟩, ⟨2, [15, 16, 0, 0, 0, 0]⟩]) ∧
    ∃ This' out, exampleLocked.OutputProc 0 16 3 smallOut = some (This', out) ∧
      (16 - This'.mInToOutSampleOffset) + (3 : Nat) ≤ ((5 : Int) : ℚ) := by
  have hfe : exampleLocked.mBuffer.Fetch smallOut 3 4 = some (kCARingBufferError_SlightlyAhead,
      [⟨2, [5, 6, 0, 0, 0, 0]⟩, ⟨2, [15, 16, 0, 0, 0, 0]⟩]) := by decide
  have hs : toSInt64 (16 - exampleLocked.mInToOutSampleOffset) = 4 := by
    norm_num [toSInt64, exampleLocked]
  have hg : exampleLocked.mBuffer.GetTimeBounds 0 0 = (kCARingBufferError_OK, 1, 5) := by
    decide
  obtain ⟨status, fetched, This', out, vs, ve, hf, hgt, ho, -, hah⟩ :=
    OutputProc_ahead_correction_suffices exampleLocked 16 3 smallOut (by decide) (by decide)
      smallStored_reachable smallStored_sized (by decide) (by decide) (by decide) (by decide)
      smallOut_sizesValid
  rw [hs, hfe] at hf
  obtain ⟨rfl, -⟩ := Prod.mk.inj (Option.some.inj hf)
  rw [hg] at hgt
  obtain ⟨-, hgt2⟩ := Prod.mk.inj hgt
  obtain ⟨-, rfl⟩ := Prod.mk.inj hgt2
  exact ⟨hfe, This', out, ho, (hah (by decide)).1⟩

end CAPlayThrough
